import Mathlib

/-!
Verification of the Furnace module encoder (`fur_gen.c`) of WavSlicerChiptune.

The development shallowly embeds the encoder: bytes are `Nat` (kept below 256
by the writing primitives), the growable output buffer is a `List Nat` plus a
capacity counter, and every patch operation additionally records a trace event
so that patching behaviour can be stated as a theorem.
-/

namespace FurGen

set_option maxRecDepth 8000

/-! ### Little-endian byte encodings -/

/-- The two little-endian bytes that `buf_u16le` stores for `v`
    (the C `uint16_t` conversion is absorbed by the byte masks). -/
def bytes16 (v : Nat) : List Nat := [v % 256, v / 256 % 256]

/-- The four little-endian bytes that `buf_u32le` stores for `v`. -/
def bytes32 (v : Nat) : List Nat :=
  [v % 256, v / 256 % 256, v / 65536 % 256, v / 16777216 % 256]

/-- Value of a little-endian byte list. -/
def leNat : List Nat → Nat
  | [] => 0
  | b :: t => b + 256 * leNat t

@[simp] theorem bytes16_length (v : Nat) : (bytes16 v).length = 2 := rfl

@[simp] theorem bytes32_length (v : Nat) : (bytes32 v).length = 4 := rfl

@[simp] theorem leNat_bytes16 (v : Nat) : leNat (bytes16 v) = v % 65536 := by
  simp only [bytes16, leNat]
  omega

@[simp] theorem leNat_bytes32 (v : Nat) : leNat (bytes32 v) = v % 4294967296 := by
  simp only [bytes32, leNat]
  omega

/-! ### Byte-range overwrite (the patch primitive) and byte-range reads -/

/-- Overwrite the bytes of `l` starting at `off` with `vs`; this models the
    sequence of in-place byte stores performed by `buf_patch_u32`/`buf_patch_u16`. -/
def setBytes (l : List Nat) (off : Nat) : List Nat → List Nat
  | [] => l
  | v :: vs => setBytes (l.set off v) (off + 1) vs

/-- The `k` bytes of `l` starting at offset `off`. -/
def readBytes (l : List Nat) (off k : Nat) : List Nat := (l.drop off).take k

/-- Read a little-endian 16-bit value at `off`. -/
def readU16 (l : List Nat) (off : Nat) : Nat := leNat (readBytes l off 2)

/-- Read a little-endian 32-bit value at `off`. -/
def readU32 (l : List Nat) (off : Nat) : Nat := leNat (readBytes l off 4)

@[simp] theorem setBytes_nil (l : List Nat) (off : Nat) : setBytes l off [] = l := rfl

@[simp] theorem setBytes_length (l : List Nat) (off : Nat) (vs : List Nat) :
    (setBytes l off vs).length = l.length := by
  induction vs generalizing l off with
  | nil => rfl
  | cons v vs ih => simp [setBytes, ih]

theorem setBytes_cons_succ (a : Nat) (l : List Nat) (off : Nat) (vs : List Nat) :
    setBytes (a :: l) (off + 1) vs = a :: setBytes l off vs := by
  induction vs generalizing l off with
  | nil => rfl
  | cons v vs ih =>
    show setBytes (a :: l.set off v) (off + 1 + 1) vs
      = a :: setBytes (l.set off v) (off + 1) vs
    exact ih (l.set off v) (off + 1)

theorem setBytes_eq_of_le (l : List Nat) (off : Nat) (vs : List Nat)
    (h : off + vs.length ≤ l.length) :
    setBytes l off vs = l.take off ++ vs ++ l.drop (off + vs.length) := by
  induction vs generalizing l off with
  | nil => simp
  | cons v vs ih =>
    have hoff : off < l.length := by simp at h; omega
    show setBytes (l.set off v) (off + 1) vs = _
    rw [ih (l.set off v) (off + 1) (by simp at h ⊢; omega)]
    rw [List.set_eq_take_cons_drop v hoff]
    have h1 : (l.take off).length = off := by simp; omega
    rw [List.take_append_eq_append_take, List.drop_append_eq_append_drop, h1]
    rw [List.take_of_length_le (by omega : (l.take off).length ≤ off + 1)]
    rw [List.drop_eq_nil_of_le (by omega : (l.take off).length ≤ off + 1 + vs.length)]
    have e1 : off + 1 - off = 1 := by omega
    have e2 : off + 1 + vs.length - off = vs.length + 1 := by omega
    rw [e1, e2]
    simp only [List.take_succ_cons, List.take_zero, List.drop_succ_cons,
      List.nil_append, List.drop_drop]
    have e3 : off + 1 + vs.length = off + (v :: vs).length := by simp; omega
    simp [e3]

theorem setBytes_append_right (a b : List Nat) (off : Nat) (vs : List Nat)
    (h : a.length ≤ off) :
    setBytes (a ++ b) off vs = a ++ setBytes b (off - a.length) vs := by
  induction a generalizing off with
  | nil => simp
  | cons x a ih =>
    cases off with
    | zero => simp at h
    | succ o =>
      show setBytes (x :: (a ++ b)) (o + 1) vs = _
      rw [setBytes_cons_succ, ih o (by simpa using h)]
      simp [Nat.succ_sub_succ]

theorem setBytes_append_left (a b : List Nat) (off : Nat) (vs : List Nat)
    (h : off + vs.length ≤ a.length) :
    setBytes (a ++ b) off vs = setBytes a off vs ++ b := by
  rw [setBytes_eq_of_le a off vs h,
      setBytes_eq_of_le (a ++ b) off vs (by simp; omega),
      List.take_append_eq_append_take, List.drop_append_eq_append_drop,
      Nat.sub_eq_zero_of_le (by omega : off ≤ a.length),
      Nat.sub_eq_zero_of_le (by omega : off + vs.length ≤ a.length)]
  simp

/-- Overwriting exactly a placeholder region `c` lying between `a` and `b`. -/
theorem setBytes_at_append (a c b vs : List Nat) (h : vs.length = c.length) :
    setBytes (a ++ (c ++ b)) a.length vs = a ++ (vs ++ b) := by
  rw [setBytes_append_right a (c ++ b) a.length vs (Nat.le_refl _), Nat.sub_self]
  congr 1
  rw [setBytes_eq_of_le (c ++ b) 0 vs (by simp; omega)]
  simp only [List.take_zero, List.nil_append, Nat.zero_add]
  congr 1
  rw [h, List.drop_left]

/-! ### readBytes over appends and setBytes -/

theorem readBytes_append_right (a b : List Nat) (off k : Nat) (h : a.length ≤ off) :
    readBytes (a ++ b) off k = readBytes b (off - a.length) k := by
  simp [readBytes, List.drop_append_eq_append_drop, List.drop_eq_nil_of_le h]

theorem readBytes_append_left (a b : List Nat) (off k : Nat) (h : off + k ≤ a.length) :
    readBytes (a ++ b) off k = readBytes a off k := by
  simp only [readBytes, List.drop_append_eq_append_drop, List.take_append_eq_append_take]
  rw [Nat.sub_eq_zero_of_le (by simp; omega : k ≤ (a.drop off).length)]
  simp

theorem readBytes_setBytes_self (l : List Nat) (off : Nat) (vs : List Nat)
    (h : off + vs.length ≤ l.length) :
    readBytes (setBytes l off vs) off vs.length = vs := by
  rw [setBytes_eq_of_le l off vs h]
  have h1 : (l.take off).length = off := by simp; omega
  rw [List.append_assoc, readBytes_append_right _ _ _ _ (by omega), h1, Nat.sub_self]
  simp [readBytes, List.take_append_eq_append_take]

theorem readBytes_setBytes_out (l : List Nat) (off : Nat) (vs : List Nat) (roff k : Nat)
    (hb : off + vs.length ≤ l.length)
    (hd : off + vs.length ≤ roff ∨ roff + k ≤ off) :
    readBytes (setBytes l off vs) roff k = readBytes l roff k := by
  rw [setBytes_eq_of_le l off vs hb]
  have h1 : (l.take off).length = off := by simp; omega
  rcases hd with hd | hd
  · have hA : (l.take off ++ vs).length = off + vs.length := by simp; omega
    rw [readBytes_append_right _ _ _ _ (by omega : (l.take off ++ vs).length ≤ roff), hA]
    simp only [readBytes, List.drop_drop]
    congr 2
    omega
  · rw [readBytes_append_left _ _ _ _ (by simp; omega),
        readBytes_append_left _ _ _ _ (by omega)]
    simp only [readBytes, List.drop_take, List.take_take]
    congr 1
    omega

/-! ### Sequences of u32 patches -/

/-- Apply a list of `(offset, value)` 32-bit little-endian patches in order. -/
def applyU32Patches (l : List Nat) : List (Nat × Nat) → List Nat
  | [] => l
  | (off, v) :: ps => applyU32Patches (setBytes l off (bytes32 v)) ps

/-- Two u32 patches touch disjoint byte ranges. -/
def PDisj (p q : Nat × Nat) : Prop := p.1 + 4 ≤ q.1 ∨ q.1 + 4 ≤ p.1

@[simp] theorem applyU32Patches_nil (l : List Nat) : applyU32Patches l [] = l := rfl

@[simp] theorem applyU32Patches_length (l : List Nat) (ps : List (Nat × Nat)) :
    (applyU32Patches l ps).length = l.length := by
  induction ps generalizing l with
  | nil => rfl
  | cons p ps ih => cases p; simp [applyU32Patches, ih]

theorem applyU32Patches_append_ps (l : List Nat) (ps qs : List (Nat × Nat)) :
    applyU32Patches l (ps ++ qs) = applyU32Patches (applyU32Patches l ps) qs := by
  induction ps generalizing l with
  | nil => rfl
  | cons p ps ih => cases p; simp [applyU32Patches, ih]

theorem applyU32Patches_append_left (l m : List Nat) (ps : List (Nat × Nat))
    (h : ∀ p ∈ ps, p.1 + 4 ≤ l.length) :
    applyU32Patches l ps ++ m = applyU32Patches (l ++ m) ps := by
  induction ps generalizing l with
  | nil => rfl
  | cons p ps ih =>
    cases p with
    | mk off v =>
      simp only [applyU32Patches]
      rw [ih (setBytes l off (bytes32 v))
          (by intro q hq; simp only [setBytes_length]; exact h q (List.mem_cons_of_mem _ hq))]
      rw [setBytes_append_left l m off (bytes32 v)
          (by simpa using h _ (List.mem_cons_self _ _))]

theorem readBytes_applyU32Patches_out (l : List Nat) (ps : List (Nat × Nat)) (roff k : Nat)
    (hb : ∀ p ∈ ps, p.1 + 4 ≤ l.length)
    (hd : ∀ p ∈ ps, p.1 + 4 ≤ roff ∨ roff + k ≤ p.1) :
    readBytes (applyU32Patches l ps) roff k = readBytes l roff k := by
  induction ps generalizing l with
  | nil => rfl
  | cons p ps ih =>
    cases p with
    | mk off v =>
      simp only [applyU32Patches]
      rw [ih (setBytes l off (bytes32 v))
          (by intro q hq; simp only [setBytes_length]; exact hb q (List.mem_cons_of_mem _ hq))
          (fun q hq => hd q (List.mem_cons_of_mem _ hq))]
      exact readBytes_setBytes_out l off (bytes32 v) roff k
        (by simpa using hb _ (List.mem_cons_self _ _))
        (by simpa using hd _ (List.mem_cons_self _ _))

theorem readU32_applyU32Patches_mem (l : List Nat) (ps : List (Nat × Nat)) (off v : Nat)
    (hmem : (off, v) ∈ ps)
    (hpw : ps.Pairwise PDisj)
    (hb : ∀ p ∈ ps, p.1 + 4 ≤ l.length) :
    readU32 (applyU32Patches l ps) off = v % 4294967296 := by
  induction ps generalizing l with
  | nil => cases hmem
  | cons p ps ih =>
    rcases List.mem_cons.mp hmem with h | h
    · subst h
      simp only [applyU32Patches]
      have hdisj : ∀ q ∈ ps, off + 4 ≤ q.1 ∨ q.1 + 4 ≤ off := by
        intro q hq
        exact (List.pairwise_cons.mp hpw).1 q hq
      rw [readU32, readBytes_applyU32Patches_out _ ps off 4
          (by intro q hq; simp only [setBytes_length]; exact hb q (List.mem_cons_of_mem _ hq))
          (fun q hq => (hdisj q hq).symm)]
      have hself := readBytes_setBytes_self l off (bytes32 v)
        (by simpa using hb _ (List.mem_cons_self _ _))
      simp only [bytes32_length] at hself
      rw [hself, leNat_bytes32]
    · cases p with
      | mk o2 v2 =>
        simp only [applyU32Patches]
        exact ih (setBytes l o2 (bytes32 v2)) h (List.Pairwise.of_cons hpw)
          (by intro q hq; simp only [setBytes_length]; exact hb q (List.mem_cons_of_mem _ hq))

/-! ### The growable output buffer (`Buffer` in fur_gen.c) with a patch trace -/

structure Buffer where
  data : List Nat
  cap : Nat
deriving DecidableEq

/-- One patch operation: which offset was overwritten, how many bytes, with
    which value, and how long the buffer was at the moment of the patch. -/
structure PEvent where
  off : Nat
  width : Nat
  val : Nat
  lenAt : Nat
deriving DecidableEq

structure Enc where
  buf : Buffer
  trace : List PEvent
deriving DecidableEq

/-- `buf_init`: 4 MiB initial capacity, empty contents. -/
def bufInit : Enc := ⟨⟨[], 4 * 1024 * 1024⟩, []⟩

/-- The capacity-doubling loop of `buf_ensure`.  The `0 < cap` guard only
    excludes the state the C program can never reach (its initial capacity is
    positive and doubling preserves positivity); on `cap = 0`, `need > 0` the C
    loop would not terminate. -/
def growCap (need cap : Nat) : Nat :=
  if h : 0 < cap ∧ cap < need then growCap need (cap * 2) else cap
termination_by need - cap
decreasing_by omega

def buf_write (e : Enc) (src : List Nat) : Enc :=
  { e with buf := ⟨e.buf.data ++ src, growCap (e.buf.data.length + src.length) e.buf.cap⟩ }

def buf_u8 (e : Enc) (v : Nat) : Enc := buf_write e [v % 256]

def buf_u16le (e : Enc) (v : Nat) : Enc := buf_write e (bytes16 v)

def buf_u32le (e : Enc) (v : Nat) : Enc := buf_write e (bytes32 v)

def buf_i32le (e : Enc) (v : Int) : Enc := buf_u32le e (v % (4294967296 : Int)).toNat

def buf_zeros (e : Enc) (n : Nat) : Enc := buf_write e (List.replicate n 0)

def buf_fill (e : Enc) (v n : Nat) : Enc := buf_write e (List.replicate n (v % 256))

/-- The bytes `buf_str` emits for a C string: everything before the first NUL,
    plus the terminator. -/
def cstr (s : List Nat) : List Nat := s.takeWhile (fun b => b != 0) ++ [0]

/-- `strlen` on the embedded byte-list strings. -/
def strlenL (s : List Nat) : Nat := (s.takeWhile (fun b => b != 0)).length

def buf_str (e : Enc) (s : List Nat) : Enc := buf_write e (cstr s)

def buf_tag (e : Enc) (t : List Nat) : Enc := buf_write e t

def buf_patch_u32 (e : Enc) (off v : Nat) : Enc :=
  ⟨⟨setBytes e.buf.data off (bytes32 v), e.buf.cap⟩,
   e.trace ++ [⟨off, 4, v % 4294967296, e.buf.data.length⟩]⟩

def buf_patch_u16 (e : Enc) (off v : Nat) : Enc :=
  ⟨⟨setBytes e.buf.data off (bytes16 v), e.buf.cap⟩,
   e.trace ++ [⟨off, 2, v % 65536, e.buf.data.length⟩]⟩

/-! ### Fixed byte tables of fur_gen.c -/

def tagINFO : List Nat := [73, 78, 70, 79]
def tagADIR : List Nat := [65, 68, 73, 82]
def tagINS2 : List Nat := [73, 78, 83, 50]
def tagSMP2 : List Nat := [83, 77, 80, 50]
def tagPATN : List Nat := [80, 65, 84, 78]

/-- The 16 bytes of `"-Furnace module-"`. -/
def furMagic : List Nat :=
  [45, 70, 117, 114, 110, 97, 99, 101, 32, 109, 111, 100, 117, 108, 101, 45]

/-- The 4 little-endian IEEE-754 bytes of `60.0f` written by `buf_float_le`. -/
def float60le : List Nat := [0, 0, 112, 66]

def POST_ORDER : List Nat := [
  1, 3, 0, 0, 0, 0, 0, 0, 128, 63, 0, 0, 0, 0, 0, 1,
  1, 0, 0, 1, 0, 0, 1, 4, 0, 0, 1, 1, 0, 0, 0, 0,
  2, 0, 1, 0, 0, 0, 0, 0, 0, 0, 0, 0, 0, 0, 0, 0,
  71, 101, 110, 101, 114, 105, 99, 32, 80, 67, 77, 32, 68, 65, 67, 0,
  0, 0, 0, 0, 0, 0, 0, 128, 63, 0, 0, 0, 0, 0, 0, 0,
  0, 34, 0, 0, 0, 0, 0, 0, 0, 1, 0, 1, 0, 0, 0, 208,
  255, 1, 0, 208, 255, 2, 0, 208, 255, 3, 0, 208, 255, 4, 0, 208,
  255, 5, 0, 208, 255, 6, 0, 208, 255, 7, 0, 208, 255, 8, 0, 208,
  255, 9, 0, 208, 255, 10, 0, 208, 255, 11, 0, 208, 255, 12, 0, 208,
  255, 13, 0, 208, 255, 14, 0, 208, 255, 15, 0, 208, 255, 0, 0, 224,
  255, 1, 0, 224, 255, 2, 0, 224, 255, 3, 0, 224, 255, 4, 0, 224,
  255, 5, 0, 224, 255, 6, 0, 224, 255, 7, 0, 224, 255, 8, 0, 224,
  255, 9, 0, 224, 255, 10, 0, 224, 255, 11, 0, 224, 255, 12, 0, 224,
  255, 13, 0, 224, 255, 14, 0, 224, 255, 15, 0, 224, 255, 1, 0, 0,
  0, 0, 0, 0, 0, 0, 1, 4, 6, 6, 6, 6, 6, 6, 6, 6,
  6, 6, 6, 6, 6, 6, 6, 0, 0, 0, 0, 0, 0, 0, 0, 0,
  0, 0, 0, 0]

def CONFIG_FLAGS : List Nat := [
  220, 67, 0, 2, 2, 1, 0, 0, 0, 0, 1, 1, 0, 0, 0, 0,
  0, 0, 0, 0, 1, 1]

/-! ### Sample records -/

structure SampleData where
  filename : List Nat
  name : List Nat
  pcm : List Nat
  n_samples : Nat
  channels : Nat
  sample_rate : Nat
  bit_depth : Nat
deriving DecidableEq

instance : Inhabited SampleData := ⟨⟨[], [], [], 0, 0, 0, 0⟩⟩

/-! ### Block writers -/

/-- A run of `buf_u32le(b, 0)` placeholder writes (the three pointer-table
    loops inside `write_info`). -/
def zeroPtrs (e : Enc) : Nat → Enc
  | 0 => e
  | k + 1 => zeroPtrs (buf_u32le e 0) k

/-- A loop writing the single byte `i`, `i+1`, ... (the order table of
    `write_info` and the group-member loops of the ADIR writers). -/
def u8IndexLoop (e : Enc) (i : Nat) : Nat → Enc
  | 0 => e
  | k + 1 => u8IndexLoop (buf_u8 e i) (i + 1) k

/-- `write_info`.  Returns the encoder state plus the two out-parameters
    `ptr_table_off` and `post_order_off`. -/
def write_info (e : Enc) (n speed pattern_rows vt_num vt_den : Nat) :
    Enc × Nat × Nat :=
  let e := buf_tag e tagINFO
  let size_slot := e.buf.data.length
  let e := buf_u32le e 0
  let payload_start := e.buf.data.length
  let e := buf_u8 e 0
  let e := buf_u8 e speed
  let e := buf_u8 e speed
  let e := buf_u8 e 1
  let e := buf_write e float60le
  let e := buf_u16le e pattern_rows
  let e := buf_u16le e n
  let e := buf_u8 e 4
  let e := buf_u8 e 16
  let e := buf_u16le e n
  let e := buf_u16le e 0
  let e := buf_u16le e n
  let e := buf_u16le e n
  let e := buf_u16le e 0
  let e := buf_u8 e 192
  let e := buf_zeros e 31
  let e := buf_fill e 64 32
  let e := buf_zeros e 32
  let e := buf_zeros e 132
  let e := buf_write e CONFIG_FLAGS
  let ptr_table_off := e.buf.data.length
  let e := zeroPtrs e n
  let e := zeroPtrs e n
  let e := zeroPtrs e n
  let e := u8IndexLoop e 0 n
  let post_order_off := e.buf.data.length
  let e := buf_write e POST_ORDER
  let e := buf_patch_u16 e (post_order_off + 38) vt_num
  let e := buf_patch_u16 e (post_order_off + 40) vt_den
  let e := buf_patch_u32 e size_slot (e.buf.data.length - payload_start)
  (e, ptr_table_off, post_order_off)

/-- `write_adir_ins`: directory block for instruments. -/
def write_adir_ins (e : Enc) (n : Nat) : Enc :=
  let bsz := n + 7
  let e := buf_tag e tagADIR
  let e := buf_u32le e bsz
  let e := buf_u32le e 1
  let e := buf_u8 e 0
  let e := buf_u8 e n
  let e := buf_u16le e 0
  u8IndexLoop e 1 (n - 1)

/-- `write_adir_wav`: directory block for (zero) wavetables. -/
def write_adir_wav (e : Enc) : Enc :=
  let e := buf_tag e tagADIR
  let e := buf_u32le e 4
  buf_u32le e 0

/-- `write_adir_smp`: directory block for samples. -/
def write_adir_smp (e : Enc) (n : Nat) : Enc :=
  let bsz := n + 7
  let e := buf_tag e tagADIR
  let e := buf_u32le e bsz
  let e := buf_u32le e 1
  let e := buf_u8 e 0
  let e := buf_u8 e n
  let e := buf_u16le e 0
  u8IndexLoop e 1 (n - 1)

/-- The sample-map loop of `write_ins2` (`SM_ENTRIES` iterations of
    note 48 plus the sample index). -/
def smLoop (e : Enc) (sample_index : Nat) : Nat → Enc
  | 0 => e
  | k + 1 => smLoop (buf_u16le (buf_u16le e 48) sample_index) sample_index k

/-- The note/envelope loop of `write_ins2` (120 iterations of `0x0F 0xFF`). -/
def neLoop (e : Enc) : Nat → Enc
  | 0 => e
  | k + 1 => neLoop (buf_u8 (buf_u8 e 15) 255) k

/-- `write_ins2`: one single-sample instrument block. -/
def write_ins2 (e : Enc) (inst_name : List Nat) (sample_index : Nat) : Enc :=
  let e := buf_tag e tagINS2
  let size_slot := e.buf.data.length
  let e := buf_u32le e 0
  let payload_start := e.buf.data.length
  let e := buf_u16le e 228
  let e := buf_u16le e 4
  let name_len := strlenL inst_name
  let e := buf_write e [78, 65]
  let e := buf_u16le e (name_len + 1)
  let e := buf_str e inst_name
  let e := buf_write e [83, 77]
  let e := buf_u16le e 484
  let e := buf_u8 e 0
  let e := buf_u8 e 0
  let e := buf_u8 e 1
  let e := buf_u8 e 31
  let e := smLoop e sample_index 120
  let e := buf_write e [78, 69]
  let e := buf_u16le e 241
  let e := buf_u8 e 1
  let e := neLoop e 120
  let e := buf_write e [69, 78]
  buf_patch_u32 e size_slot (e.buf.data.length - payload_start)

/-- `write_smp2`: one sample block. -/
def write_smp2 (e : Enc) (s : SampleData) : Enc :=
  let e := buf_tag e tagSMP2
  let size_slot := e.buf.data.length
  let e := buf_u32le e 0
  let payload_start := e.buf.data.length
  let e := buf_str e s.name
  let e := buf_u32le e s.n_samples
  let e := buf_u32le e s.sample_rate
  let e := buf_u32le e s.sample_rate
  let e := buf_u8 e s.bit_depth
  let e := buf_u8 e 0
  let e := buf_u8 e 1
  let e := buf_u8 e 0
  let e := buf_i32le e (-1)
  let e := buf_i32le e (-1)
  let e := buf_fill e 255 16
  let e := buf_write e s.pcm
  buf_patch_u32 e size_slot (e.buf.data.length - payload_start)

/-- `write_patn`: one pattern block (fixed 9-byte payload). -/
def write_patn (e : Enc) (index : Nat) : Enc :=
  let e := buf_tag e tagPATN
  let e := buf_u32le e 9
  let e := buf_u8 e 0
  let e := buf_u8 e 0
  let e := buf_u16le e index
  let e := buf_u8 e 0
  let e := buf_u8 e 3
  let e := buf_u8 e 60
  let e := buf_u8 e index
  buf_u8 e 255

/-! ### The main assembly loops and `encode` (main after loading) -/

def ins2Loop (e : Enc) (ss : List SampleData) (i ptr_table_off : Nat) : Enc :=
  match ss with
  | [] => e
  | s :: rest =>
    let ins_off := e.buf.data.length
    let e := write_ins2 e s.name i
    let e := buf_patch_u32 e (ptr_table_off + i * 4) ins_off
    ins2Loop e rest (i + 1) ptr_table_off

def smp2Loop (e : Enc) (ss : List SampleData) (i n ptr_table_off : Nat) : Enc :=
  match ss with
  | [] => e
  | s :: rest =>
    let smp_off := e.buf.data.length
    let e := write_smp2 e s
    let e := buf_patch_u32 e (ptr_table_off + n * 4 + i * 4) smp_off
    smp2Loop e rest (i + 1) n ptr_table_off

def patnLoop (e : Enc) (i n ptr_table_off : Nat) : Nat → Enc
  | 0 => e
  | k + 1 =>
    let patn_off := e.buf.data.length
    let e := write_patn e i
    let e := buf_patch_u32 e (ptr_table_off + n * 2 * 4 + i * 4) patn_off
    patnLoop e (i + 1) n ptr_table_off k

/-- The post-INFO phase of `main`: ADIR blocks, the three directory-pointer
    patches, and the instrument/sample/pattern loops. -/
def encodeTail (e : Enc) (ss : List SampleData) (ptr_table_off post_order_off : Nat) : Enc :=
  let n := ss.length
  let adir0_off := e.buf.data.length
  let e := write_adir_ins e n
  let adir1_off := e.buf.data.length
  let e := write_adir_wav e
  let adir2_off := e.buf.data.length
  let e := write_adir_smp e n
  let e := buf_patch_u32 e (post_order_off + 248) adir0_off
  let e := buf_patch_u32 e (post_order_off + 252) adir1_off
  let e := buf_patch_u32 e (post_order_off + 256) adir2_off
  let e := ins2Loop e ss 0 ptr_table_off
  let e := smp2Loop e ss 0 n ptr_table_off
  patnLoop e 0 n ptr_table_off n

/-- The whole container-assembly phase of `main` (from `buf_init` to the last
    pattern pointer patch), as a function of the loaded samples and the
    already-computed tempo values. -/
def encode (ss : List SampleData) (speed pattern_rows vt_num vt_den : Nat) : Enc :=
  let n := ss.length
  let e := bufInit
  let e := buf_write e furMagic
  let e := buf_u16le e 228
  let e := buf_u16le e 0
  let e := buf_u32le e 32
  let e := buf_zeros e 8
  let r := write_info e n speed pattern_rows vt_num vt_den
  encodeTail r.1 ss r.2.1 r.2.2


/-! ### Projection lemmas for the buffer operations -/

@[simp] theorem buf_write_data (e : Enc) (src : List Nat) :
    (buf_write e src).buf.data = e.buf.data ++ src := rfl

@[simp] theorem buf_write_trace (e : Enc) (src : List Nat) :
    (buf_write e src).trace = e.trace := rfl

@[simp] theorem buf_patch_u32_data (e : Enc) (off v : Nat) :
    (buf_patch_u32 e off v).buf.data = setBytes e.buf.data off (bytes32 v) := rfl

@[simp] theorem buf_patch_u32_trace (e : Enc) (off v : Nat) :
    (buf_patch_u32 e off v).trace
      = e.trace ++ [⟨off, 4, v % 4294967296, e.buf.data.length⟩] := rfl

@[simp] theorem buf_patch_u16_data (e : Enc) (off v : Nat) :
    (buf_patch_u16 e off v).buf.data = setBytes e.buf.data off (bytes16 v) := rfl

@[simp] theorem buf_patch_u16_trace (e : Enc) (off v : Nat) :
    (buf_patch_u16 e off v).trace
      = e.trace ++ [⟨off, 2, v % 65536, e.buf.data.length⟩] := rfl

@[simp] theorem tagINFO_length : tagINFO.length = 4 := rfl
@[simp] theorem tagADIR_length : tagADIR.length = 4 := rfl
@[simp] theorem tagINS2_length : tagINS2.length = 4 := rfl
@[simp] theorem tagSMP2_length : tagSMP2.length = 4 := rfl
@[simp] theorem tagPATN_length : tagPATN.length = 4 := rfl
@[simp] theorem furMagic_length : furMagic.length = 16 := rfl
@[simp] theorem float60le_length : float60le.length = 4 := rfl
@[simp] theorem POST_ORDER_length : POST_ORDER.length = 260 := rfl
@[simp] theorem CONFIG_FLAGS_length : CONFIG_FLAGS.length = 22 := rfl

@[simp] theorem cstr_length (s : List Nat) : (cstr s).length = strlenL s + 1 := by
  simp [cstr, strlenL]

/-! ### Byte-level layout of each block -/

/-- Bytes appended by `zeroPtrs`. -/
def zeroPtrsBytes : Nat → List Nat
  | 0 => []
  | k + 1 => bytes32 0 ++ zeroPtrsBytes k

/-- Bytes appended by `u8IndexLoop` starting at index `i`. -/
def u8IndexBytes (i : Nat) : Nat → List Nat
  | 0 => []
  | k + 1 => i % 256 :: u8IndexBytes (i + 1) k

/-- Bytes appended by `smLoop`. -/
def smBytes (sample_index : Nat) : Nat → List Nat
  | 0 => []
  | k + 1 => (bytes16 48 ++ bytes16 sample_index) ++ smBytes sample_index k

/-- Bytes appended by `neLoop`. -/
def neBytes : Nat → List Nat
  | 0 => []
  | k + 1 => 15 :: 255 :: neBytes k

@[simp] theorem zeroPtrsBytes_length (n : Nat) : (zeroPtrsBytes n).length = 4 * n := by
  induction n with
  | zero => rfl
  | succ k ih => simp [zeroPtrsBytes, ih]; omega

@[simp] theorem u8IndexBytes_length (i n : Nat) : (u8IndexBytes i n).length = n := by
  induction n generalizing i with
  | zero => rfl
  | succ k ih => simp [u8IndexBytes, ih]

@[simp] theorem smBytes_length (idx n : Nat) : (smBytes idx n).length = 4 * n := by
  induction n with
  | zero => rfl
  | succ k ih => simp [smBytes, ih]; omega

@[simp] theorem neBytes_length (n : Nat) : (neBytes n).length = 2 * n := by
  induction n with
  | zero => rfl
  | succ k ih => simp [neBytes, ih]; omega

@[simp] theorem zeroPtrs_data (e : Enc) (n : Nat) :
    (zeroPtrs e n).buf.data = e.buf.data ++ zeroPtrsBytes n := by
  induction n generalizing e with
  | zero => simp [zeroPtrs, zeroPtrsBytes]
  | succ k ih => simp [zeroPtrs, zeroPtrsBytes, ih, buf_u32le, List.append_assoc]

@[simp] theorem zeroPtrs_trace (e : Enc) (n : Nat) : (zeroPtrs e n).trace = e.trace := by
  induction n generalizing e with
  | zero => rfl
  | succ k ih => simp [zeroPtrs, ih, buf_u32le]

@[simp] theorem u8IndexLoop_data (e : Enc) (i n : Nat) :
    (u8IndexLoop e i n).buf.data = e.buf.data ++ u8IndexBytes i n := by
  induction n generalizing e i with
  | zero => simp [u8IndexLoop, u8IndexBytes]
  | succ k ih => simp [u8IndexLoop, u8IndexBytes, ih, buf_u8, List.append_assoc]

@[simp] theorem u8IndexLoop_trace (e : Enc) (i n : Nat) :
    (u8IndexLoop e i n).trace = e.trace := by
  induction n generalizing e i with
  | zero => rfl
  | succ k ih => simp [u8IndexLoop, ih, buf_u8]

@[simp] theorem smLoop_data (e : Enc) (idx n : Nat) :
    (smLoop e idx n).buf.data = e.buf.data ++ smBytes idx n := by
  induction n generalizing e with
  | zero => simp [smLoop, smBytes]
  | succ k ih => simp [smLoop, smBytes, ih, buf_u16le, List.append_assoc]

@[simp] theorem smLoop_trace (e : Enc) (idx n : Nat) : (smLoop e idx n).trace = e.trace := by
  induction n generalizing e with
  | zero => rfl
  | succ k ih => simp [smLoop, ih, buf_u16le]

@[simp] theorem neLoop_data (e : Enc) (n : Nat) :
    (neLoop e n).buf.data = e.buf.data ++ neBytes n := by
  induction n generalizing e with
  | zero => simp [neLoop, neBytes]
  | succ k ih => simp [neLoop, neBytes, ih, buf_u8, List.append_assoc]

@[simp] theorem neLoop_trace (e : Enc) (n : Nat) : (neLoop e n).trace = e.trace := by
  induction n generalizing e with
  | zero => rfl
  | succ k ih => simp [neLoop, ih, buf_u8]

/-- The fixed 274-byte head section of the INFO payload. -/
def headBytes (n speed pattern_rows : Nat) : List Nat :=
  [0, speed % 256, speed % 256, 1] ++ float60le ++ bytes16 pattern_rows ++ bytes16 n
    ++ [4, 16] ++ bytes16 n ++ bytes16 0 ++ bytes16 n ++ bytes16 n ++ bytes16 0
    ++ [192] ++ List.replicate 31 0 ++ List.replicate 32 64 ++ List.replicate 32 0
    ++ List.replicate 132 0 ++ CONFIG_FLAGS

@[simp] theorem headBytes_length (n s p : Nat) : (headBytes n s p).length = 274 := by
  simp [headBytes]

/-- `POST_ORDER` with the two virtual-tempo fields patched in. -/
def postOrderPatched (vt_num vt_den : Nat) : List Nat :=
  setBytes (setBytes POST_ORDER 38 (bytes16 vt_num)) 40 (bytes16 vt_den)

@[simp] theorem postOrderPatched_length (vn vd : Nat) :
    (postOrderPatched vn vd).length = 260 := by
  simp [postOrderPatched]

/-- The INFO block, with its size field and tempo fields resolved and all
    pointer slots still zero. -/
def infoBytes (n speed pattern_rows vt_num vt_den : Nat) : List Nat :=
  tagINFO ++ (bytes32 (534 + 13 * n) ++ (headBytes n speed pattern_rows
    ++ (zeroPtrsBytes n ++ (zeroPtrsBytes n ++ (zeroPtrsBytes n
    ++ (u8IndexBytes 0 n ++ postOrderPatched vt_num vt_den))))))

@[simp] theorem infoBytes_length (n s p vn vd : Nat) :
    (infoBytes n s p vn vd).length = 542 + 13 * n := by
  simp [infoBytes]; omega

/-- ADIR block for instruments/samples with `n` entries in one group
    (the shared shape of `write_adir_ins` and `write_adir_smp`). -/
def adirGrpBytes (n : Nat) : List Nat :=
  tagADIR ++ (bytes32 (n + 7) ++ (bytes32 1 ++ (0 :: n % 256 :: (bytes16 0
    ++ u8IndexBytes 1 (n - 1)))))

/-- ADIR block for the (always empty) wavetable directory. -/
def adirWavBytes : List Nat := tagADIR ++ (bytes32 4 ++ bytes32 0)

@[simp] theorem adirGrpBytes_length (n : Nat) :
    (adirGrpBytes n).length = 16 + (n - 1) := by
  simp [adirGrpBytes]; omega

@[simp] theorem adirWavBytes_length : adirWavBytes.length = 12 := rfl

/-- The INS2 payload (after the tag and size field). -/
def ins2Payload (nm : List Nat) (idx : Nat) : List Nat :=
  bytes16 228 ++ (bytes16 4 ++ ([78, 65] ++ (bytes16 (strlenL nm + 1) ++ (cstr nm
    ++ ([83, 77] ++ (bytes16 484 ++ ([0, 0, 1, 31] ++ (smBytes idx 120
    ++ ([78, 69] ++ (bytes16 241 ++ ([1] ++ (neBytes 120 ++ [69, 78]))))))))))))

@[simp] theorem ins2Payload_length (nm : List Nat) (idx : Nat) :
    (ins2Payload nm idx).length = 744 + strlenL nm := by
  simp [ins2Payload]; omega

/-- One full INS2 block. -/
def ins2Bytes (nm : List Nat) (idx : Nat) : List Nat :=
  tagINS2 ++ (bytes32 (744 + strlenL nm) ++ ins2Payload nm idx)

@[simp] theorem ins2Bytes_length (nm : List Nat) (idx : Nat) :
    (ins2Bytes nm idx).length = 752 + strlenL nm := by
  simp [ins2Bytes]; omega

/-- The SMP2 payload (after the tag and size field). -/
def smp2Payload (s : SampleData) : List Nat :=
  cstr s.name ++ (bytes32 s.n_samples ++ (bytes32 s.sample_rate
    ++ (bytes32 s.sample_rate ++ (s.bit_depth % 256 :: 0 :: 1 :: 0
    :: (bytes32 4294967295 ++ (bytes32 4294967295
    ++ (List.replicate 16 255 ++ s.pcm)))))))

@[simp] theorem smp2Payload_length (s : SampleData) :
    (smp2Payload s).length = 41 + strlenL s.name + s.pcm.length := by
  simp [smp2Payload]; omega

/-- One full SMP2 block. -/
def smp2Bytes (s : SampleData) : List Nat :=
  tagSMP2 ++ (bytes32 (41 + strlenL s.name + s.pcm.length) ++ smp2Payload s)

@[simp] theorem smp2Bytes_length (s : SampleData) :
    (smp2Bytes s).length = 49 + strlenL s.name + s.pcm.length := by
  simp [smp2Bytes]; omega

/-- One full PATN block. -/
def patnBytes (idx : Nat) : List Nat :=
  tagPATN ++ (bytes32 9 ++ (0 :: 0 :: (bytes16 idx ++ [0, 3, 60, idx % 256, 255])))

@[simp] theorem patnBytes_length (idx : Nat) : (patnBytes idx).length = 17 := by
  simp [patnBytes]

/-! ### Effect lemmas for the block writers -/

/-- Shared reasoning for the reserve-then-patch size field: if `E` holds
    `e0`'s data followed by a tag, a four-byte placeholder and the payload,
    then patching the placeholder (at the recorded `size_slot`) with
    `current length - payload_start` resolves the size field. -/
theorem size_patch_helper (e0 E : Enc) (tag payload : List Nat)
    (hdata : E.buf.data = (e0.buf.data ++ tag) ++ (bytes32 0 ++ payload))
    (htag : tag.length = 4)
    (htrace : E.trace = e0.trace) :
    (buf_patch_u32 E (buf_tag e0 tag).buf.data.length
        (E.buf.data.length - (buf_u32le (buf_tag e0 tag) 0).buf.data.length)).buf.data
      = e0.buf.data ++ (tag ++ (bytes32 payload.length ++ payload))
    ∧ (buf_patch_u32 E (buf_tag e0 tag).buf.data.length
        (E.buf.data.length - (buf_u32le (buf_tag e0 tag) 0).buf.data.length)).trace
      = e0.trace ++ [⟨e0.buf.data.length + 4, 4, payload.length % 4294967296,
           e0.buf.data.length + 8 + payload.length⟩] := by
  have ho : (buf_tag e0 tag).buf.data.length = e0.buf.data.length + 4 := by
    simp [buf_tag, htag]
  have hps : (buf_u32le (buf_tag e0 tag) 0).buf.data.length = e0.buf.data.length + 8 := by
    simp [buf_tag, buf_u32le, htag]
  have hE : E.buf.data.length = e0.buf.data.length + 8 + payload.length := by
    rw [hdata]
    simp [htag]
    omega
  have hv : E.buf.data.length - (buf_u32le (buf_tag e0 tag) 0).buf.data.length
      = payload.length := by
    rw [hE, hps]
    omega
  constructor
  · show setBytes E.buf.data _ (bytes32 _) = _
    rw [hv, ho, hdata]
    rw [show e0.buf.data.length + 4 = (e0.buf.data ++ tag).length from by simp [htag]]
    rw [setBytes_at_append _ _ _ _ (by simp)]
    simp [List.append_assoc]
  · show E.trace ++ [⟨_, 4, _ % 4294967296, E.buf.data.length⟩] = _
    rw [hv, ho, htrace, hE]

theorem write_patn_spec (e : Enc) (idx : Nat) :
    (write_patn e idx).buf.data = e.buf.data ++ patnBytes idx
    ∧ (write_patn e idx).trace = e.trace := by
  constructor
  · simp [write_patn, buf_tag, buf_u8, buf_u16le, buf_u32le, patnBytes, bytes16,
      List.append_assoc]
  · simp [write_patn, buf_tag, buf_u8, buf_u16le, buf_u32le]

theorem write_adir_wav_spec (e : Enc) :
    (write_adir_wav e).buf.data = e.buf.data ++ adirWavBytes
    ∧ (write_adir_wav e).trace = e.trace := by
  constructor
  · simp [write_adir_wav, buf_tag, buf_u32le, adirWavBytes, List.append_assoc]
  · simp [write_adir_wav, buf_tag, buf_u32le]

theorem write_adir_ins_spec (e : Enc) (n : Nat) :
    (write_adir_ins e n).buf.data = e.buf.data ++ adirGrpBytes n
    ∧ (write_adir_ins e n).trace = e.trace := by
  constructor
  · simp [write_adir_ins, buf_tag, buf_u32le, buf_u8, buf_u16le, adirGrpBytes,
      bytes16, List.append_assoc]
  · simp [write_adir_ins, buf_tag, buf_u32le, buf_u8, buf_u16le]

theorem write_adir_smp_spec (e : Enc) (n : Nat) :
    (write_adir_smp e n).buf.data = e.buf.data ++ adirGrpBytes n
    ∧ (write_adir_smp e n).trace = e.trace := by
  constructor
  · simp [write_adir_smp, buf_tag, buf_u32le, buf_u8, buf_u16le, adirGrpBytes,
      bytes16, List.append_assoc]
  · simp [write_adir_smp, buf_tag, buf_u32le, buf_u8, buf_u16le]

theorem write_ins2_spec (e : Enc) (nm : List Nat) (idx : Nat) :
    (write_ins2 e nm idx).buf.data = e.buf.data ++ ins2Bytes nm idx
    ∧ (write_ins2 e nm idx).trace = e.trace
        ++ [⟨e.buf.data.length + 4, 4, (744 + strlenL nm) % 4294967296,
             e.buf.data.length + (752 + strlenL nm)⟩] := by
  have h := size_patch_helper e
    (buf_write (neLoop (buf_u8 (buf_u16le (buf_write (smLoop (buf_u8 (buf_u8 (buf_u8 (buf_u8 (buf_u16le (buf_write (buf_str (buf_u16le (buf_write (buf_u16le (buf_u16le (buf_u32le (buf_tag e tagINS2) 0) 228) 4) [78, 65]) (strlenL nm + 1)) nm) [83, 77]) 484) 0) 0) 1) 31) idx 120) [78, 69]) 241) 1) 120) [69, 78])
    tagINS2 (ins2Payload nm idx)
    (by simp [buf_tag, buf_u8, buf_u16le, buf_u32le, buf_str, ins2Payload,
          List.append_assoc])
    rfl
    (by simp [buf_tag, buf_u8, buf_u16le, buf_u32le, buf_str])
  refine ⟨h.1.trans (by simp [ins2Bytes]), h.2.trans (by simp; omega)⟩

theorem write_smp2_spec (e : Enc) (s : SampleData) :
    (write_smp2 e s).buf.data = e.buf.data ++ smp2Bytes s
    ∧ (write_smp2 e s).trace = e.trace
        ++ [⟨e.buf.data.length + 4, 4, (41 + strlenL s.name + s.pcm.length) % 4294967296,
             e.buf.data.length + (49 + strlenL s.name + s.pcm.length)⟩] := by
  have h := size_patch_helper e
    (buf_write (buf_fill (buf_i32le (buf_i32le (buf_u8 (buf_u8 (buf_u8 (buf_u8 (buf_u32le (buf_u32le (buf_u32le (buf_str (buf_u32le (buf_tag e tagSMP2) 0) s.name) s.n_samples) s.sample_rate) s.sample_rate) s.bit_depth) 0) 1) 0) (-1)) (-1)) 255 16) s.pcm)
    tagSMP2 (smp2Payload s)
    (by simp [buf_tag, buf_u8, buf_u32le, buf_i32le, buf_str, buf_fill, smp2Payload,
          List.append_assoc])
    rfl
    (by simp [buf_tag, buf_u8, buf_u32le, buf_i32le, buf_str, buf_fill])
  refine ⟨h.1.trans (by simp [smp2Bytes]), h.2.trans (by simp; omega)⟩

/-- The three patch events recorded inside `write_info` when it starts at
    buffer length `L` (the two tempo fields, then the block size). -/
def infoTraceSpec (L n vn vd : Nat) : List PEvent :=
  [⟨L + 282 + 13 * n + 38, 2, vn % 65536, L + 542 + 13 * n⟩,
   ⟨L + 282 + 13 * n + 40, 2, vd % 65536, L + 542 + 13 * n⟩,
   ⟨L + 4, 4, (534 + 13 * n) % 4294967296, L + 542 + 13 * n⟩]

theorem info_patch_helper (e0 PRE : Enc) (n s p vn vd : Nat)
    (hdata : PRE.buf.data = e0.buf.data ++ (tagINFO ++ (bytes32 0 ++ (headBytes n s p
        ++ (zeroPtrsBytes n ++ (zeroPtrsBytes n ++ (zeroPtrsBytes n
        ++ u8IndexBytes 0 n)))))))
    (htrace : PRE.trace = e0.trace) :
    (buf_patch_u32
        (buf_patch_u16 (buf_patch_u16 (buf_write PRE POST_ORDER)
            (PRE.buf.data.length + 38) vn) (PRE.buf.data.length + 40) vd)
        (buf_tag e0 tagINFO).buf.data.length
        ((buf_patch_u16 (buf_patch_u16 (buf_write PRE POST_ORDER)
            (PRE.buf.data.length + 38) vn) (PRE.buf.data.length + 40) vd).buf.data.length
          - (buf_u32le (buf_tag e0 tagINFO) 0).buf.data.length)).buf.data
      = e0.buf.data ++ infoBytes n s p vn vd
    ∧ (buf_patch_u32
        (buf_patch_u16 (buf_patch_u16 (buf_write PRE POST_ORDER)
            (PRE.buf.data.length + 38) vn) (PRE.buf.data.length + 40) vd)
        (buf_tag e0 tagINFO).buf.data.length
        ((buf_patch_u16 (buf_patch_u16 (buf_write PRE POST_ORDER)
            (PRE.buf.data.length + 38) vn) (PRE.buf.data.length + 40) vd).buf.data.length
          - (buf_u32le (buf_tag e0 tagINFO) 0).buf.data.length)).trace
      = e0.trace ++ infoTraceSpec e0.buf.data.length n vn vd := by
  have hPRE : PRE.buf.data.length = e0.buf.data.length + 282 + 13 * n := by
    rw [hdata]
    simp
    omega
  have hsz : (buf_tag e0 tagINFO).buf.data.length = e0.buf.data.length + 4 := by
    simp [buf_tag]
  have hps : (buf_u32le (buf_tag e0 tagINFO) 0).buf.data.length
      = e0.buf.data.length + 8 := by
    simp [buf_tag, buf_u32le]
  have hlen2 : (buf_patch_u16 (buf_patch_u16 (buf_write PRE POST_ORDER)
      (PRE.buf.data.length + 38) vn) (PRE.buf.data.length + 40) vd).buf.data.length
      = e0.buf.data.length + 542 + 13 * n := by
    simp [hPRE]
    omega
  have hv : (buf_patch_u16 (buf_patch_u16 (buf_write PRE POST_ORDER)
      (PRE.buf.data.length + 38) vn) (PRE.buf.data.length + 40) vd).buf.data.length
      - (buf_u32le (buf_tag e0 tagINFO) 0).buf.data.length = 534 + 13 * n := by
    rw [hlen2, hps]
    omega
  constructor
  · simp only [buf_patch_u32_data, buf_patch_u16_data, buf_write_data, hv, hsz,
      hPRE, hdata]
    rw [setBytes_append_right _ _ _ _ (by omega), Nat.add_sub_cancel_left]
    rw [setBytes_append_right _ _ _ _ (by omega), Nat.add_sub_cancel_left]
    rw [show setBytes (setBytes POST_ORDER 38 (bytes16 vn)) 40 (bytes16 vd)
        = postOrderPatched vn vd from rfl]
    rw [show (e0.buf.data ++ (tagINFO ++ (bytes32 0 ++ (headBytes n s p
          ++ (zeroPtrsBytes n ++ (zeroPtrsBytes n ++ (zeroPtrsBytes n
          ++ u8IndexBytes 0 n)))))))
        ++ postOrderPatched vn vd
        = (e0.buf.data ++ tagINFO) ++ (bytes32 0 ++ (headBytes n s p
          ++ (zeroPtrsBytes n ++ (zeroPtrsBytes n ++ (zeroPtrsBytes n
          ++ (u8IndexBytes 0 n ++ postOrderPatched vn vd))))))
        from by simp [List.append_assoc]]
    rw [show e0.buf.data.length + 4 = (e0.buf.data ++ tagINFO).length from by simp]
    rw [setBytes_at_append _ _ _ _ (by simp)]
    simp only [infoBytes, List.append_assoc]
    rw [hps]
    rw [show (e0.buf.data ++ (tagINFO ++ (bytes32 0 ++ (headBytes n s p
          ++ (zeroPtrsBytes n ++ (zeroPtrsBytes n ++ (zeroPtrsBytes n
          ++ (u8IndexBytes 0 n ++ postOrderPatched vn vd)))))))).length
        - (e0.buf.data.length + 8) = 534 + 13 * n from by simp; omega]
  · simp only [buf_patch_u32_trace, buf_patch_u16_trace, buf_patch_u16_data,
      buf_write_trace, buf_write_data, setBytes_length, htrace, hv, hsz,
      infoTraceSpec]
    simp [hdata, List.append_assoc]
    rw [hps]
    omega

set_option maxHeartbeats 2000000 in
theorem write_info_spec (e : Enc) (n s p vn vd : Nat) :
    (write_info e n s p vn vd).1.buf.data = e.buf.data ++ infoBytes n s p vn vd
    ∧ (write_info e n s p vn vd).1.trace
        = e.trace ++ infoTraceSpec e.buf.data.length n vn vd
    ∧ (write_info e n s p vn vd).2.1 = e.buf.data.length + 282
    ∧ (write_info e n s p vn vd).2.2 = e.buf.data.length + 282 + 13 * n := by
  have h := info_patch_helper e
    (u8IndexLoop (zeroPtrs (zeroPtrs (zeroPtrs (buf_write (buf_zeros (buf_zeros (buf_fill (buf_zeros (buf_u8 (buf_u16le (buf_u16le (buf_u16le (buf_u16le (buf_u16le (buf_u8 (buf_u8 (buf_u16le (buf_u16le (buf_write (buf_u8 (buf_u8 (buf_u8 (buf_u8 (buf_u32le (buf_tag e tagINFO) 0) 0) s) s) 1) float60le) p) n) 4) 16) n) 0) n) n) 0) 192) 31) 64 32) 32) 132) CONFIG_FLAGS) n) n) n) 0 n)
    n s p vn vd
    (by simp [buf_tag, buf_u8, buf_u16le, buf_u32le, buf_zeros, buf_fill, headBytes,
          List.append_assoc])
    (by simp [buf_tag, buf_u8, buf_u16le, buf_u32le, buf_zeros, buf_fill])
  refine ⟨h.1, h.2, ?_, ?_⟩
  · simp only [write_info]
    simp [buf_tag, buf_u8, buf_u16le, buf_u32le, buf_zeros, buf_fill]
  · simp only [write_info]
    simp [buf_tag, buf_u8, buf_u16le, buf_u32le, buf_zeros, buf_fill]
    omega

/-! ### Absolute offsets of the assembled container -/

/-- `ptr_table_off` as recorded by `write_info` during a real run
    (24-byte header + 8 padding + 8 block head + 274 head section). -/
def ptrTableOff : Nat := 314

/-- `post_order_off` as recorded by `write_info` during a real run. -/
def postOrderOff (n : Nat) : Nat := 314 + 13 * n

def adir0Off (n : Nat) : Nat := 574 + 13 * n

def adir1Off (n : Nat) : Nat := adir0Off n + (16 + (n - 1))

def adir2Off (n : Nat) : Nat := adir1Off n + 12

def insBaseOff (n : Nat) : Nat := adir2Off n + (16 + (n - 1))

/-- Total byte length of one INS2 block for sample `s`. -/
def ins2Len (s : SampleData) : Nat := 752 + strlenL s.name

/-- Total byte length of one SMP2 block for sample `s`. -/
def smp2Len (s : SampleData) : Nat := 49 + strlenL s.name + s.pcm.length

/-- Start offset of the `i`-th INS2 block. -/
def insOff (ss : List SampleData) (i : Nat) : Nat :=
  insBaseOff ss.length + ((ss.take i).map ins2Len).sum

def smpBaseOff (ss : List SampleData) : Nat :=
  insBaseOff ss.length + (ss.map ins2Len).sum

/-- Start offset of the `i`-th SMP2 block. -/
def smpOff (ss : List SampleData) (i : Nat) : Nat :=
  smpBaseOff ss + ((ss.take i).map smp2Len).sum

def patnBaseOff (ss : List SampleData) : Nat :=
  smpBaseOff ss + (ss.map smp2Len).sum

/-- Start offset of the `i`-th PATN block. -/
def patnOff (ss : List SampleData) (i : Nat) : Nat := patnBaseOff ss + 17 * i

/-- Length of the whole assembled (uncompressed) container. -/
def totalLen (ss : List SampleData) : Nat := patnBaseOff ss + 17 * ss.length

/-! ### Concatenated block regions and the patch/trace bookkeeping -/

def ins2Cat : List SampleData → Nat → List Nat
  | [], _ => []
  | s :: rest, i => ins2Bytes s.name i ++ ins2Cat rest (i + 1)

def smp2Cat : List SampleData → List Nat
  | [] => []
  | s :: rest => smp2Bytes s ++ smp2Cat rest

def patnCat (i : Nat) : Nat → List Nat
  | 0 => []
  | k + 1 => patnBytes i ++ patnCat (i + 1) k

@[simp] theorem ins2Cat_length (ss : List SampleData) (i : Nat) :
    (ins2Cat ss i).length = (ss.map ins2Len).sum := by
  induction ss generalizing i with
  | nil => rfl
  | cons s rest ih => simp [ins2Cat, ih, ins2Len]

@[simp] theorem smp2Cat_length (ss : List SampleData) :
    (smp2Cat ss).length = (ss.map smp2Len).sum := by
  induction ss with
  | nil => rfl
  | cons s rest ih => simp [smp2Cat, ih, smp2Len]

@[simp] theorem patnCat_length (i k : Nat) : (patnCat i k).length = 17 * k := by
  induction k generalizing i with
  | zero => rfl
  | succ k ih => simp [patnCat, ih]; omega

/-- The pointer-slot patches issued by `ins2Loop` when it starts with the
    buffer at length `L`. -/
def ins2PatchSpec (L p i : Nat) : List SampleData → List (Nat × Nat)
  | [] => []
  | s :: rest => (p + i * 4, L) :: ins2PatchSpec (L + ins2Len s) p (i + 1) rest

def smp2PatchSpec (L p n i : Nat) : List SampleData → List (Nat × Nat)
  | [] => []
  | s :: rest => (p + n * 4 + i * 4, L) :: smp2PatchSpec (L + smp2Len s) p n (i + 1) rest

def patnPatchSpec (L p n i : Nat) : Nat → List (Nat × Nat)
  | 0 => []
  | k + 1 => (p + n * 2 * 4 + i * 4, L) :: patnPatchSpec (L + 17) p n (i + 1) k

/-- The trace events recorded during `ins2Loop` (one internal size patch and
    one pointer-slot patch per instrument block). -/
def ins2TraceSpec (L p i : Nat) : List SampleData → List PEvent
  | [] => []
  | s :: rest =>
    ⟨L + 4, 4, (744 + strlenL s.name) % 4294967296, L + ins2Len s⟩
      :: ⟨p + i * 4, 4, L % 4294967296, L + ins2Len s⟩
      :: ins2TraceSpec (L + ins2Len s) p (i + 1) rest

def smp2TraceSpec (L p n i : Nat) : List SampleData → List PEvent
  | [] => []
  | s :: rest =>
    ⟨L + 4, 4, (41 + strlenL s.name + s.pcm.length) % 4294967296, L + smp2Len s⟩
      :: ⟨p + n * 4 + i * 4, 4, L % 4294967296, L + smp2Len s⟩
      :: smp2TraceSpec (L + smp2Len s) p n (i + 1) rest

def patnTraceSpec (L p n i : Nat) : Nat → List PEvent
  | 0 => []
  | k + 1 => ⟨p + n * 2 * 4 + i * 4, 4, L % 4294967296, L + 17⟩
      :: patnTraceSpec (L + 17) p n (i + 1) k

@[simp] theorem applyU32Patches_cons (l : List Nat) (o v : Nat) (ps : List (Nat × Nat)) :
    applyU32Patches l ((o, v) :: ps) = applyU32Patches (setBytes l o (bytes32 v)) ps := rfl

/-! ### The three assembly loops, characterised -/

theorem ins2Loop_spec (ss : List SampleData) (e : Enc) (i p : Nat)
    (hb : p + (i + ss.length) * 4 ≤ e.buf.data.length) :
    (ins2Loop e ss i p).buf.data
      = applyU32Patches (e.buf.data ++ ins2Cat ss i)
          (ins2PatchSpec e.buf.data.length p i ss)
    ∧ (ins2Loop e ss i p).trace
      = e.trace ++ ins2TraceSpec e.buf.data.length p i ss := by
  induction ss generalizing e i with
  | nil => simp [ins2Loop, ins2Cat, ins2PatchSpec, ins2TraceSpec]
  | cons s rest ih =>
    have hw := write_ins2_spec e s.name i
    have hblen : (write_ins2 e s.name i).buf.data.length
        = e.buf.data.length + ins2Len s := by
      rw [hw.1]; simp [ins2Len]
    have hstep : ins2Loop e (s :: rest) i p
        = ins2Loop (buf_patch_u32 (write_ins2 e s.name i) (p + i * 4)
            e.buf.data.length) rest (i + 1) p := by
      simp only [ins2Loop]
    have hE2len : (buf_patch_u32 (write_ins2 e s.name i) (p + i * 4)
        e.buf.data.length).buf.data.length = e.buf.data.length + ins2Len s := by
      simp only [buf_patch_u32_data, setBytes_length, hblen]
    have hb2 : p + ((i + 1) + rest.length) * 4
        ≤ (buf_patch_u32 (write_ins2 e s.name i) (p + i * 4)
            e.buf.data.length).buf.data.length := by
      rw [hE2len]
      simp only [List.length_cons] at hb
      omega
    have ihs := ih _ (i + 1) hb2
    rw [hstep]
    refine ⟨ihs.1.trans ?_, ihs.2.trans ?_⟩
    · rw [hE2len]
      rw [show (buf_patch_u32 (write_ins2 e s.name i) (p + i * 4)
          e.buf.data.length).buf.data
          = setBytes (e.buf.data ++ ins2Bytes s.name i) (p + i * 4)
              (bytes32 e.buf.data.length) from by
        simp only [buf_patch_u32_data, hw.1]]
      rw [← setBytes_append_left _ _ _ _ (by
        simp only [List.length_append, ins2Bytes_length, bytes32_length]
        simp only [List.length_cons] at hb
        omega)]
      rw [List.append_assoc]
      simp only [ins2Cat, ins2PatchSpec, applyU32Patches_cons]
    · rw [hE2len]
      rw [show (buf_patch_u32 (write_ins2 e s.name i) (p + i * 4)
          e.buf.data.length).trace
          = e.trace ++ [⟨e.buf.data.length + 4, 4,
              (744 + strlenL s.name) % 4294967296, e.buf.data.length + ins2Len s⟩,
             ⟨p + i * 4, 4, e.buf.data.length % 4294967296,
              e.buf.data.length + ins2Len s⟩] from by
        simp only [buf_patch_u32_trace, hw.2, hblen, ins2Len, List.append_assoc]
        simp]
      simp [ins2TraceSpec, List.append_assoc]

theorem smp2Loop_spec (ss : List SampleData) (e : Enc) (i n p : Nat)
    (hb : p + n * 4 + (i + ss.length) * 4 ≤ e.buf.data.length) :
    (smp2Loop e ss i n p).buf.data
      = applyU32Patches (e.buf.data ++ smp2Cat ss)
          (smp2PatchSpec e.buf.data.length p n i ss)
    ∧ (smp2Loop e ss i n p).trace
      = e.trace ++ smp2TraceSpec e.buf.data.length p n i ss := by
  induction ss generalizing e i with
  | nil => simp [smp2Loop, smp2Cat, smp2PatchSpec, smp2TraceSpec]
  | cons s rest ih =>
    have hw := write_smp2_spec e s
    have hblen : (write_smp2 e s).buf.data.length
        = e.buf.data.length + smp2Len s := by
      rw [hw.1]; simp [smp2Len]
    have hstep : smp2Loop e (s :: rest) i n p
        = smp2Loop (buf_patch_u32 (write_smp2 e s) (p + n * 4 + i * 4)
            e.buf.data.length) rest (i + 1) n p := by
      simp only [smp2Loop]
    have hE2len : (buf_patch_u32 (write_smp2 e s) (p + n * 4 + i * 4)
        e.buf.data.length).buf.data.length = e.buf.data.length + smp2Len s := by
      simp only [buf_patch_u32_data, setBytes_length, hblen]
    have hb2 : p + n * 4 + ((i + 1) + rest.length) * 4
        ≤ (buf_patch_u32 (write_smp2 e s) (p + n * 4 + i * 4)
            e.buf.data.length).buf.data.length := by
      rw [hE2len]
      simp only [List.length_cons] at hb
      omega
    have ihs := ih _ (i + 1) hb2
    rw [hstep]
    refine ⟨ihs.1.trans ?_, ihs.2.trans ?_⟩
    · rw [hE2len]
      rw [show (buf_patch_u32 (write_smp2 e s) (p + n * 4 + i * 4)
          e.buf.data.length).buf.data
          = setBytes (e.buf.data ++ smp2Bytes s) (p + n * 4 + i * 4)
              (bytes32 e.buf.data.length) from by
        simp only [buf_patch_u32_data, hw.1]]
      rw [← setBytes_append_left _ _ _ _ (by
        simp only [List.length_append, smp2Bytes_length, bytes32_length]
        simp only [List.length_cons] at hb
        omega)]
      rw [List.append_assoc]
      simp only [smp2Cat, smp2PatchSpec, applyU32Patches_cons]
    · rw [hE2len]
      rw [show (buf_patch_u32 (write_smp2 e s) (p + n * 4 + i * 4)
          e.buf.data.length).trace
          = e.trace ++ [⟨e.buf.data.length + 4, 4,
              (41 + strlenL s.name + s.pcm.length) % 4294967296,
              e.buf.data.length + smp2Len s⟩,
             ⟨p + n * 4 + i * 4, 4, e.buf.data.length % 4294967296,
              e.buf.data.length + smp2Len s⟩] from by
        simp only [buf_patch_u32_trace, hw.2, hblen, smp2Len, List.append_assoc]
        simp]
      simp [smp2TraceSpec, List.append_assoc]

theorem patnLoop_spec (k : Nat) (e : Enc) (i n p : Nat)
    (hb : p + n * 2 * 4 + (i + k) * 4 ≤ e.buf.data.length) :
    (patnLoop e i n p k).buf.data
      = applyU32Patches (e.buf.data ++ patnCat i k)
          (patnPatchSpec e.buf.data.length p n i k)
    ∧ (patnLoop e i n p k).trace
      = e.trace ++ patnTraceSpec e.buf.data.length p n i k := by
  induction k generalizing e i with
  | zero => simp [patnLoop, patnCat, patnPatchSpec, patnTraceSpec]
  | succ k ih =>
    have hw := write_patn_spec e i
    have hblen : (write_patn e i).buf.data.length = e.buf.data.length + 17 := by
      rw [hw.1]; simp
    have hstep : patnLoop e i n p (k + 1)
        = patnLoop (buf_patch_u32 (write_patn e i) (p + n * 2 * 4 + i * 4)
            e.buf.data.length) (i + 1) n p k := by
      simp only [patnLoop]
    have hE2len : (buf_patch_u32 (write_patn e i) (p + n * 2 * 4 + i * 4)
        e.buf.data.length).buf.data.length = e.buf.data.length + 17 := by
      simp only [buf_patch_u32_data, setBytes_length, hblen]
    have hb2 : p + n * 2 * 4 + ((i + 1) + k) * 4
        ≤ (buf_patch_u32 (write_patn e i) (p + n * 2 * 4 + i * 4)
            e.buf.data.length).buf.data.length := by
      rw [hE2len]
      omega
    have ihs := ih _ (i + 1) hb2
    rw [hstep]
    refine ⟨ihs.1.trans ?_, ihs.2.trans ?_⟩
    · rw [hE2len]
      rw [show (buf_patch_u32 (write_patn e i) (p + n * 2 * 4 + i * 4)
          e.buf.data.length).buf.data
          = setBytes (e.buf.data ++ patnBytes i) (p + n * 2 * 4 + i * 4)
              (bytes32 e.buf.data.length) from by
        simp only [buf_patch_u32_data, hw.1]]
      rw [← setBytes_append_left _ _ _ _ (by
        simp only [List.length_append, patnBytes_length, bytes32_length]
        omega)]
      rw [List.append_assoc]
      simp only [patnCat, patnPatchSpec, applyU32Patches_cons]
    · rw [hE2len]
      rw [show (buf_patch_u32 (write_patn e i) (p + n * 2 * 4 + i * 4)
          e.buf.data.length).trace
          = e.trace ++ [⟨p + n * 2 * 4 + i * 4, 4, e.buf.data.length % 4294967296,
              e.buf.data.length + 17⟩] from by
        simp only [buf_patch_u32_trace, hw.2, hblen]]
      simp [patnTraceSpec, List.append_assoc]

/-! ### The assembled container: full layout, patch list and trace -/

/-- The 24-byte file header plus 8 bytes of padding. -/
def preBytes : List Nat :=
  furMagic ++ (bytes16 228 ++ (bytes16 0 ++ (bytes32 32 ++ List.replicate 8 0)))

@[simp] theorem preBytes_length : preBytes.length = 32 := rfl

/-- All bytes of the container before pointer resolution (block sizes and
    tempo already resolved, pointer slots still zero). -/
def bigCat (ss : List SampleData) (s p vn vd : Nat) : List Nat :=
  preBytes ++ (infoBytes ss.length s p vn vd ++ (adirGrpBytes ss.length
    ++ (adirWavBytes ++ (adirGrpBytes ss.length ++ (ins2Cat ss 0
    ++ (smp2Cat ss ++ patnCat 0 ss.length))))))

/-- The three directory-pointer patches of `main`. -/
def adirPatchSpec (n : Nat) : List (Nat × Nat) :=
  [(postOrderOff n + 248, adir0Off n), (postOrderOff n + 252, adir1Off n),
   (postOrderOff n + 256, adir2Off n)]

def adirTraceSpec (n : Nat) : List PEvent :=
  [⟨postOrderOff n + 248, 4, adir0Off n % 4294967296, insBaseOff n⟩,
   ⟨postOrderOff n + 252, 4, adir1Off n % 4294967296, insBaseOff n⟩,
   ⟨postOrderOff n + 256, 4, adir2Off n % 4294967296, insBaseOff n⟩]

/-- Every pointer patch applied by `main` after the blocks are written. -/
def mainPatches (ss : List SampleData) : List (Nat × Nat) :=
  adirPatchSpec ss.length
    ++ (ins2PatchSpec (insBaseOff ss.length) 314 0 ss
    ++ (smp2PatchSpec (smpBaseOff ss) 314 ss.length 0 ss
    ++ patnPatchSpec (patnBaseOff ss) 314 ss.length 0 ss.length))

/-- Every patch event of a whole encoding run, in order. -/
def traceSpec (ss : List SampleData) (vn vd : Nat) : List PEvent :=
  infoTraceSpec 32 ss.length vn vd
    ++ (adirTraceSpec ss.length
    ++ (ins2TraceSpec (insBaseOff ss.length) 314 0 ss
    ++ (smp2TraceSpec (smpBaseOff ss) 314 ss.length 0 ss
    ++ patnTraceSpec (patnBaseOff ss) 314 ss.length 0 ss.length)))

/-! ### Offset bounds of the patch lists -/

theorem ins2PatchSpec_offsets (ss : List SampleData) (L p i : Nat) :
    ∀ q ∈ ins2PatchSpec L p i ss,
      p + 4 * i ≤ q.1 ∧ q.1 + 4 ≤ p + 4 * (i + ss.length) := by
  induction ss generalizing L i with
  | nil => intro q hq; cases hq
  | cons a rest ih =>
    intro q hq
    rcases List.mem_cons.mp hq with h | h
    · subst h; simp; omega
    · have := ih (L + ins2Len a) (i + 1) q h
      simp only [List.length_cons]
      omega

theorem smp2PatchSpec_offsets (ss : List SampleData) (L p n i : Nat) :
    ∀ q ∈ smp2PatchSpec L p n i ss,
      p + n * 4 + 4 * i ≤ q.1 ∧ q.1 + 4 ≤ p + n * 4 + 4 * (i + ss.length) := by
  induction ss generalizing L i with
  | nil => intro q hq; cases hq
  | cons a rest ih =>
    intro q hq
    rcases List.mem_cons.mp hq with h | h
    · subst h; simp; omega
    · have := ih (L + smp2Len a) (i + 1) q h
      simp only [List.length_cons]
      omega

theorem patnPatchSpec_offsets (k : Nat) (L p n i : Nat) :
    ∀ q ∈ patnPatchSpec L p n i k,
      p + n * 2 * 4 + 4 * i ≤ q.1 ∧ q.1 + 4 ≤ p + n * 2 * 4 + 4 * (i + k) := by
  induction k generalizing L i with
  | zero => intro q hq; cases hq
  | succ k ih =>
    intro q hq
    rcases List.mem_cons.mp hq with h | h
    · subst h; simp; omega
    · have := ih (L + 17) (i + 1) q h
      omega

/-! ### The master layout theorem -/

set_option maxHeartbeats 2000000 in
theorem encodeTail_spec (ss : List SampleData) (s p vn vd : Nat) (e : Enc)
    (hdata : e.buf.data = preBytes ++ infoBytes ss.length s p vn vd)
    (htrace : e.trace = infoTraceSpec 32 ss.length vn vd) :
    (encodeTail e ss 314 (314 + 13 * ss.length)).buf.data
      = applyU32Patches (bigCat ss s p vn vd) (mainPatches ss)
    ∧ (encodeTail e ss 314 (314 + 13 * ss.length)).trace = traceSpec ss vn vd := by
  have hstep : encodeTail e ss 314 (314 + 13 * ss.length)
      = patnLoop (smp2Loop (ins2Loop (buf_patch_u32 (buf_patch_u32 (buf_patch_u32 (write_adir_smp (write_adir_wav (write_adir_ins e ss.length)) ss.length) (314 + 13 * ss.length + 248) e.buf.data.length) (314 + 13 * ss.length + 252) (write_adir_ins e ss.length).buf.data.length) (314 + 13 * ss.length + 256) (write_adir_wav (write_adir_ins e ss.length)).buf.data.length) ss 0 314) ss 0 ss.length 314) 0 ss.length 314 ss.length := by
    simp only [encodeTail]
  have hL0 : e.buf.data.length = 574 + 13 * ss.length := by
    simp [hdata]
    omega
  have hE1 := write_adir_ins_spec e ss.length
  have hE2 := write_adir_wav_spec (write_adir_ins e ss.length)
  have hE3 := write_adir_smp_spec (write_adir_wav (write_adir_ins e ss.length)) ss.length
  have hE1len : (write_adir_ins e ss.length).buf.data.length
      = 574 + 13 * ss.length + (16 + (ss.length - 1)) := by
    rw [hE1.1]
    simp [hL0]
  have hE2len : (write_adir_wav (write_adir_ins e ss.length)).buf.data.length
      = 574 + 13 * ss.length + (16 + (ss.length - 1)) + 12 := by
    rw [hE2.1]
    simp [hE1len]
  have hE3len : (write_adir_smp (write_adir_wav (write_adir_ins e ss.length)) ss.length).buf.data.length = insBaseOff ss.length := by
    rw [hE3.1]
    simp [hE2len, insBaseOff, adir2Off, adir1Off, adir0Off]
  have hC0 : (write_adir_smp (write_adir_wav (write_adir_ins e ss.length)) ss.length).buf.data = (preBytes ++ (infoBytes ss.length s p vn vd ++ (adirGrpBytes ss.length ++ (adirWavBytes ++ adirGrpBytes ss.length)))) := by
    rw [hE3.1, hE2.1, hE1.1, hdata]
    simp [List.append_assoc]
  have hC0t : (write_adir_smp (write_adir_wav (write_adir_ins e ss.length)) ss.length).trace = infoTraceSpec 32 ss.length vn vd := by
    rw [hE3.2, hE2.2, hE1.2, htrace]
  have hE6 : (buf_patch_u32 (buf_patch_u32 (buf_patch_u32 (write_adir_smp (write_adir_wav (write_adir_ins e ss.length)) ss.length) (314 + 13 * ss.length + 248) e.buf.data.length) (314 + 13 * ss.length + 252) (write_adir_ins e ss.length).buf.data.length) (314 + 13 * ss.length + 256) (write_adir_wav (write_adir_ins e ss.length)).buf.data.length).buf.data = applyU32Patches (preBytes ++ (infoBytes ss.length s p vn vd ++ (adirGrpBytes ss.length ++ (adirWavBytes ++ adirGrpBytes ss.length)))) (adirPatchSpec ss.length) := by
    simp only [buf_patch_u32_data, hC0, hL0, hE1len, hE2len]
    simp only [adirPatchSpec, applyU32Patches_cons, applyU32Patches_nil,
      postOrderOff, adir0Off, adir1Off, adir2Off]
  have hE6len : (buf_patch_u32 (buf_patch_u32 (buf_patch_u32 (write_adir_smp (write_adir_wav (write_adir_ins e ss.length)) ss.length) (314 + 13 * ss.length + 248) e.buf.data.length) (314 + 13 * ss.length + 252) (write_adir_ins e ss.length).buf.data.length) (314 + 13 * ss.length + 256) (write_adir_wav (write_adir_ins e ss.length)).buf.data.length).buf.data.length = insBaseOff ss.length := by
    simp only [buf_patch_u32_data, setBytes_length, hE3len]
  have hE6t : (buf_patch_u32 (buf_patch_u32 (buf_patch_u32 (write_adir_smp (write_adir_wav (write_adir_ins e ss.length)) ss.length) (314 + 13 * ss.length + 248) e.buf.data.length) (314 + 13 * ss.length + 252) (write_adir_ins e ss.length).buf.data.length) (314 + 13 * ss.length + 256) (write_adir_wav (write_adir_ins e ss.length)).buf.data.length).trace
      = infoTraceSpec 32 ss.length vn vd ++ adirTraceSpec ss.length := by
    simp only [buf_patch_u32_trace, buf_patch_u32_data, setBytes_length, hC0t,
      hE3len, hL0, hE1len, hE2len]
    simp [adirTraceSpec, postOrderOff, adir0Off, adir1Off, adir2Off, insBaseOff,
      adir2Off, adir1Off, adir0Off, List.append_assoc]
  have hC0len : ((preBytes ++ (infoBytes ss.length s p vn vd ++ (adirGrpBytes ss.length ++ (adirWavBytes ++ adirGrpBytes ss.length))))).length = insBaseOff ss.length := by
    simp [insBaseOff, adir2Off, adir1Off, adir0Off]
    omega
  have hbnd1 : ∀ q ∈ adirPatchSpec ss.length, q.1 + 4 ≤ ((preBytes ++ (infoBytes ss.length s p vn vd ++ (adirGrpBytes ss.length ++ (adirWavBytes ++ adirGrpBytes ss.length))))).length := by
    intro q hq
    rw [hC0len]
    simp only [adirPatchSpec, List.mem_cons, List.not_mem_nil, or_false] at hq
    rcases hq with h | h | h <;> subst h <;>
      simp [postOrderOff, insBaseOff, adir2Off, adir1Off, adir0Off] <;> omega
  have hb1 : 314 + (0 + ss.length) * 4 ≤ (buf_patch_u32 (buf_patch_u32 (buf_patch_u32 (write_adir_smp (write_adir_wav (write_adir_ins e ss.length)) ss.length) (314 + 13 * ss.length + 248) e.buf.data.length) (314 + 13 * ss.length + 252) (write_adir_ins e ss.length).buf.data.length) (314 + 13 * ss.length + 256) (write_adir_wav (write_adir_ins e ss.length)).buf.data.length).buf.data.length := by
    rw [hE6len]
    simp only [insBaseOff, adir2Off, adir1Off, adir0Off]
    omega
  have hloop1 := ins2Loop_spec ss (buf_patch_u32 (buf_patch_u32 (buf_patch_u32 (write_adir_smp (write_adir_wav (write_adir_ins e ss.length)) ss.length) (314 + 13 * ss.length + 248) e.buf.data.length) (314 + 13 * ss.length + 252) (write_adir_ins e ss.length).buf.data.length) (314 + 13 * ss.length + 256) (write_adir_wav (write_adir_ins e ss.length)).buf.data.length) 0 314 hb1
  have hE7 : (ins2Loop (buf_patch_u32 (buf_patch_u32 (buf_patch_u32 (write_adir_smp (write_adir_wav (write_adir_ins e ss.length)) ss.length) (314 + 13 * ss.length + 248) e.buf.data.length) (314 + 13 * ss.length + 252) (write_adir_ins e ss.length).buf.data.length) (314 + 13 * ss.length + 256) (write_adir_wav (write_adir_ins e ss.length)).buf.data.length) ss 0 314).buf.data = applyU32Patches ((preBytes ++ (infoBytes ss.length s p vn vd ++ (adirGrpBytes ss.length ++ (adirWavBytes ++ adirGrpBytes ss.length)))) ++ ins2Cat ss 0) ((adirPatchSpec ss.length) ++ ins2PatchSpec (insBaseOff ss.length) 314 0 ss) := by
    rw [hloop1.1, hE6len, hE6]
    rw [applyU32Patches_append_left _ _ _ hbnd1]
    rw [← applyU32Patches_append_ps]
  have hE7len : (ins2Loop (buf_patch_u32 (buf_patch_u32 (buf_patch_u32 (write_adir_smp (write_adir_wav (write_adir_ins e ss.length)) ss.length) (314 + 13 * ss.length + 248) e.buf.data.length) (314 + 13 * ss.length + 252) (write_adir_ins e ss.length).buf.data.length) (314 + 13 * ss.length + 256) (write_adir_wav (write_adir_ins e ss.length)).buf.data.length) ss 0 314).buf.data.length = smpBaseOff ss := by
    rw [hloop1.1]
    simp [hE6len, hE3len, smpBaseOff]
  have hE7t : (ins2Loop (buf_patch_u32 (buf_patch_u32 (buf_patch_u32 (write_adir_smp (write_adir_wav (write_adir_ins e ss.length)) ss.length) (314 + 13 * ss.length + 248) e.buf.data.length) (314 + 13 * ss.length + 252) (write_adir_ins e ss.length).buf.data.length) (314 + 13 * ss.length + 256) (write_adir_wav (write_adir_ins e ss.length)).buf.data.length) ss 0 314).trace = infoTraceSpec 32 ss.length vn vd
      ++ (adirTraceSpec ss.length
      ++ ins2TraceSpec (insBaseOff ss.length) 314 0 ss) := by
    rw [hloop1.2, hE6t, hE6len]
    simp [List.append_assoc]
  have hC1len : (((preBytes ++ (infoBytes ss.length s p vn vd ++ (adirGrpBytes ss.length ++ (adirWavBytes ++ adirGrpBytes ss.length)))) ++ ins2Cat ss 0)).length = smpBaseOff ss := by
    simp only [List.length_append, hC0len, ins2Cat_length, smpBaseOff]
  have hbnd2 : ∀ q ∈ ((adirPatchSpec ss.length) ++ ins2PatchSpec (insBaseOff ss.length) 314 0 ss), q.1 + 4 ≤ (((preBytes ++ (infoBytes ss.length s p vn vd ++ (adirGrpBytes ss.length ++ (adirWavBytes ++ adirGrpBytes ss.length)))) ++ ins2Cat ss 0)).length := by
    intro q hq
    rw [hC1len]
    rcases List.mem_append.mp hq with h | h
    · have := hbnd1 q h
      rw [hC0len] at this
      have h2 : insBaseOff ss.length ≤ smpBaseOff ss := by
        simp [smpBaseOff]
      omega
    · have := ins2PatchSpec_offsets ss (insBaseOff ss.length) 314 0 q h
      simp only [smpBaseOff, insBaseOff, adir2Off, adir1Off, adir0Off] at *
      omega
  have hb2 : 314 + ss.length * 4 + (0 + ss.length) * 4 ≤ (ins2Loop (buf_patch_u32 (buf_patch_u32 (buf_patch_u32 (write_adir_smp (write_adir_wav (write_adir_ins e ss.length)) ss.length) (314 + 13 * ss.length + 248) e.buf.data.length) (314 + 13 * ss.length + 252) (write_adir_ins e ss.length).buf.data.length) (314 + 13 * ss.length + 256) (write_adir_wav (write_adir_ins e ss.length)).buf.data.length) ss 0 314).buf.data.length := by
    rw [hE7len]
    simp only [smpBaseOff, insBaseOff, adir2Off, adir1Off, adir0Off]
    omega
  have hloop2 := smp2Loop_spec ss (ins2Loop (buf_patch_u32 (buf_patch_u32 (buf_patch_u32 (write_adir_smp (write_adir_wav (write_adir_ins e ss.length)) ss.length) (314 + 13 * ss.length + 248) e.buf.data.length) (314 + 13 * ss.length + 252) (write_adir_ins e ss.length).buf.data.length) (314 + 13 * ss.length + 256) (write_adir_wav (write_adir_ins e ss.length)).buf.data.length) ss 0 314) 0 ss.length 314 hb2
  have hE8 : (smp2Loop (ins2Loop (buf_patch_u32 (buf_patch_u32 (buf_patch_u32 (write_adir_smp (write_adir_wav (write_adir_ins e ss.length)) ss.length) (314 + 13 * ss.length + 248) e.buf.data.length) (314 + 13 * ss.length + 252) (write_adir_ins e ss.length).buf.data.length) (314 + 13 * ss.length + 256) (write_adir_wav (write_adir_ins e ss.length)).buf.data.length) ss 0 314) ss 0 ss.length 314).buf.data = applyU32Patches (((preBytes ++ (infoBytes ss.length s p vn vd ++ (adirGrpBytes ss.length ++ (adirWavBytes ++ adirGrpBytes ss.length)))) ++ ins2Cat ss 0) ++ smp2Cat ss) (((adirPatchSpec ss.length) ++ ins2PatchSpec (insBaseOff ss.length) 314 0 ss) ++ smp2PatchSpec (smpBaseOff ss) 314 ss.length 0 ss) := by
    rw [hloop2.1, hE7len, hE7]
    rw [applyU32Patches_append_left _ _ _ hbnd2]
    rw [← applyU32Patches_append_ps]
  have hE8len : (smp2Loop (ins2Loop (buf_patch_u32 (buf_patch_u32 (buf_patch_u32 (write_adir_smp (write_adir_wav (write_adir_ins e ss.length)) ss.length) (314 + 13 * ss.length + 248) e.buf.data.length) (314 + 13 * ss.length + 252) (write_adir_ins e ss.length).buf.data.length) (314 + 13 * ss.length + 256) (write_adir_wav (write_adir_ins e ss.length)).buf.data.length) ss 0 314) ss 0 ss.length 314).buf.data.length = patnBaseOff ss := by
    rw [hloop2.1]
    simp [hE7len, patnBaseOff]
  have hE8t : (smp2Loop (ins2Loop (buf_patch_u32 (buf_patch_u32 (buf_patch_u32 (write_adir_smp (write_adir_wav (write_adir_ins e ss.length)) ss.length) (314 + 13 * ss.length + 248) e.buf.data.length) (314 + 13 * ss.length + 252) (write_adir_ins e ss.length).buf.data.length) (314 + 13 * ss.length + 256) (write_adir_wav (write_adir_ins e ss.length)).buf.data.length) ss 0 314) ss 0 ss.length 314).trace = infoTraceSpec 32 ss.length vn vd
      ++ (adirTraceSpec ss.length
      ++ (ins2TraceSpec (insBaseOff ss.length) 314 0 ss
      ++ smp2TraceSpec (smpBaseOff ss) 314 ss.length 0 ss)) := by
    rw [hloop2.2, hE7t, hE7len]
    simp [List.append_assoc]
  have hC2len : ((((preBytes ++ (infoBytes ss.length s p vn vd ++ (adirGrpBytes ss.length ++ (adirWavBytes ++ adirGrpBytes ss.length)))) ++ ins2Cat ss 0) ++ smp2Cat ss)).length = patnBaseOff ss := by
    simp only [List.length_append, hC1len, smp2Cat_length, patnBaseOff]
  have hbnd3 : ∀ q ∈ (((adirPatchSpec ss.length) ++ ins2PatchSpec (insBaseOff ss.length) 314 0 ss) ++ smp2PatchSpec (smpBaseOff ss) 314 ss.length 0 ss), q.1 + 4 ≤ ((((preBytes ++ (infoBytes ss.length s p vn vd ++ (adirGrpBytes ss.length ++ (adirWavBytes ++ adirGrpBytes ss.length)))) ++ ins2Cat ss 0) ++ smp2Cat ss)).length := by
    intro q hq
    rw [hC2len]
    have hmono : smpBaseOff ss ≤ patnBaseOff ss := by
      simp [patnBaseOff]
    rcases List.mem_append.mp hq with h | h
    · have := hbnd2 q h
      rw [hC1len] at this
      omega
    · have := smp2PatchSpec_offsets ss (smpBaseOff ss) 314 ss.length 0 q h
      have h2 : 314 + ss.length * 4 + 4 * (0 + ss.length) ≤ smpBaseOff ss := by
        simp only [smpBaseOff, insBaseOff, adir2Off, adir1Off, adir0Off]
        omega
      omega
  have hb3 : 314 + ss.length * 2 * 4 + (0 + ss.length) * 4
      ≤ (smp2Loop (ins2Loop (buf_patch_u32 (buf_patch_u32 (buf_patch_u32 (write_adir_smp (write_adir_wav (write_adir_ins e ss.length)) ss.length) (314 + 13 * ss.length + 248) e.buf.data.length) (314 + 13 * ss.length + 252) (write_adir_ins e ss.length).buf.data.length) (314 + 13 * ss.length + 256) (write_adir_wav (write_adir_ins e ss.length)).buf.data.length) ss 0 314) ss 0 ss.length 314).buf.data.length := by
    rw [hE8len]
    have h2 : 314 + ss.length * 12 ≤ insBaseOff ss.length := by
      simp only [insBaseOff, adir2Off, adir1Off, adir0Off]
      omega
    have h3 : insBaseOff ss.length ≤ patnBaseOff ss := by
      simp only [patnBaseOff, smpBaseOff]
      omega
    omega
  have hloop3 := patnLoop_spec ss.length (smp2Loop (ins2Loop (buf_patch_u32 (buf_patch_u32 (buf_patch_u32 (write_adir_smp (write_adir_wav (write_adir_ins e ss.length)) ss.length) (314 + 13 * ss.length + 248) e.buf.data.length) (314 + 13 * ss.length + 252) (write_adir_ins e ss.length).buf.data.length) (314 + 13 * ss.length + 256) (write_adir_wav (write_adir_ins e ss.length)).buf.data.length) ss 0 314) ss 0 ss.length 314) 0 ss.length 314 hb3
  rw [hstep]
  constructor
  · rw [hloop3.1, hE8len, hE8]
    rw [applyU32Patches_append_left _ _ _ hbnd3]
    rw [← applyU32Patches_append_ps]
    simp only [bigCat, mainPatches, List.append_assoc]
  · rw [hloop3.2, hE8t, hE8len]
    simp [traceSpec, List.append_assoc]

set_option maxHeartbeats 2000000 in
theorem encode_spec (ss : List SampleData) (s p vn vd : Nat) :
    (encode ss s p vn vd).buf.data
      = applyU32Patches (bigCat ss s p vn vd) (mainPatches ss)
    ∧ (encode ss s p vn vd).trace = traceSpec ss vn vd := by
  have hw := write_info_spec
    (buf_zeros (buf_u32le (buf_u16le (buf_u16le (buf_write bufInit furMagic) 228) 0) 32) 8)
    ss.length s p vn vd
  have hE0data : (buf_zeros (buf_u32le (buf_u16le (buf_u16le (buf_write bufInit furMagic) 228) 0) 32) 8).buf.data = preBytes := by
    simp [bufInit, buf_u16le, buf_u32le, buf_zeros, preBytes, List.append_assoc]
  have hE0len : (buf_zeros (buf_u32le (buf_u16le (buf_u16le (buf_write bufInit furMagic) 228) 0) 32) 8).buf.data.length = 32 := by
    rw [hE0data]
    simp
  have hE0trace : (buf_zeros (buf_u32le (buf_u16le (buf_u16le (buf_write bufInit furMagic) 228) 0) 32) 8).trace = [] := by
    simp [bufInit, buf_u16le, buf_u32le, buf_zeros]
  have hstep : encode ss s p vn vd
      = encodeTail
          (write_info (buf_zeros (buf_u32le (buf_u16le (buf_u16le (buf_write bufInit furMagic) 228) 0) 32) 8) ss.length s p vn vd).1
          ss
          (write_info (buf_zeros (buf_u32le (buf_u16le (buf_u16le (buf_write bufInit furMagic) 228) 0) 32) 8) ss.length s p vn vd).2.1
          (write_info (buf_zeros (buf_u32le (buf_u16le (buf_u16le (buf_write bufInit furMagic) 228) 0) 32) 8) ss.length s p vn vd).2.2 := by
    simp only [encode]
  rw [hstep, hw.2.2.1, hw.2.2.2, hE0len]
  rw [show (32 : Nat) + 282 = 314 from rfl]
  rw [show (32 : Nat) + 282 + 13 * ss.length = 314 + 13 * ss.length from by omega]
  exact encodeTail_spec ss s p vn vd _
    (by rw [hw.1, hE0data])
    (by rw [hw.2.1, hE0trace, hE0len]; simp)

/-- The length of the assembled container. -/
theorem encode_len (ss : List SampleData) (s p vn vd : Nat) :
    (encode ss s p vn vd).buf.data.length = totalLen ss := by
  rw [(encode_spec ss s p vn vd).1]
  simp only [applyU32Patches_length, bigCat, List.length_append, preBytes_length,
    infoBytes_length, adirGrpBytes_length, adirWavBytes_length, ins2Cat_length,
    smp2Cat_length, patnCat_length, totalLen, patnBaseOff, smpBaseOff, insBaseOff,
    adir2Off, adir1Off, adir0Off]
  omega


/-! ### Prefix sums and the offset chain -/

theorem takeSum_le (f : SampleData → Nat) (l : List SampleData) (i : Nat) :
    ((l.take i).map f).sum ≤ (l.map f).sum := by
  induction l generalizing i with
  | nil => simp
  | cons a rest ih =>
    cases i with
    | zero => simp
    | succ i =>
      simp only [List.take_succ_cons, List.map_cons, List.sum_cons]
      exact Nat.add_le_add_left (ih i) _

theorem takeSum_succ (f : SampleData → Nat) (l : List SampleData) (i : Nat)
    (h : i < l.length) :
    ((l.take (i + 1)).map f).sum
      = ((l.take i).map f).sum + f (l.get ⟨i, h⟩) := by
  induction l generalizing i with
  | nil => cases h
  | cons a rest ih =>
    cases i with
    | zero => simp
    | succ i =>
      simp only [List.take_succ_cons, List.map_cons, List.sum_cons, List.get_cons_succ]
      rw [ih i (by simpa using h)]
      omega

theorem adir0Off_le_totalLen (ss : List SampleData) :
    adir0Off ss.length ≤ totalLen ss := by
  simp only [totalLen, patnBaseOff, smpBaseOff, insBaseOff, adir2Off, adir1Off]
  omega

theorem insOff_le_smpBaseOff (ss : List SampleData) (i : Nat) :
    insOff ss i ≤ smpBaseOff ss := by
  simp only [insOff, smpBaseOff]
  exact Nat.add_le_add_left (takeSum_le _ _ _) _

theorem smpOff_le_patnBaseOff (ss : List SampleData) (i : Nat) :
    smpOff ss i ≤ patnBaseOff ss := by
  simp only [smpOff, patnBaseOff]
  exact Nat.add_le_add_left (takeSum_le _ _ _) _

theorem insOff_le_totalLen (ss : List SampleData) (i : Nat) :
    insOff ss i ≤ totalLen ss := by
  have h1 := insOff_le_smpBaseOff ss i
  simp only [totalLen, patnBaseOff] at *
  omega

theorem smpOff_le_totalLen (ss : List SampleData) (i : Nat) :
    smpOff ss i ≤ totalLen ss := by
  have h1 := smpOff_le_patnBaseOff ss i
  simp only [totalLen] at *
  omega

theorem patnOff_le_totalLen (ss : List SampleData) (i : Nat) (h : i ≤ ss.length) :
    patnOff ss i ≤ totalLen ss := by
  simp only [patnOff, totalLen]
  omega

theorem bigCat_length (ss : List SampleData) (s p vn vd : Nat) :
    (bigCat ss s p vn vd).length = totalLen ss := by
  simp only [bigCat, List.length_append, preBytes_length, infoBytes_length,
    adirGrpBytes_length, adirWavBytes_length, ins2Cat_length, smp2Cat_length,
    patnCat_length, totalLen, patnBaseOff, smpBaseOff, insBaseOff, adir2Off,
    adir1Off, adir0Off]
  omega

/-! ### The pointer patches of main: bounds, disjointness and membership -/

theorem adirPatchSpec_mem_bounds (n : Nat) :
    ∀ q ∈ adirPatchSpec n, postOrderOff n + 248 ≤ q.1 ∧ q.1 + 4 ≤ adir0Off n := by
  intro q hq
  simp only [adirPatchSpec, List.mem_cons, List.not_mem_nil, or_false] at hq
  rcases hq with h | h | h <;> subst h <;>
    refine ⟨?_, ?_⟩ <;> simp [postOrderOff, adir0Off] <;> omega

theorem adirPatchSpec_pairwise (n : Nat) : (adirPatchSpec n).Pairwise PDisj := by
  refine List.Pairwise.cons ?_ (List.Pairwise.cons ?_ (List.Pairwise.cons ?_ List.Pairwise.nil))
  · intro q hq
    simp only [List.mem_cons, List.not_mem_nil, or_false] at hq
    rcases hq with h | h <;> subst h <;> simp [PDisj, postOrderOff] <;> omega
  · intro q hq
    simp only [List.mem_cons, List.not_mem_nil, or_false] at hq
    subst hq
    simp [PDisj, postOrderOff]
  · intro q hq
    cases hq

theorem ins2PatchSpec_pairwise (ss : List SampleData) (L p i : Nat) :
    (ins2PatchSpec L p i ss).Pairwise PDisj := by
  induction ss generalizing L i with
  | nil => exact List.Pairwise.nil
  | cons a rest ih =>
    refine List.Pairwise.cons ?_ (ih _ _)
    intro q hq
    have := ins2PatchSpec_offsets rest (L + ins2Len a) p (i + 1) q hq
    simp only [PDisj]
    omega

theorem smp2PatchSpec_pairwise (ss : List SampleData) (L p n i : Nat) :
    (smp2PatchSpec L p n i ss).Pairwise PDisj := by
  induction ss generalizing L i with
  | nil => exact List.Pairwise.nil
  | cons a rest ih =>
    refine List.Pairwise.cons ?_ (ih _ _)
    intro q hq
    have := smp2PatchSpec_offsets rest (L + smp2Len a) p n (i + 1) q hq
    simp only [PDisj]
    omega

theorem patnPatchSpec_pairwise (k : Nat) (L p n i : Nat) :
    (patnPatchSpec L p n i k).Pairwise PDisj := by
  induction k generalizing L i with
  | zero => exact List.Pairwise.nil
  | succ k ih =>
    refine List.Pairwise.cons ?_ (ih _ _)
    intro q hq
    have := patnPatchSpec_offsets k (L + 17) p n (i + 1) q hq
    simp only [PDisj]
    omega

theorem mainPatches_mem_bounds (ss : List SampleData) :
    ∀ q ∈ mainPatches ss, 314 ≤ q.1 ∧ q.1 + 4 ≤ adir0Off ss.length := by
  intro q hq
  simp only [mainPatches, List.mem_append] at hq
  rcases hq with h | h | h | h
  · have := adirPatchSpec_mem_bounds ss.length q h
    simp only [postOrderOff] at this
    omega
  · have := ins2PatchSpec_offsets ss (insBaseOff ss.length) 314 0 q h
    simp only [adir0Off]
    omega
  · have := smp2PatchSpec_offsets ss (smpBaseOff ss) 314 ss.length 0 q h
    simp only [adir0Off]
    omega
  · have := patnPatchSpec_offsets ss.length (patnBaseOff ss) 314 ss.length 0 q h
    simp only [adir0Off]
    omega

theorem mainPatches_bounds (ss : List SampleData) (s p vn vd : Nat) :
    ∀ q ∈ mainPatches ss, q.1 + 4 ≤ (bigCat ss s p vn vd).length := by
  intro q hq
  rw [bigCat_length]
  have h1 := (mainPatches_mem_bounds ss q hq).2
  have h2 := adir0Off_le_totalLen ss
  omega

theorem mainPatches_pairwise (ss : List SampleData) :
    (mainPatches ss).Pairwise PDisj := by
  simp only [mainPatches]
  rw [List.pairwise_append]
  refine ⟨adirPatchSpec_pairwise ss.length, ?_, ?_⟩
  · rw [List.pairwise_append]
    refine ⟨ins2PatchSpec_pairwise ss _ _ _, ?_, ?_⟩
    · rw [List.pairwise_append]
      refine ⟨smp2PatchSpec_pairwise ss _ _ _ _, patnPatchSpec_pairwise ss.length _ _ _ _, ?_⟩
      intro a ha b hb
      have h1 := smp2PatchSpec_offsets ss (smpBaseOff ss) 314 ss.length 0 a ha
      have h2 := patnPatchSpec_offsets ss.length (patnBaseOff ss) 314 ss.length 0 b hb
      simp only [PDisj]
      omega
    · intro a ha b hb
      have h1 := ins2PatchSpec_offsets ss (insBaseOff ss.length) 314 0 a ha
      rcases List.mem_append.mp hb with h | h
      · have h2 := smp2PatchSpec_offsets ss (smpBaseOff ss) 314 ss.length 0 b h
        simp only [PDisj]
        omega
      · have h2 := patnPatchSpec_offsets ss.length (patnBaseOff ss) 314 ss.length 0 b h
        simp only [PDisj]
        omega
  · intro a ha b hb
    have h1 := adirPatchSpec_mem_bounds ss.length a ha
    simp only [postOrderOff] at h1
    rcases List.mem_append.mp hb with h | hb2
    · have h2 := ins2PatchSpec_offsets ss (insBaseOff ss.length) 314 0 b h
      simp only [PDisj]
      omega
    · rcases List.mem_append.mp hb2 with h | h
      · have h2 := smp2PatchSpec_offsets ss (smpBaseOff ss) 314 ss.length 0 b h
        simp only [PDisj]
        omega
      · have h2 := patnPatchSpec_offsets ss.length (patnBaseOff ss) 314 ss.length 0 b h
        simp only [PDisj]
        omega

theorem ins2PatchSpec_mem (ss : List SampleData) (L p i j : Nat) (h : j < ss.length) :
    (p + (i + j) * 4, L + ((ss.take j).map ins2Len).sum) ∈ ins2PatchSpec L p i ss := by
  induction ss generalizing L i j with
  | nil => cases h
  | cons a rest ih =>
    cases j with
    | zero =>
      simp [ins2PatchSpec]
    | succ j =>
      have hm := ih (L + ins2Len a) (i + 1) j (by simpa using h)
      have harith : (p + (i + (j + 1)) * 4, L + ((List.take (j + 1) (a :: rest)).map ins2Len).sum)
          = (p + (i + 1 + j) * 4, L + ins2Len a + ((rest.take j).map ins2Len).sum) := by
        simp only [List.take_succ_cons, List.map_cons, List.sum_cons, Prod.mk.injEq]
        refine ⟨by omega, by omega⟩
      rw [harith]
      exact List.mem_cons_of_mem _ hm

theorem smp2PatchSpec_mem (ss : List SampleData) (L p n i j : Nat) (h : j < ss.length) :
    (p + n * 4 + (i + j) * 4, L + ((ss.take j).map smp2Len).sum)
      ∈ smp2PatchSpec L p n i ss := by
  induction ss generalizing L i j with
  | nil => cases h
  | cons a rest ih =>
    cases j with
    | zero =>
      simp [smp2PatchSpec]
    | succ j =>
      have hm := ih (L + smp2Len a) (i + 1) j (by simpa using h)
      have harith : (p + n * 4 + (i + (j + 1)) * 4, L + ((List.take (j + 1) (a :: rest)).map smp2Len).sum)
          = (p + n * 4 + (i + 1 + j) * 4, L + smp2Len a + ((rest.take j).map smp2Len).sum) := by
        simp only [List.take_succ_cons, List.map_cons, List.sum_cons, Prod.mk.injEq]
        refine ⟨by omega, by omega⟩
      rw [harith]
      exact List.mem_cons_of_mem _ hm

theorem patnPatchSpec_mem (k : Nat) (L p n i j : Nat) (h : j < k) :
    (p + n * 2 * 4 + (i + j) * 4, L + 17 * j) ∈ patnPatchSpec L p n i k := by
  induction k generalizing L i j with
  | zero => cases h
  | succ k ih =>
    cases j with
    | zero =>
      simp [patnPatchSpec]
    | succ j =>
      have hm := ih (L + 17) (i + 1) j (by omega)
      have harith : (p + n * 2 * 4 + (i + (j + 1)) * 4, L + 17 * (j + 1))
          = (p + n * 2 * 4 + (i + 1 + j) * 4, L + 17 + 17 * j) := by
        simp only [Prod.mk.injEq]
        refine ⟨by omega, by omega⟩
      rw [harith]
      exact List.mem_cons_of_mem _ hm

/-! ### Reading inside the emitted blocks -/

theorem readBytes_append_at (a b : List Nat) (r k : Nat) :
    readBytes (a ++ b) (a.length + r) k = readBytes b r k := by
  rw [readBytes_append_right _ _ _ _ (by omega), Nat.add_sub_cancel_left]

theorem readBytes_head (t X : List Nat) (k : Nat) (h : t.length = k) :
    readBytes (t ++ X) 0 k = t := by
  simp only [readBytes, List.drop_zero]
  exact List.take_left' h

theorem ins2Bytes_read_tag (nm : List Nat) (idx : Nat) :
    readBytes (ins2Bytes nm idx) 0 4 = tagINS2 := rfl

theorem ins2Bytes_read_size (nm : List Nat) (idx : Nat) :
    readBytes (ins2Bytes nm idx) 4 4 = bytes32 (744 + strlenL nm) := rfl

theorem smp2Bytes_read_tag (s : SampleData) :
    readBytes (smp2Bytes s) 0 4 = tagSMP2 := rfl

theorem smp2Bytes_read_size (s : SampleData) :
    readBytes (smp2Bytes s) 4 4 = bytes32 (41 + strlenL s.name + s.pcm.length) := rfl

theorem patnBytes_read_tag (idx : Nat) :
    readBytes (patnBytes idx) 0 4 = tagPATN := rfl

theorem patnBytes_read_size (idx : Nat) :
    readBytes (patnBytes idx) 4 4 = bytes32 9 := rfl

theorem adirGrpBytes_read_tag (n : Nat) :
    readBytes (adirGrpBytes n) 0 4 = tagADIR := rfl

theorem adirGrpBytes_read_size (n : Nat) :
    readBytes (adirGrpBytes n) 4 4 = bytes32 (n + 7) := rfl

theorem adirGrpBytes_read_count (n : Nat) :
    readBytes (adirGrpBytes n) 13 1 = [n % 256] := rfl

theorem adirGrpBytes_read_members (n : Nat) :
    readBytes (adirGrpBytes n) 16 (n - 1) = u8IndexBytes 1 (n - 1) := by
  have hd : (adirGrpBytes n).drop 16 = u8IndexBytes 1 (n - 1) := rfl
  simp only [readBytes, hd]
  exact List.take_of_length_le (by simp)

theorem adirWavBytes_read_tag : readBytes adirWavBytes 0 4 = tagADIR := rfl

theorem adirWavBytes_read_size : readBytes adirWavBytes 4 4 = bytes32 4 := rfl

theorem infoBytes_read_tag (n s p vn vd : Nat) :
    readBytes (infoBytes n s p vn vd) 0 4 = tagINFO := rfl

theorem infoBytes_read_size (n s p vn vd : Nat) :
    readBytes (infoBytes n s p vn vd) 4 4 = bytes32 (534 + 13 * n) := rfl

/-- The order table: `n` single bytes `(uint8_t)i` for `i = 0..n-1`. -/
theorem infoBytes_read_order (n s p vn vd : Nat) :
    readBytes (infoBytes n s p vn vd) (282 + 12 * n) n = u8IndexBytes 0 n := by
  have hsplit : infoBytes n s p vn vd
      = (tagINFO ++ (bytes32 (534 + 13 * n) ++ (headBytes n s p
          ++ (zeroPtrsBytes n ++ (zeroPtrsBytes n ++ zeroPtrsBytes n)))))
        ++ (u8IndexBytes 0 n ++ postOrderPatched vn vd) := by
    simp [infoBytes, List.append_assoc]
  rw [hsplit]
  rw [show 282 + 12 * n
      = (tagINFO ++ (bytes32 (534 + 13 * n) ++ (headBytes n s p
          ++ (zeroPtrsBytes n ++ (zeroPtrsBytes n ++ zeroPtrsBytes n))))).length + 0 from by
    simp
    omega]
  rw [readBytes_append_at]
  rw [readBytes_append_left _ _ _ _ (by simp)]
  simp only [readBytes, List.drop_zero]
  exact List.take_of_length_le (by simp)

theorem u8IndexBytes_eq_range' (i k : Nat) (h : i + k ≤ 256) :
    u8IndexBytes i k = List.range' i k := by
  induction k generalizing i with
  | zero => rfl
  | succ k ih =>
    rw [List.range'_succ]
    simp only [u8IndexBytes]
    rw [Nat.mod_eq_of_lt (by omega), ih (i + 1) (by omega)]

theorem smBytes_read (idx k j : Nat) (hj : j < k) :
    readBytes (smBytes idx k) (4 * j + 2) 2 = bytes16 idx := by
  induction j generalizing k with
  | zero =>
    cases k with
    | zero => cases hj
    | succ k =>
      simp only [smBytes, Nat.mul_zero, Nat.zero_add]
      rw [List.append_assoc]
      rw [show (2 : Nat) = (bytes16 48).length + 0 from rfl]
      rw [readBytes_append_at]
      rw [readBytes_append_left _ _ _ _ (by simp)]
      simp only [readBytes, List.drop_zero]
      exact List.take_of_length_le (by simp)
  | succ j ih =>
    cases k with
    | zero => cases hj
    | succ k =>
      simp only [smBytes]
      rw [show 4 * (j + 1) + 2 = (bytes16 48 ++ bytes16 idx).length + (4 * j + 2) from by
        simp
        omega]
      rw [readBytes_append_at]
      exact ih k (by omega)

/-- Each 16-bit sample index in the sample map of an INS2 block. -/
theorem ins2Bytes_read_sm (nm : List Nat) (idx j : Nat) (hj : j < 120) :
    readBytes (ins2Bytes nm idx) (27 + strlenL nm + 4 * j) 2 = bytes16 idx := by
  have hsplit : ins2Bytes nm idx
      = (tagINS2 ++ (bytes32 (744 + strlenL nm) ++ (bytes16 228 ++ (bytes16 4
          ++ ([78, 65] ++ (bytes16 (strlenL nm + 1) ++ (cstr nm ++ ([83, 77]
          ++ (bytes16 484 ++ [0, 0, 1, 31])))))))))
        ++ (smBytes idx 120
        ++ ([78, 69] ++ (bytes16 241 ++ ([1] ++ (neBytes 120 ++ [69, 78]))))) := by
    simp [ins2Bytes, ins2Payload, List.append_assoc]
  rw [hsplit]
  rw [show 27 + strlenL nm + 4 * j
      = (tagINS2 ++ (bytes32 (744 + strlenL nm) ++ (bytes16 228 ++ (bytes16 4
          ++ ([78, 65] ++ (bytes16 (strlenL nm + 1) ++ (cstr nm ++ ([83, 77]
          ++ (bytes16 484 ++ [0, 0, 1, 31]))))))))).length + (4 * j + 2) from by
    simp
    omega]
  rw [readBytes_append_at]
  rw [readBytes_append_left _ _ _ _ (by simp; omega)]
  exact smBytes_read idx 120 j hj

/-! ### Reading a single block out of the concatenated regions -/

theorem ins2Cat_read_in (ss : List SampleData) (j i : Nat) (h : i < ss.length)
    (d k : Nat) (hk : d + k ≤ ins2Len (ss.get ⟨i, h⟩)) :
    readBytes (ins2Cat ss j) (((ss.take i).map ins2Len).sum + d) k
      = readBytes (ins2Bytes (ss.get ⟨i, h⟩).name (j + i)) d k := by
  induction ss generalizing j i with
  | nil => cases h
  | cons a rest ih =>
    cases i with
    | zero =>
      have ha : (a :: rest).get ⟨0, h⟩ = a := rfl
      rw [ha] at hk
      simp only [List.take_zero, List.map_nil, List.sum_nil, Nat.zero_add,
        Nat.add_zero, ha]
      simp only [ins2Cat]
      rw [readBytes_append_left _ _ _ _ (by
        simp only [ins2Bytes_length]
        simp only [ins2Len] at hk
        omega)]
    | succ i =>
      simp only [List.take_succ_cons, List.map_cons, List.sum_cons,
        List.get_cons_succ] at *
      simp only [ins2Cat]
      rw [show ins2Len a + ((rest.take i).map ins2Len).sum + d
          = (ins2Bytes a.name j).length + (((rest.take i).map ins2Len).sum + d) from by
        simp only [ins2Bytes_length, ins2Len]
        omega]
      rw [readBytes_append_at]
      rw [show j + (i + 1) = (j + 1) + i from by omega]
      exact ih (j + 1) i (by simpa using h) hk

theorem smp2Cat_read_in (ss : List SampleData) (i : Nat) (h : i < ss.length)
    (d k : Nat) (hk : d + k ≤ smp2Len (ss.get ⟨i, h⟩)) :
    readBytes (smp2Cat ss) (((ss.take i).map smp2Len).sum + d) k
      = readBytes (smp2Bytes (ss.get ⟨i, h⟩)) d k := by
  induction ss generalizing i with
  | nil => cases h
  | cons a rest ih =>
    cases i with
    | zero =>
      have ha : (a :: rest).get ⟨0, h⟩ = a := rfl
      rw [ha] at hk
      simp only [List.take_zero, List.map_nil, List.sum_nil, Nat.zero_add, ha]
      simp only [smp2Cat]
      rw [readBytes_append_left _ _ _ _ (by
        simp only [smp2Bytes_length]
        simp only [smp2Len] at hk
        omega)]
    | succ i =>
      simp only [List.take_succ_cons, List.map_cons, List.sum_cons,
        List.get_cons_succ] at *
      simp only [smp2Cat]
      rw [show smp2Len a + ((rest.take i).map smp2Len).sum + d
          = (smp2Bytes a).length + (((rest.take i).map smp2Len).sum + d) from by
        simp only [smp2Bytes_length, smp2Len]
        omega]
      rw [readBytes_append_at]
      exact ih i (by simpa using h) hk

theorem patnCat_read_in (k0 : Nat) (j i : Nat) (h : i < k0) (d r : Nat)
    (hk : d + r ≤ 17) :
    readBytes (patnCat j k0) (17 * i + d) r = readBytes (patnBytes (j + i)) d r := by
  induction k0 generalizing j i with
  | zero => cases h
  | succ k0 ih =>
    cases i with
    | zero =>
      simp only [Nat.mul_zero, Nat.zero_add, Nat.add_zero]
      simp only [patnCat]
      rw [readBytes_append_left _ _ _ _ (by simp only [patnBytes_length]; omega)]
    | succ i =>
      simp only [patnCat]
      rw [show 17 * (i + 1) + d = (patnBytes j).length + (17 * i + d) from by
        simp only [patnBytes_length]
        omega]
      rw [readBytes_append_at]
      rw [show j + (i + 1) = (j + 1) + i from by omega]
      exact ih (j + 1) i (by omega)

/-! ### Reading regions of the whole container -/

theorem bigCat_split_high (ss : List SampleData) (s p vn vd : Nat) :
    bigCat ss s p vn vd
      = (preBytes ++ (infoBytes ss.length s p vn vd ++ (adirGrpBytes ss.length
          ++ (adirWavBytes ++ adirGrpBytes ss.length))))
        ++ (ins2Cat ss 0 ++ (smp2Cat ss ++ patnCat 0 ss.length)) := by
  simp [bigCat, List.append_assoc]

theorem bigCat_front_length (ss : List SampleData) (s p vn vd : Nat) :
    (preBytes ++ (infoBytes ss.length s p vn vd ++ (adirGrpBytes ss.length
      ++ (adirWavBytes ++ adirGrpBytes ss.length)))).length = insBaseOff ss.length := by
  simp only [List.length_append, preBytes_length, infoBytes_length,
    adirGrpBytes_length, adirWavBytes_length, insBaseOff, adir2Off, adir1Off,
    adir0Off]
  omega

theorem bigCat_read_ins2 (ss : List SampleData) (s p vn vd i : Nat) (h : i < ss.length)
    (d k : Nat) (hk : d + k ≤ ins2Len (ss.get ⟨i, h⟩)) :
    readBytes (bigCat ss s p vn vd) (insOff ss i + d) k
      = readBytes (ins2Bytes (ss.get ⟨i, h⟩).name i) d k := by
  rw [bigCat_split_high]
  rw [show insOff ss i + d
      = (preBytes ++ (infoBytes ss.length s p vn vd ++ (adirGrpBytes ss.length
          ++ (adirWavBytes ++ adirGrpBytes ss.length)))).length
        + (((ss.take i).map ins2Len).sum + d) from by
    rw [bigCat_front_length]
    simp only [insOff]
    omega]
  rw [readBytes_append_at]
  rw [readBytes_append_left _ _ _ _ (by
    have h1 := takeSum_succ ins2Len ss i h
    have h2 := takeSum_le ins2Len ss (i + 1)
    simp only [ins2Cat_length]
    omega)]
  have := ins2Cat_read_in ss 0 i h d k hk
  simpa using this

theorem bigCat_read_smp2 (ss : List SampleData) (s p vn vd i : Nat) (h : i < ss.length)
    (d k : Nat) (hk : d + k ≤ smp2Len (ss.get ⟨i, h⟩)) :
    readBytes (bigCat ss s p vn vd) (smpOff ss i + d) k
      = readBytes (smp2Bytes (ss.get ⟨i, h⟩)) d k := by
  rw [bigCat_split_high]
  rw [show smpOff ss i + d
      = (preBytes ++ (infoBytes ss.length s p vn vd ++ (adirGrpBytes ss.length
          ++ (adirWavBytes ++ adirGrpBytes ss.length)))).length
        + ((ins2Cat ss 0).length + (((ss.take i).map smp2Len).sum + d)) from by
    rw [bigCat_front_length]
    simp only [smpOff, smpBaseOff, ins2Cat_length]
    omega]
  rw [readBytes_append_at, readBytes_append_at]
  rw [readBytes_append_left _ _ _ _ (by
    have h1 := takeSum_succ smp2Len ss i h
    have h2 := takeSum_le smp2Len ss (i + 1)
    simp only [smp2Cat_length]
    omega)]
  exact smp2Cat_read_in ss i h d k hk

theorem bigCat_read_patn (ss : List SampleData) (s p vn vd i : Nat) (h : i < ss.length)
    (d k : Nat) (hk : d + k ≤ 17) :
    readBytes (bigCat ss s p vn vd) (patnOff ss i + d) k
      = readBytes (patnBytes i) d k := by
  rw [bigCat_split_high]
  rw [show patnOff ss i + d
      = (preBytes ++ (infoBytes ss.length s p vn vd ++ (adirGrpBytes ss.length
          ++ (adirWavBytes ++ adirGrpBytes ss.length)))).length
        + ((ins2Cat ss 0).length + ((smp2Cat ss).length + (17 * i + d))) from by
    rw [bigCat_front_length]
    simp only [patnOff, patnBaseOff, smpBaseOff, ins2Cat_length, smp2Cat_length]
    omega]
  rw [readBytes_append_at, readBytes_append_at, readBytes_append_at]
  have := patnCat_read_in ss.length 0 i h d k hk
  simpa using this

theorem bigCat_read_pre (ss : List SampleData) (s p vn vd off k : Nat)
    (h : off + k ≤ 32) :
    readBytes (bigCat ss s p vn vd) off k = readBytes preBytes off k := by
  simp only [bigCat]
  exact readBytes_append_left _ _ _ _ (by simpa using h)

theorem bigCat_read_info (ss : List SampleData) (s p vn vd off k : Nat)
    (h : off + k ≤ 542 + 13 * ss.length) :
    readBytes (bigCat ss s p vn vd) (32 + off) k
      = readBytes (infoBytes ss.length s p vn vd) off k := by
  simp only [bigCat]
  rw [show 32 + off = preBytes.length + off from by simp]
  rw [readBytes_append_at]
  exact readBytes_append_left _ _ _ _ (by simpa using h)

theorem bigCat_read_adir0 (ss : List SampleData) (s p vn vd d k : Nat)
    (h : d + k ≤ 16 + (ss.length - 1)) :
    readBytes (bigCat ss s p vn vd) (adir0Off ss.length + d) k
      = readBytes (adirGrpBytes ss.length) d k := by
  simp only [bigCat]
  rw [show adir0Off ss.length + d
      = preBytes.length + ((infoBytes ss.length s p vn vd).length + d) from by
    simp only [preBytes_length, infoBytes_length, adir0Off]
    omega]
  rw [readBytes_append_at, readBytes_append_at]
  exact readBytes_append_left _ _ _ _ (by simpa using h)

theorem bigCat_read_adir1 (ss : List SampleData) (s p vn vd d k : Nat)
    (h : d + k ≤ 12) :
    readBytes (bigCat ss s p vn vd) (adir1Off ss.length + d) k
      = readBytes adirWavBytes d k := by
  simp only [bigCat]
  rw [show adir1Off ss.length + d
      = preBytes.length + ((infoBytes ss.length s p vn vd).length
        + ((adirGrpBytes ss.length).length + d)) from by
    simp only [preBytes_length, infoBytes_length, adirGrpBytes_length, adir1Off,
      adir0Off]
    omega]
  rw [readBytes_append_at, readBytes_append_at, readBytes_append_at]
  exact readBytes_append_left _ _ _ _ (by simpa using h)

theorem bigCat_read_adir2 (ss : List SampleData) (s p vn vd d k : Nat)
    (h : d + k ≤ 16 + (ss.length - 1)) :
    readBytes (bigCat ss s p vn vd) (adir2Off ss.length + d) k
      = readBytes (adirGrpBytes ss.length) d k := by
  simp only [bigCat]
  rw [show adir2Off ss.length + d
      = preBytes.length + ((infoBytes ss.length s p vn vd).length
        + ((adirGrpBytes ss.length).length + (adirWavBytes.length + d))) from by
    simp only [preBytes_length, infoBytes_length, adirGrpBytes_length,
      adirWavBytes_length, adir2Off, adir1Off, adir0Off]
    omega]
  rw [readBytes_append_at, readBytes_append_at, readBytes_append_at,
    readBytes_append_at]
  exact readBytes_append_left _ _ _ _ (by simpa using h)

/-! ### Reads on the final buffer that miss every pointer patch -/

theorem encode_read_unpatched (ss : List SampleData) (s p vn vd roff k : Nat)
    (hd : ∀ q ∈ mainPatches ss, q.1 + 4 ≤ roff ∨ roff + k ≤ q.1) :
    readBytes (encode ss s p vn vd).buf.data roff k
      = readBytes (bigCat ss s p vn vd) roff k := by
  rw [(encode_spec ss s p vn vd).1]
  exact readBytes_applyU32Patches_out _ _ _ _ (mainPatches_bounds ss s p vn vd) hd

theorem mainPatches_disj_high (ss : List SampleData) (roff k : Nat)
    (h : adir0Off ss.length ≤ roff) :
    ∀ q ∈ mainPatches ss, q.1 + 4 ≤ roff ∨ roff + k ≤ q.1 :=
  fun q hq => Or.inl (le_trans (mainPatches_mem_bounds ss q hq).2 h)

theorem mainPatches_disj_low (ss : List SampleData) (roff k : Nat)
    (h : roff + k ≤ 314) :
    ∀ q ∈ mainPatches ss, q.1 + 4 ≤ roff ∨ roff + k ≤ q.1 :=
  fun q hq => Or.inr (le_trans h (mainPatches_mem_bounds ss q hq).1)

/-- The order-table region `[314 + 12n, 314 + 13n)` is disjoint from every
    pointer patch. -/
theorem mainPatches_disj_order (ss : List SampleData) :
    ∀ q ∈ mainPatches ss,
      q.1 + 4 ≤ 314 + 12 * ss.length
      ∨ (314 + 12 * ss.length) + ss.length ≤ q.1 := by
  intro q hq
  simp only [mainPatches, List.mem_append] at hq
  rcases hq with h | h | h | h
  · right
    have := adirPatchSpec_mem_bounds ss.length q h
    simp only [postOrderOff] at this
    omega
  · left
    have := ins2PatchSpec_offsets ss (insBaseOff ss.length) 314 0 q h
    omega
  · left
    have := smp2PatchSpec_offsets ss (smpBaseOff ss) 314 ss.length 0 q h
    omega
  · left
    have := patnPatchSpec_offsets ss.length (patnBaseOff ss) 314 ss.length 0 q h
    omega

/-! ### Counting patch events per offset: each pointer slot is patched once -/

/-- Number of patch operations recorded at offset `o`. -/
def patchCount (tr : List PEvent) (o : Nat) : Nat :=
  tr.countP (fun ev => ev.off == o)

theorem ins2TraceSpec_off_mem (ss : List SampleData) (L p i : Nat) :
    ∀ ev ∈ ins2TraceSpec L p i ss,
      (p + 4 * i ≤ ev.off ∧ ev.off + 4 ≤ p + 4 * (i + ss.length)) ∨ L + 4 ≤ ev.off := by
  induction ss generalizing L i with
  | nil => intro ev h; cases h
  | cons a rest ih =>
    intro ev h
    have hlen : 752 ≤ ins2Len a := by simp only [ins2Len]; omega
    rcases List.mem_cons.mp h with h | h
    · subst h
      right
      show L + 4 ≤ L + 4
      omega
    · rcases List.mem_cons.mp h with h | h
      · subst h
        left
        show p + 4 * i ≤ p + i * 4 ∧ p + i * 4 + 4 ≤ p + 4 * (i + (a :: rest).length)
        simp only [List.length_cons]
        omega
      · rcases ih (L + ins2Len a) (i + 1) ev h with h1 | h1
        · left
          simp only [List.length_cons]
          omega
        · right
          omega

theorem smp2TraceSpec_off_mem (ss : List SampleData) (L p n i : Nat) :
    ∀ ev ∈ smp2TraceSpec L p n i ss,
      (p + n * 4 + 4 * i ≤ ev.off ∧ ev.off + 4 ≤ p + n * 4 + 4 * (i + ss.length))
      ∨ L + 4 ≤ ev.off := by
  induction ss generalizing L i with
  | nil => intro ev h; cases h
  | cons a rest ih =>
    intro ev h
    have hlen : 49 ≤ smp2Len a := by simp only [smp2Len]; omega
    rcases List.mem_cons.mp h with h | h
    · subst h
      right
      show L + 4 ≤ L + 4
      omega
    · rcases List.mem_cons.mp h with h | h
      · subst h
        left
        show p + n * 4 + 4 * i ≤ p + n * 4 + i * 4
          ∧ p + n * 4 + i * 4 + 4 ≤ p + n * 4 + 4 * (i + (a :: rest).length)
        simp only [List.length_cons]
        omega
      · rcases ih (L + smp2Len a) (i + 1) ev h with h1 | h1
        · left
          simp only [List.length_cons]
          omega
        · right
          omega

theorem patnTraceSpec_off_mem (k : Nat) (L p n i : Nat) :
    ∀ ev ∈ patnTraceSpec L p n i k,
      p + n * 2 * 4 + 4 * i ≤ ev.off ∧ ev.off + 4 ≤ p + n * 2 * 4 + 4 * (i + k) := by
  induction k generalizing L i with
  | zero => intro ev h; cases h
  | succ k ih =>
    intro ev h
    rcases List.mem_cons.mp h with h | h
    · subst h
      show p + n * 2 * 4 + 4 * i ≤ p + n * 2 * 4 + i * 4
        ∧ p + n * 2 * 4 + i * 4 + 4 ≤ p + n * 2 * 4 + 4 * (i + (k + 1))
      omega
    · have := ih (L + 17) (i + 1) ev h
      omega

theorem ins2TraceSpec_count (ss : List SampleData) (L p i j : Nat)
    (hL : p + 4 * (i + ss.length) ≤ L) (hj : i ≤ j) (hj2 : j < i + ss.length) :
    (ins2TraceSpec L p i ss).countP (fun ev => ev.off == p + j * 4) = 1 := by
  induction ss generalizing L i with
  | nil => simp at hj2; omega
  | cons a rest ih =>
    have hlen : 752 ≤ ins2Len a := by simp only [ins2Len]; omega
    simp only [List.length_cons] at hL hj2
    have hb1 : ¬(L + 4 = p + j * 4) := by omega
    simp only [ins2TraceSpec]
    by_cases hc : j = i
    · subst hc
      have hz : (ins2TraceSpec (L + ins2Len a) p (j + 1) rest).countP
          (fun ev => ev.off == p + j * 4) = 0 := by
        apply List.countP_eq_zero.mpr
        intro ev hev
        have := ins2TraceSpec_off_mem rest (L + ins2Len a) p (j + 1) ev hev
        simp only [beq_iff_eq]
        omega
      simp [List.countP_cons, hb1, hz]
    · have hb2 : ¬(p + i * 4 = p + j * 4) := by omega
      have hrec := ih (L + ins2Len a) (i + 1) (by omega) (by omega) (by omega)
      simp [List.countP_cons, hb1, hb2, hrec]

theorem smp2TraceSpec_count (ss : List SampleData) (L p n i j : Nat)
    (hL : p + n * 4 + 4 * (i + ss.length) ≤ L) (hj : i ≤ j) (hj2 : j < i + ss.length) :
    (smp2TraceSpec L p n i ss).countP (fun ev => ev.off == p + n * 4 + j * 4) = 1 := by
  induction ss generalizing L i with
  | nil => simp at hj2; omega
  | cons a rest ih =>
    have hlen : 49 ≤ smp2Len a := by simp only [smp2Len]; omega
    simp only [List.length_cons] at hL hj2
    have hb1 : ¬(L + 4 = p + n * 4 + j * 4) := by omega
    simp only [smp2TraceSpec]
    by_cases hc : j = i
    · subst hc
      have hz : (smp2TraceSpec (L + smp2Len a) p n (j + 1) rest).countP
          (fun ev => ev.off == p + n * 4 + j * 4) = 0 := by
        apply List.countP_eq_zero.mpr
        intro ev hev
        have := smp2TraceSpec_off_mem rest (L + smp2Len a) p n (j + 1) ev hev
        simp only [beq_iff_eq]
        omega
      simp [List.countP_cons, hb1, hz]
    · have hb2 : ¬(p + n * 4 + i * 4 = p + n * 4 + j * 4) := by omega
      have hrec := ih (L + smp2Len a) (i + 1) (by omega) (by omega) (by omega)
      simp [List.countP_cons, hb1, hb2, hrec]

theorem patnTraceSpec_count (k : Nat) (L p n i j : Nat)
    (hj : i ≤ j) (hj2 : j < i + k) :
    (patnTraceSpec L p n i k).countP (fun ev => ev.off == p + n * 2 * 4 + j * 4) = 1 := by
  induction k generalizing L i with
  | zero => omega
  | succ k ih =>
    simp only [patnTraceSpec]
    by_cases hc : j = i
    · subst hc
      have hz : (patnTraceSpec (L + 17) p n (j + 1) k).countP
          (fun ev => ev.off == p + n * 2 * 4 + j * 4) = 0 := by
        apply List.countP_eq_zero.mpr
        intro ev hev
        have := patnTraceSpec_off_mem k (L + 17) p n (j + 1) ev hev
        simp only [beq_iff_eq]
        omega
      simp [List.countP_cons, hz]
    · have hb2 : ¬(p + n * 2 * 4 + i * 4 = p + n * 2 * 4 + j * 4) := by omega
      have hrec := ih (L + 17) (i + 1) (by omega) (by omega)
      simp [List.countP_cons, hb2, hrec]

/-! ### Each pointer slot of a full run is patched exactly once -/

theorem traceSpec_count_ins (ss : List SampleData) (vn vd j : Nat)
    (hj : j < ss.length) :
    patchCount (traceSpec ss vn vd) (314 + j * 4) = 1 := by
  have h1 : 314 + 4 * ss.length ≤ insBaseOff ss.length := by
    simp only [insBaseOff, adir2Off, adir1Off, adir0Off]
    omega
  have h2 : insBaseOff ss.length ≤ smpBaseOff ss := by
    simp only [smpBaseOff]
    omega
  have h3 : smpBaseOff ss ≤ patnBaseOff ss := by
    simp only [patnBaseOff]
    omega
  simp only [patchCount, traceSpec, List.countP_append]
  have hA : (infoTraceSpec 32 ss.length vn vd).countP
      (fun ev => ev.off == 314 + j * 4) = 0 := by
    apply List.countP_eq_zero.mpr
    intro ev hev
    simp only [infoTraceSpec, List.mem_cons, List.not_mem_nil, or_false] at hev
    rcases hev with h | h | h <;> subst h <;> simp <;> omega
  have hB : (adirTraceSpec ss.length).countP
      (fun ev => ev.off == 314 + j * 4) = 0 := by
    apply List.countP_eq_zero.mpr
    intro ev hev
    simp only [adirTraceSpec, List.mem_cons, List.not_mem_nil, or_false] at hev
    rcases hev with h | h | h <;> subst h <;> simp [postOrderOff] <;> omega
  have hC : (ins2TraceSpec (insBaseOff ss.length) 314 0 ss).countP
      (fun ev => ev.off == 314 + j * 4) = 1 :=
    ins2TraceSpec_count ss (insBaseOff ss.length) 314 0 j (by omega) (by omega)
      (by omega)
  have hD : (smp2TraceSpec (smpBaseOff ss) 314 ss.length 0 ss).countP
      (fun ev => ev.off == 314 + j * 4) = 0 := by
    apply List.countP_eq_zero.mpr
    intro ev hev
    have := smp2TraceSpec_off_mem ss (smpBaseOff ss) 314 ss.length 0 ev hev
    simp only [beq_iff_eq]
    omega
  have hE : (patnTraceSpec (patnBaseOff ss) 314 ss.length 0 ss.length).countP
      (fun ev => ev.off == 314 + j * 4) = 0 := by
    apply List.countP_eq_zero.mpr
    intro ev hev
    have := patnTraceSpec_off_mem ss.length (patnBaseOff ss) 314 ss.length 0 ev hev
    simp only [beq_iff_eq]
    omega
  rw [hA, hB, hC, hD, hE]

theorem traceSpec_count_smp (ss : List SampleData) (vn vd j : Nat)
    (hj : j < ss.length) :
    patchCount (traceSpec ss vn vd) (314 + ss.length * 4 + j * 4) = 1 := by
  have h1 : 314 + 8 * ss.length + 4 ≤ insBaseOff ss.length := by
    simp only [insBaseOff, adir2Off, adir1Off, adir0Off]
    omega
  have h2 : insBaseOff ss.length ≤ smpBaseOff ss := by
    simp only [smpBaseOff]
    omega
  have h3 : smpBaseOff ss ≤ patnBaseOff ss := by
    simp only [patnBaseOff]
    omega
  simp only [patchCount, traceSpec, List.countP_append]
  have hA : (infoTraceSpec 32 ss.length vn vd).countP
      (fun ev => ev.off == 314 + ss.length * 4 + j * 4) = 0 := by
    apply List.countP_eq_zero.mpr
    intro ev hev
    simp only [infoTraceSpec, List.mem_cons, List.not_mem_nil, or_false] at hev
    rcases hev with h | h | h <;> subst h <;> simp <;> omega
  have hB : (adirTraceSpec ss.length).countP
      (fun ev => ev.off == 314 + ss.length * 4 + j * 4) = 0 := by
    apply List.countP_eq_zero.mpr
    intro ev hev
    simp only [adirTraceSpec, List.mem_cons, List.not_mem_nil, or_false] at hev
    rcases hev with h | h | h <;> subst h <;> simp [postOrderOff] <;> omega
  have hC : (ins2TraceSpec (insBaseOff ss.length) 314 0 ss).countP
      (fun ev => ev.off == 314 + ss.length * 4 + j * 4) = 0 := by
    apply List.countP_eq_zero.mpr
    intro ev hev
    have := ins2TraceSpec_off_mem ss (insBaseOff ss.length) 314 0 ev hev
    simp only [beq_iff_eq]
    omega
  have hD : (smp2TraceSpec (smpBaseOff ss) 314 ss.length 0 ss).countP
      (fun ev => ev.off == 314 + ss.length * 4 + j * 4) = 1 := by
    have := smp2TraceSpec_count ss (smpBaseOff ss) 314 ss.length 0 j (by omega)
      (by omega) (by omega)
    simpa using this
  have hE : (patnTraceSpec (patnBaseOff ss) 314 ss.length 0 ss.length).countP
      (fun ev => ev.off == 314 + ss.length * 4 + j * 4) = 0 := by
    apply List.countP_eq_zero.mpr
    intro ev hev
    have := patnTraceSpec_off_mem ss.length (patnBaseOff ss) 314 ss.length 0 ev hev
    simp only [beq_iff_eq]
    omega
  rw [hA, hB, hC, hD, hE]

theorem traceSpec_count_patn (ss : List SampleData) (vn vd j : Nat)
    (hj : j < ss.length) :
    patchCount (traceSpec ss vn vd) (314 + ss.length * 2 * 4 + j * 4) = 1 := by
  have h1 : 314 + 12 * ss.length + 4 ≤ insBaseOff ss.length := by
    simp only [insBaseOff, adir2Off, adir1Off, adir0Off]
    omega
  have h2 : insBaseOff ss.length ≤ smpBaseOff ss := by
    simp only [smpBaseOff]
    omega
  have h3 : smpBaseOff ss ≤ patnBaseOff ss := by
    simp only [patnBaseOff]
    omega
  simp only [patchCount, traceSpec, List.countP_append]
  have hA : (infoTraceSpec 32 ss.length vn vd).countP
      (fun ev => ev.off == 314 + ss.length * 2 * 4 + j * 4) = 0 := by
    apply List.countP_eq_zero.mpr
    intro ev hev
    simp only [infoTraceSpec, List.mem_cons, List.not_mem_nil, or_false] at hev
    rcases hev with h | h | h <;> subst h <;> simp <;> omega
  have hB : (adirTraceSpec ss.length).countP
      (fun ev => ev.off == 314 + ss.length * 2 * 4 + j * 4) = 0 := by
    apply List.countP_eq_zero.mpr
    intro ev hev
    simp only [adirTraceSpec, List.mem_cons, List.not_mem_nil, or_false] at hev
    rcases hev with h | h | h <;> subst h <;> simp [postOrderOff] <;> omega
  have hC : (ins2TraceSpec (insBaseOff ss.length) 314 0 ss).countP
      (fun ev => ev.off == 314 + ss.length * 2 * 4 + j * 4) = 0 := by
    apply List.countP_eq_zero.mpr
    intro ev hev
    have := ins2TraceSpec_off_mem ss (insBaseOff ss.length) 314 0 ev hev
    simp only [beq_iff_eq]
    omega
  have hD : (smp2TraceSpec (smpBaseOff ss) 314 ss.length 0 ss).countP
      (fun ev => ev.off == 314 + ss.length * 2 * 4 + j * 4) = 0 := by
    apply List.countP_eq_zero.mpr
    intro ev hev
    have := smp2TraceSpec_off_mem ss (smpBaseOff ss) 314 ss.length 0 ev hev
    simp only [beq_iff_eq]
    omega
  have hE : (patnTraceSpec (patnBaseOff ss) 314 ss.length 0 ss.length).countP
      (fun ev => ev.off == 314 + ss.length * 2 * 4 + j * 4) = 1 :=
    patnTraceSpec_count ss.length (patnBaseOff ss) 314 ss.length 0 j (by omega)
      (by omega)
  rw [hA, hB, hC, hD, hE]

theorem traceSpec_count_adir (ss : List SampleData) (vn vd dd : Nat)
    (hd : dd = 248 ∨ dd = 252 ∨ dd = 256) :
    patchCount (traceSpec ss vn vd) (314 + 13 * ss.length + dd) = 1 := by
  have h1 : 574 + 13 * ss.length ≤ insBaseOff ss.length := by
    simp only [insBaseOff, adir2Off, adir1Off, adir0Off]
    omega
  have h2 : insBaseOff ss.length ≤ smpBaseOff ss := by
    simp only [smpBaseOff]
    omega
  simp only [patchCount, traceSpec, List.countP_append]
  have hA : (infoTraceSpec 32 ss.length vn vd).countP
      (fun ev => ev.off == 314 + 13 * ss.length + dd) = 0 := by
    apply List.countP_eq_zero.mpr
    intro ev hev
    simp only [infoTraceSpec, List.mem_cons, List.not_mem_nil, or_false] at hev
    rcases hev with h | h | h <;> subst h <;> simp <;> omega
  have hB : (adirTraceSpec ss.length).countP
      (fun ev => ev.off == 314 + 13 * ss.length + dd) = 1 := by
    simp only [adirTraceSpec, postOrderOff]
    rcases hd with h | h | h <;> subst h <;>
      simp [List.countP_cons, show ¬(314 + 13 * ss.length + 248 = 314 + 13 * ss.length + 252) from by omega,
        show ¬(314 + 13 * ss.length + 248 = 314 + 13 * ss.length + 256) from by omega,
        show ¬(314 + 13 * ss.length + 252 = 314 + 13 * ss.length + 256) from by omega,
        show ¬(314 + 13 * ss.length + 252 = 314 + 13 * ss.length + 248) from by omega,
        show ¬(314 + 13 * ss.length + 256 = 314 + 13 * ss.length + 248) from by omega,
        show ¬(314 + 13 * ss.length + 256 = 314 + 13 * ss.length + 252) from by omega]
  have hC : (ins2TraceSpec (insBaseOff ss.length) 314 0 ss).countP
      (fun ev => ev.off == 314 + 13 * ss.length + dd) = 0 := by
    apply List.countP_eq_zero.mpr
    intro ev hev
    have := ins2TraceSpec_off_mem ss (insBaseOff ss.length) 314 0 ev hev
    simp only [beq_iff_eq]
    omega
  have hD : (smp2TraceSpec (smpBaseOff ss) 314 ss.length 0 ss).countP
      (fun ev => ev.off == 314 + 13 * ss.length + dd) = 0 := by
    apply List.countP_eq_zero.mpr
    intro ev hev
    have := smp2TraceSpec_off_mem ss (smpBaseOff ss) 314 ss.length 0 ev hev
    simp only [beq_iff_eq]
    omega
  have hE : (patnTraceSpec (patnBaseOff ss) 314 ss.length 0 ss.length).countP
      (fun ev => ev.off == 314 + 13 * ss.length + dd) = 0 := by
    apply List.countP_eq_zero.mpr
    intro ev hev
    have := patnTraceSpec_off_mem ss.length (patnBaseOff ss) 314 ss.length 0 ev hev
    simp only [beq_iff_eq]
    omega
  rw [hA, hB, hC, hD, hE]

/-! ### Claim C1 -/

/-- A one-sample record used to instantiate the claims on a concrete run. -/
def sample0 : SampleData := ⟨[48], [48], [1, 2], 1, 1, 8000, 16⟩

/-- C1: after all blocks are written, for every `i < N` the 4-byte
    little-endian slot at `ptr_table_off + 4*i` holds the start offset of
    instrument block `i`, the slot at `ptr_table_off + 4N + 4*i` the start of
    sample block `i`, and the slot at `ptr_table_off + 8N + 4*i` the start of
    pattern block `i`; the three slots at `post_order_off + 0xF8/0xFC/0x100`
    hold the three ADIR start offsets; each referenced block's tag begins at
    exactly that offset; and every such slot is patched exactly once. -/
theorem C1_pointer_slots (ss : List SampleData) (s p vn vd : Nat)
    (hlen : totalLen ss < 4294967296) :
    (∀ i, i < ss.length →
      readU32 (encode ss s p vn vd).buf.data (ptrTableOff + 4 * i) = insOff ss i
      ∧ readU32 (encode ss s p vn vd).buf.data (ptrTableOff + 4 * ss.length + 4 * i)
          = smpOff ss i
      ∧ readU32 (encode ss s p vn vd).buf.data (ptrTableOff + 8 * ss.length + 4 * i)
          = patnOff ss i
      ∧ readBytes (encode ss s p vn vd).buf.data (insOff ss i) 4 = tagINS2
      ∧ readBytes (encode ss s p vn vd).buf.data (smpOff ss i) 4 = tagSMP2
      ∧ readBytes (encode ss s p vn vd).buf.data (patnOff ss i) 4 = tagPATN
      ∧ patchCount (encode ss s p vn vd).trace (ptrTableOff + 4 * i) = 1
      ∧ patchCount (encode ss s p vn vd).trace (ptrTableOff + 4 * ss.length + 4 * i) = 1
      ∧ patchCount (encode ss s p vn vd).trace (ptrTableOff + 8 * ss.length + 4 * i) = 1)
    ∧ readU32 (encode ss s p vn vd).buf.data (postOrderOff ss.length + 248)
        = adir0Off ss.length
    ∧ readU32 (encode ss s p vn vd).buf.data (postOrderOff ss.length + 252)
        = adir1Off ss.length
    ∧ readU32 (encode ss s p vn vd).buf.data (postOrderOff ss.length + 256)
        = adir2Off ss.length
    ∧ readBytes (encode ss s p vn vd).buf.data (adir0Off ss.length) 4 = tagADIR
    ∧ readBytes (encode ss s p vn vd).buf.data (adir1Off ss.length) 4 = tagADIR
    ∧ readBytes (encode ss s p vn vd).buf.data (adir2Off ss.length) 4 = tagADIR
    ∧ patchCount (encode ss s p vn vd).trace (postOrderOff ss.length + 248) = 1
    ∧ patchCount (encode ss s p vn vd).trace (postOrderOff ss.length + 252) = 1
    ∧ patchCount (encode ss s p vn vd).trace (postOrderOff ss.length + 256) = 1 := by
  have hpw := mainPatches_pairwise ss
  have hbnd := mainPatches_bounds ss s p vn vd
  have hA0IB : adir0Off ss.length ≤ insBaseOff ss.length := by
    simp only [insBaseOff, adir2Off, adir1Off]
    omega
  have hIBsmp : insBaseOff ss.length ≤ smpBaseOff ss := by
    simp only [smpBaseOff]
    omega
  have hsmpPat : smpBaseOff ss ≤ patnBaseOff ss := by
    simp only [patnBaseOff]
    omega
  have hIBtot : insBaseOff ss.length ≤ totalLen ss := by
    simp only [totalLen, patnBaseOff, smpBaseOff]
    omega
  refine ⟨?_, ?_, ?_, ?_, ?_, ?_, ?_, ?_, ?_, ?_⟩
  · intro i hi
    refine ⟨?_, ?_, ?_, ?_, ?_, ?_, ?_, ?_, ?_⟩
    · have hm := ins2PatchSpec_mem ss (insBaseOff ss.length) 314 0 i hi
      have hmm : (314 + (0 + i) * 4,
          insBaseOff ss.length + ((ss.take i).map ins2Len).sum) ∈ mainPatches ss := by
        simp only [mainPatches, List.mem_append]
        exact Or.inr (Or.inl hm)
      rw [show ptrTableOff + 4 * i = 314 + (0 + i) * 4 from by
        simp only [ptrTableOff]
        omega]
      rw [(encode_spec ss s p vn vd).1]
      rw [readU32_applyU32Patches_mem _ _ _ _ hmm hpw hbnd]
      rw [show insBaseOff ss.length + ((ss.take i).map ins2Len).sum = insOff ss i
        from rfl]
      exact Nat.mod_eq_of_lt (by have := insOff_le_totalLen ss i; omega)
    · have hm := smp2PatchSpec_mem ss (smpBaseOff ss) 314 ss.length 0 i hi
      have hmm : (314 + ss.length * 4 + (0 + i) * 4,
          smpBaseOff ss + ((ss.take i).map smp2Len).sum) ∈ mainPatches ss := by
        simp only [mainPatches, List.mem_append]
        exact Or.inr (Or.inr (Or.inl hm))
      rw [show ptrTableOff + 4 * ss.length + 4 * i
          = 314 + ss.length * 4 + (0 + i) * 4 from by
        simp only [ptrTableOff]
        omega]
      rw [(encode_spec ss s p vn vd).1]
      rw [readU32_applyU32Patches_mem _ _ _ _ hmm hpw hbnd]
      rw [show smpBaseOff ss + ((ss.take i).map smp2Len).sum = smpOff ss i from rfl]
      exact Nat.mod_eq_of_lt (by have := smpOff_le_totalLen ss i; omega)
    · have hm := patnPatchSpec_mem ss.length (patnBaseOff ss) 314 ss.length 0 i hi
      have hmm : (314 + ss.length * 2 * 4 + (0 + i) * 4,
          patnBaseOff ss + 17 * i) ∈ mainPatches ss := by
        simp only [mainPatches, List.mem_append]
        exact Or.inr (Or.inr (Or.inr hm))
      rw [show ptrTableOff + 8 * ss.length + 4 * i
          = 314 + ss.length * 2 * 4 + (0 + i) * 4 from by
        simp only [ptrTableOff]
        omega]
      rw [(encode_spec ss s p vn vd).1]
      rw [readU32_applyU32Patches_mem _ _ _ _ hmm hpw hbnd]
      rw [show patnBaseOff ss + 17 * i = patnOff ss i from rfl]
      exact Nat.mod_eq_of_lt
        (by have := patnOff_le_totalLen ss i (by omega); omega)
    · have ht := bigCat_read_ins2 ss s p vn vd i hi 0 4 (by
        simp only [ins2Len]
        omega)
      rw [Nat.add_zero] at ht
      rw [encode_read_unpatched ss s p vn vd _ 4
        (mainPatches_disj_high ss _ 4 (by
          have : insBaseOff ss.length ≤ insOff ss i := by
            simp only [insOff]
            omega
          omega))]
      rw [ht, ins2Bytes_read_tag]
    · have ht := bigCat_read_smp2 ss s p vn vd i hi 0 4 (by
        simp only [smp2Len]
        omega)
      rw [Nat.add_zero] at ht
      rw [encode_read_unpatched ss s p vn vd _ 4
        (mainPatches_disj_high ss _ 4 (by
          have : smpBaseOff ss ≤ smpOff ss i := by
            simp only [smpOff]
            omega
          omega))]
      rw [ht, smp2Bytes_read_tag]
    · have ht := bigCat_read_patn ss s p vn vd i hi 0 4 (by omega)
      rw [Nat.add_zero] at ht
      rw [encode_read_unpatched ss s p vn vd _ 4
        (mainPatches_disj_high ss _ 4 (by
          have : patnBaseOff ss ≤ patnOff ss i := by
            simp only [patnOff]
            omega
          omega))]
      rw [ht, patnBytes_read_tag]
    · rw [(encode_spec ss s p vn vd).2]
      rw [show ptrTableOff + 4 * i = 314 + i * 4 from by
        simp only [ptrTableOff]
        omega]
      exact traceSpec_count_ins ss vn vd i hi
    · rw [(encode_spec ss s p vn vd).2]
      rw [show ptrTableOff + 4 * ss.length + 4 * i = 314 + ss.length * 4 + i * 4 from by
        simp only [ptrTableOff]
        omega]
      exact traceSpec_count_smp ss vn vd i hi
    · rw [(encode_spec ss s p vn vd).2]
      rw [show ptrTableOff + 8 * ss.length + 4 * i
          = 314 + ss.length * 2 * 4 + i * 4 from by
        simp only [ptrTableOff]
        omega]
      exact traceSpec_count_patn ss vn vd i hi
  · have hmm : (postOrderOff ss.length + 248, adir0Off ss.length) ∈ mainPatches ss := by
      simp only [mainPatches, List.mem_append]
      exact Or.inl (by simp [adirPatchSpec])
    rw [(encode_spec ss s p vn vd).1]
    rw [readU32_applyU32Patches_mem _ _ _ _ hmm hpw hbnd]
    exact Nat.mod_eq_of_lt (by have := adir0Off_le_totalLen ss; omega)
  · have hmm : (postOrderOff ss.length + 252, adir1Off ss.length) ∈ mainPatches ss := by
      simp only [mainPatches, List.mem_append]
      exact Or.inl (by simp [adirPatchSpec])
    rw [(encode_spec ss s p vn vd).1]
    rw [readU32_applyU32Patches_mem _ _ _ _ hmm hpw hbnd]
    refine Nat.mod_eq_of_lt ?_
    have h5 : adir1Off ss.length ≤ insBaseOff ss.length := by
      simp only [insBaseOff, adir2Off]
      omega
    omega
  · have hmm : (postOrderOff ss.length + 256, adir2Off ss.length) ∈ mainPatches ss := by
      simp only [mainPatches, List.mem_append]
      exact Or.inl (by simp [adirPatchSpec])
    rw [(encode_spec ss s p vn vd).1]
    rw [readU32_applyU32Patches_mem _ _ _ _ hmm hpw hbnd]
    refine Nat.mod_eq_of_lt ?_
    have h5 : adir2Off ss.length ≤ insBaseOff ss.length := by
      simp only [insBaseOff]
      omega
    omega
  · have ht := bigCat_read_adir0 ss s p vn vd 0 4 (by omega)
    rw [Nat.add_zero] at ht
    rw [encode_read_unpatched ss s p vn vd _ 4
      (mainPatches_disj_high ss _ 4 (Nat.le_refl _))]
    rw [ht, adirGrpBytes_read_tag]
  · have ht := bigCat_read_adir1 ss s p vn vd 0 4 (by omega)
    rw [Nat.add_zero] at ht
    rw [encode_read_unpatched ss s p vn vd _ 4
      (mainPatches_disj_high ss _ 4 (by
        simp only [adir1Off]
        omega))]
    rw [ht, adirWavBytes_read_tag]
  · have ht := bigCat_read_adir2 ss s p vn vd 0 4 (by omega)
    rw [Nat.add_zero] at ht
    rw [encode_read_unpatched ss s p vn vd _ 4
      (mainPatches_disj_high ss _ 4 (by
        simp only [adir2Off, adir1Off]
        omega))]
    rw [ht, adirGrpBytes_read_tag]
  · rw [(encode_spec ss s p vn vd).2]
    rw [show postOrderOff ss.length + 248 = 314 + 13 * ss.length + 248 from by
      simp only [postOrderOff]]
    exact traceSpec_count_adir ss vn vd 248 (Or.inl rfl)
  · rw [(encode_spec ss s p vn vd).2]
    rw [show postOrderOff ss.length + 252 = 314 + 13 * ss.length + 252 from by
      simp only [postOrderOff]]
    exact traceSpec_count_adir ss vn vd 252 (Or.inr (Or.inl rfl))
  · rw [(encode_spec ss s p vn vd).2]
    rw [show postOrderOff ss.length + 256 = 314 + 13 * ss.length + 256 from by
      simp only [postOrderOff]]
    exact traceSpec_count_adir ss vn vd 256 (Or.inr (Or.inr rfl))

/-- Witness for C1 on a concrete one-sample run. -/
theorem C1_pointer_slots_witness :
    totalLen [sample0] < 4294967296
    ∧ readU32 (encode [sample0] 4 8 120 225).buf.data (postOrderOff 1 + 248)
        = adir0Off 1 :=
  ⟨by decide, (C1_pointer_slots [sample0] 4 8 120 225 (by decide)).2.1⟩

/-! ### Claim C2 -/

/-- C2 (amended): every emitted block begins with a 4-byte tag followed by a
    4-byte little-endian size field, and that size field equals the exact byte
    span from the byte after the size field to the next block's tag (or to the
    end of the buffer for the last block).  (The reserve-then-patch mechanism
    the claim also asserts holds only for INFO, INS2 and SMP2, see the
    counterexample.) -/
theorem C2_block_sizes (ss : List SampleData) (s p vn vd : Nat)
    (hn : 0 < ss.length) (hlen : totalLen ss < 4294967296) :
    readU32 (encode ss s p vn vd).buf.data 36 = adir0Off ss.length - 40
    ∧ readU32 (encode ss s p vn vd).buf.data (adir0Off ss.length + 4)
        = adir1Off ss.length - (adir0Off ss.length + 8)
    ∧ readU32 (encode ss s p vn vd).buf.data (adir1Off ss.length + 4)
        = adir2Off ss.length - (adir1Off ss.length + 8)
    ∧ readU32 (encode ss s p vn vd).buf.data (adir2Off ss.length + 4)
        = insBaseOff ss.length - (adir2Off ss.length + 8)
    ∧ ∀ i, (hi : i < ss.length) →
        readU32 (encode ss s p vn vd).buf.data (insOff ss i + 4)
          = insOff ss (i + 1) - (insOff ss i + 8)
        ∧ readU32 (encode ss s p vn vd).buf.data (smpOff ss i + 4)
          = smpOff ss (i + 1) - (smpOff ss i + 8)
        ∧ readU32 (encode ss s p vn vd).buf.data (patnOff ss i + 4)
          = patnOff ss (i + 1) - (patnOff ss i + 8) := by
  have hA0IB : adir0Off ss.length ≤ insBaseOff ss.length := by
    simp only [insBaseOff, adir2Off, adir1Off]
    omega
  have hIBsmp : insBaseOff ss.length ≤ smpBaseOff ss := by
    simp only [smpBaseOff]
    omega
  have hsmpPat : smpBaseOff ss ≤ patnBaseOff ss := by
    simp only [patnBaseOff]
    omega
  have hA0tot := adir0Off_le_totalLen ss
  refine ⟨?_, ?_, ?_, ?_, ?_⟩
  · simp only [readU32]
    rw [encode_read_unpatched ss s p vn vd 36 4 (mainPatches_disj_low ss 36 4 (by omega))]
    rw [show (36 : Nat) = 32 + 4 from rfl]
    rw [bigCat_read_info ss s p vn vd 4 4 (by omega)]
    rw [infoBytes_read_size, leNat_bytes32]
    rw [Nat.mod_eq_of_lt (by simp only [adir0Off] at hA0tot; omega)]
    simp only [adir0Off]
    omega
  · simp only [readU32]
    rw [encode_read_unpatched ss s p vn vd _ 4
      (mainPatches_disj_high ss _ 4 (Nat.le_add_right _ _))]
    rw [bigCat_read_adir0 ss s p vn vd 4 4 (by omega)]
    rw [adirGrpBytes_read_size, leNat_bytes32]
    rw [Nat.mod_eq_of_lt (by simp only [adir0Off] at hA0tot; omega)]
    simp only [adir1Off]
    omega
  · simp only [readU32]
    rw [encode_read_unpatched ss s p vn vd _ 4
      (mainPatches_disj_high ss _ 4 (by simp only [adir1Off]; omega))]
    rw [bigCat_read_adir1 ss s p vn vd 4 4 (by omega)]
    rw [adirWavBytes_read_size, leNat_bytes32]
    simp only [adir2Off]
    omega
  · simp only [readU32]
    rw [encode_read_unpatched ss s p vn vd _ 4
      (mainPatches_disj_high ss _ 4 (by simp only [adir2Off, adir1Off]; omega))]
    rw [bigCat_read_adir2 ss s p vn vd 4 4 (by omega)]
    rw [adirGrpBytes_read_size, leNat_bytes32]
    rw [Nat.mod_eq_of_lt (by simp only [adir0Off] at hA0tot; omega)]
    simp only [insBaseOff]
    omega
  · intro i hi
    have hIBins : insBaseOff ss.length ≤ insOff ss i := by
      simp only [insOff]
      omega
    refine ⟨?_, ?_, ?_⟩
    · simp only [readU32]
      rw [encode_read_unpatched ss s p vn vd _ 4
        (mainPatches_disj_high ss _ 4 (by omega))]
      rw [bigCat_read_ins2 ss s p vn vd i hi 4 4 (by simp only [ins2Len]; omega)]
      rw [ins2Bytes_read_size, leNat_bytes32]
      have hs := takeSum_succ ins2Len ss i hi
      have h7 : ins2Len (ss.get ⟨i, hi⟩) = 752 + strlenL (ss.get ⟨i, hi⟩).name := rfl
      have h6 := insOff_le_totalLen ss (i + 1)
      simp only [insOff] at h6 ⊢
      rw [Nat.mod_eq_of_lt (by omega)]
      omega
    · simp only [readU32]
      have hsm : smpBaseOff ss ≤ smpOff ss i := by
        simp only [smpOff]
        omega
      rw [encode_read_unpatched ss s p vn vd _ 4
        (mainPatches_disj_high ss _ 4 (by omega))]
      rw [bigCat_read_smp2 ss s p vn vd i hi 4 4 (by simp only [smp2Len]; omega)]
      rw [smp2Bytes_read_size, leNat_bytes32]
      have hs := takeSum_succ smp2Len ss i hi
      have h7 : smp2Len (ss.get ⟨i, hi⟩)
          = 49 + strlenL (ss.get ⟨i, hi⟩).name + (ss.get ⟨i, hi⟩).pcm.length := rfl
      have h6 := smpOff_le_totalLen ss (i + 1)
      simp only [smpOff] at h6 ⊢
      rw [Nat.mod_eq_of_lt (by omega)]
      omega
    · simp only [readU32]
      have hpa : patnBaseOff ss ≤ patnOff ss i := by
        simp only [patnOff]
        omega
      rw [encode_read_unpatched ss s p vn vd _ 4
        (mainPatches_disj_high ss _ 4 (by omega))]
      rw [bigCat_read_patn ss s p vn vd i hi 4 4 (by omega)]
      rw [patnBytes_read_size, leNat_bytes32]
      simp only [patnOff]
      omega

/-- Witness for C2 (amended) on a concrete one-sample run. -/
theorem C2_block_sizes_witness :
    (0 < ([sample0] : List SampleData).length ∧ totalLen [sample0] < 4294967296)
    ∧ readU32 (encode [sample0] 4 8 120 225).buf.data 36 = adir0Off 1 - 40 :=
  ⟨⟨by decide, by decide⟩,
    (C2_block_sizes [sample0] 4 8 120 225 (by decide) (by decide)).1⟩

/-- C2 counterexample: the claim's reserve-then-patch mechanism is not used by
    every block encoder.  `write_patn` (and the ADIR writers) record no patch
    operation at all — they write the size field directly — even though the
    emitted size field (9 for PATN) is correct. -/
theorem C2_counterexample :
    (write_patn bufInit 0).trace = []
    ∧ (write_adir_ins bufInit 3).trace = []
    ∧ (write_adir_wav bufInit).trace = []
    ∧ readU32 (write_patn bufInit 0).buf.data 4 = 9 :=
  ⟨rfl, rfl, rfl, rfl⟩

/-! ### Claim C9 -/

/-- C9: the container starts with the 16-byte magic, the 2-byte version 228,
    a 2-byte reserved 0, and a 4-byte pointer 32 to the INFO block, whose tag
    does begin at offset 32 (24-byte header plus 8 padding bytes). -/
theorem C9_header (ss : List SampleData) (s p vn vd : Nat) :
    readBytes (encode ss s p vn vd).buf.data 0 16 = furMagic
    ∧ readU16 (encode ss s p vn vd).buf.data 16 = 228
    ∧ readU16 (encode ss s p vn vd).buf.data 18 = 0
    ∧ readU32 (encode ss s p vn vd).buf.data 20 = 32
    ∧ readBytes (encode ss s p vn vd).buf.data 32 4 = tagINFO := by
  refine ⟨?_, ?_, ?_, ?_, ?_⟩
  · rw [encode_read_unpatched ss s p vn vd 0 16 (mainPatches_disj_low ss 0 16 (by omega))]
    rw [bigCat_read_pre ss s p vn vd 0 16 (by omega)]
    rfl
  · simp only [readU16]
    rw [encode_read_unpatched ss s p vn vd 16 2 (mainPatches_disj_low ss 16 2 (by omega))]
    rw [bigCat_read_pre ss s p vn vd 16 2 (by omega)]
    rfl
  · simp only [readU16]
    rw [encode_read_unpatched ss s p vn vd 18 2 (mainPatches_disj_low ss 18 2 (by omega))]
    rw [bigCat_read_pre ss s p vn vd 18 2 (by omega)]
    rfl
  · simp only [readU32]
    rw [encode_read_unpatched ss s p vn vd 20 4 (mainPatches_disj_low ss 20 4 (by omega))]
    rw [bigCat_read_pre ss s p vn vd 20 4 (by omega)]
    rfl
  · rw [encode_read_unpatched ss s p vn vd 32 4 (mainPatches_disj_low ss 32 4 (by omega))]
    rw [show (32 : Nat) = 32 + 0 from rfl]
    rw [bigCat_read_info ss s p vn vd 0 4 (by omega)]
    exact infoBytes_read_tag ss.length s p vn vd

/-! ### Claim C10 -/

/-- C10: with the sample count capped at 120, none of the narrow integer
    fields wraps: the 8-bit order-table entries are exactly `0..n-1`, the
    8-bit ADIR group counts are exactly `n` and the member indices exactly
    `1..n-1`, and each 16-bit sample-map entry of instrument `i` is exactly
    `i`. -/
theorem C10_narrow_casts (ss : List SampleData) (s p vn vd : Nat)
    (hcap : ss.length ≤ 120) :
    readBytes (encode ss s p vn vd).buf.data (314 + 12 * ss.length) ss.length
      = List.range ss.length
    ∧ readBytes (encode ss s p vn vd).buf.data (adir0Off ss.length + 13) 1
        = [ss.length]
    ∧ readBytes (encode ss s p vn vd).buf.data (adir2Off ss.length + 13) 1
        = [ss.length]
    ∧ readBytes (encode ss s p vn vd).buf.data (adir0Off ss.length + 16)
        (ss.length - 1) = List.range' 1 (ss.length - 1)
    ∧ readBytes (encode ss s p vn vd).buf.data (adir2Off ss.length + 16)
        (ss.length - 1) = List.range' 1 (ss.length - 1)
    ∧ ∀ i, (hi : i < ss.length) → ∀ j, j < 120 →
        readU16 (encode ss s p vn vd).buf.data
          (insOff ss i + 27 + strlenL (ss.get ⟨i, hi⟩).name + 4 * j) = i := by
  have hA0IB : adir0Off ss.length ≤ insBaseOff ss.length := by
    simp only [insBaseOff, adir2Off, adir1Off]
    omega
  refine ⟨?_, ?_, ?_, ?_, ?_, ?_⟩
  · rw [encode_read_unpatched ss s p vn vd _ _ (mainPatches_disj_order ss)]
    rw [show 314 + 12 * ss.length = 32 + (282 + 12 * ss.length) from by omega]
    rw [bigCat_read_info ss s p vn vd (282 + 12 * ss.length) ss.length (by omega)]
    rw [infoBytes_read_order]
    rw [u8IndexBytes_eq_range' 0 ss.length (by omega)]
    exact (List.range_eq_range' ss.length).symm
  · rw [encode_read_unpatched ss s p vn vd _ 1
      (mainPatches_disj_high ss _ 1 (Nat.le_add_right _ _))]
    rw [bigCat_read_adir0 ss s p vn vd 13 1 (by omega)]
    rw [adirGrpBytes_read_count]
    rw [Nat.mod_eq_of_lt (by omega : ss.length < 256)]
  · rw [encode_read_unpatched ss s p vn vd _ 1
      (mainPatches_disj_high ss _ 1 (by simp only [adir2Off, adir1Off]; omega))]
    rw [bigCat_read_adir2 ss s p vn vd 13 1 (by omega)]
    rw [adirGrpBytes_read_count]
    rw [Nat.mod_eq_of_lt (by omega : ss.length < 256)]
  · rw [encode_read_unpatched ss s p vn vd _ _
      (mainPatches_disj_high ss _ (ss.length - 1) (Nat.le_add_right _ _))]
    rw [bigCat_read_adir0 ss s p vn vd 16 (ss.length - 1) (by omega)]
    rw [adirGrpBytes_read_members]
    exact u8IndexBytes_eq_range' 1 (ss.length - 1) (by omega)
  · rw [encode_read_unpatched ss s p vn vd _ _
      (mainPatches_disj_high ss _ (ss.length - 1) (by simp only [adir2Off, adir1Off]; omega))]
    rw [bigCat_read_adir2 ss s p vn vd 16 (ss.length - 1) (by omega)]
    rw [adirGrpBytes_read_members]
    exact u8IndexBytes_eq_range' 1 (ss.length - 1) (by omega)
  · intro i hi j hj
    have hIBins : insBaseOff ss.length ≤ insOff ss i := by
      simp only [insOff]
      omega
    simp only [readU16]
    rw [show insOff ss i + 27 + strlenL (ss.get ⟨i, hi⟩).name + 4 * j
        = insOff ss i + (27 + strlenL (ss.get ⟨i, hi⟩).name + 4 * j) from by omega]
    rw [encode_read_unpatched ss s p vn vd _ 2
      (mainPatches_disj_high ss _ 2 (by omega))]
    rw [bigCat_read_ins2 ss s p vn vd i hi _ 2 (by simp only [ins2Len]; omega)]
    rw [ins2Bytes_read_sm _ _ j hj]
    rw [leNat_bytes16]
    exact Nat.mod_eq_of_lt (by omega)

/-- Witness for C10 on a concrete one-sample run. -/
theorem C10_narrow_casts_witness :
    ([sample0] : List SampleData).length ≤ 120
    ∧ readBytes (encode [sample0] 4 8 120 225).buf.data (314 + 12 * 1) 1
        = List.range 1 :=
  ⟨by decide, (C10_narrow_casts [sample0] 4 8 120 225 (by decide)).1⟩

/-! ### `strcmp`, `cmp_samples` ordering and the directory scan of `main`

    Directory entries cannot contain NUL, so file names are modelled as
    NUL-free byte lists and `strlen` is their length. -/

/-- Three-way `strcmp` on NUL-free byte strings (the terminating NUL makes
    the shorter string compare smaller). -/
def strcmpL : List Nat → List Nat → Int
  | [], [] => 0
  | [], _ :: _ => -1
  | _ :: _, [] => 1
  | a :: xs, b :: ys => if a < b then -1 else if b < a then 1 else strcmpL xs ys

/-- The qsort ordering induced by `cmp_samples`' use of `strcmp`. -/
def nameLe (x y : List Nat) : Prop := strcmpL x y ≤ 0

instance : DecidableRel nameLe :=
  fun x y => inferInstanceAs (Decidable (strcmpL x y ≤ 0))

theorem strcmpL_antisymm (x : List Nat) : ∀ y, strcmpL x y = -strcmpL y x := by
  induction x with
  | nil => intro y; cases y <;> simp [strcmpL]
  | cons a xs ih =>
    intro y
    cases y with
    | nil => simp [strcmpL]
    | cons b ys =>
      simp only [strcmpL]
      split_ifs <;> first | omega | exact ih ys

theorem strcmpL_eq_zero_iff (x : List Nat) : ∀ y, strcmpL x y = 0 ↔ x = y := by
  induction x with
  | nil => intro y; cases y <;> simp [strcmpL]
  | cons a xs ih =>
    intro y
    cases y with
    | nil => simp [strcmpL]
    | cons b ys =>
      simp only [strcmpL]
      split_ifs with h1 h2
      · constructor
        · intro h
          exact absurd h (by decide)
        · rintro h
          rw [List.cons.injEq] at h
          omega
      · constructor
        · intro h
          exact absurd h (by decide)
        · rintro h
          rw [List.cons.injEq] at h
          omega
      · have hab : a = b := by omega
        rw [ih ys]
        simp [List.cons.injEq, hab]

theorem strcmpL_trans (x : List Nat) :
    ∀ y z, strcmpL x y ≤ 0 → strcmpL y z ≤ 0 → strcmpL x z ≤ 0 := by
  induction x with
  | nil => intro y z _ _; cases z <;> simp [strcmpL]
  | cons a xs ih =>
    intro y z h1 h2
    cases y with
    | nil => simp [strcmpL] at h1
    | cons b ys =>
      cases z with
      | nil => simp [strcmpL] at h2
      | cons c zs =>
        simp only [strcmpL] at h1 h2 ⊢
        split_ifs at h1 h2 ⊢ <;> first | omega | exact ih ys zs h1 h2

instance : IsTotal (List Nat) nameLe :=
  ⟨fun x y => by
    simp only [nameLe]
    have := strcmpL_antisymm x y
    omega⟩

instance : IsTrans (List Nat) nameLe := ⟨fun x y z => strcmpL_trans x y z⟩

instance : IsAntisymm (List Nat) nameLe :=
  ⟨fun x y h1 h2 => by
    simp only [nameLe] at h1 h2
    have ha := strcmpL_antisymm x y
    exact (strcmpL_eq_zero_iff x y).mp (by omega)⟩

/-- `tolower` on a byte, as used by `strcasecmp`. -/
def toLowerB (b : Nat) : Nat := if 65 ≤ b ∧ b ≤ 90 then b + 32 else b

/-- The extension filter of the scan loop: `strlen(fn) >= 5` and
    `strcasecmp(fn + flen - 4, ".wav") == 0`. -/
def isWavName (fn : List Nat) : Bool :=
  decide (5 ≤ fn.length)
    && decide ((fn.drop (fn.length - 4)).map toLowerB = [46, 119, 97, 118])

/-- The `readdir` loop of `main`: keep matching names, stop (with a warning,
    not an error) once `MAX_SAMPLES = 120` entries are held. -/
def scanLoop : List (List Nat) → Nat → List (List Nat)
  | [], _ => []
  | fn :: rest, n =>
    if 120 ≤ n then []
    else if isWavName fn then fn :: scanLoop rest (n + 1)
    else scanLoop rest n

theorem scanLoop_eq (l : List (List Nat)) (n : Nat) :
    scanLoop l n = (l.filter isWavName).take (120 - n) := by
  induction l generalizing n with
  | nil => simp [scanLoop]
  | cons fn rest ih =>
    simp only [scanLoop, List.filter_cons]
    by_cases h120 : 120 ≤ n
    · rw [if_pos h120, show 120 - n = 0 from by omega]
      simp
    · rw [if_neg h120]
      by_cases hw : isWavName fn = true
      · rw [if_pos hw, hw]
        simp only [if_true]
        rw [show 120 - n = (120 - (n + 1)) + 1 from by omega, List.take_succ_cons]
        rw [ih (n + 1)]
      · rw [if_neg hw]
        simp only [Bool.not_eq_true] at hw
        rw [hw]
        simp only [Bool.false_eq_true, if_false]
        exact ih n

/-- The ordered name list the program derives from a directory listing:
    scan (capped at 120), then sort by `strcmp`. -/
def furOrder (names : List (List Nat)) : List (List Nat) :=
  List.insertionSort nameLe (scanLoop names 0)

/-! ### A 121-entry directory distinguishing scan order from sorted order -/

def mkName (i : Nat) : List Nat := [48 + i / 16, 97 + i % 16, 46, 119, 97, 118]

def names120 : List (List Nat) := (List.range 120).map mkName

def zName : List Nat := [122, 46, 119, 97, 118]

/-- The directory enumerated with `z.wav` first. -/
def dirA : List (List Nat) := zName :: names120

/-- The same directory enumerated with `z.wav` last. -/
def dirB : List (List Nat) := names120 ++ [zName]

/-! ### The WAV reader (`read_wav`) -/

def RIFF : List Nat := [82, 73, 70, 70]
def WAVE : List Nat := [87, 65, 86, 69]
def fmtTag : List Nat := [102, 109, 116, 32]
def dataTag : List Nat := [100, 97, 116, 97]

structure WavInfo where
  channels : Nat
  sample_rate : Nat
  bit_depth : Nat
  pcm : List Nat
deriving DecidableEq

/-- The chunk-scanning loop of `read_wav`, with explicit fuel.  Each iteration
    requires `off + 8 ≤ fd.length` and advances `off` by at least 8, so fuel
    `fd.length` can never run out before the loop condition fails. -/
def chunkLoopF (fd : List Nat) :
    Nat → Option (Nat × Nat × Nat) → Option (List Nat) → Nat
    → Except Unit (Option (Nat × Nat × Nat) × Option (List Nat))
  | 0, fmt, dat, _ => .ok (fmt, dat)
  | fuel + 1, fmt, dat, off =>
    if off + 8 ≤ fd.length then
      let csz := readU32 fd (off + 4)
      if readBytes fd off 4 = fmtTag then
        if fd.length < off + 8 + csz ∨ csz < 16 then .error ()
        else if readU16 fd (off + 8) ≠ 1 then .error ()
        else chunkLoopF fd fuel
          (some (readU16 fd (off + 10), readU32 fd (off + 12), readU16 fd (off + 22)))
          dat (off + 8 + csz + csz % 2)
      else if readBytes fd off 4 = dataTag then
        chunkLoopF fd fuel fmt
          (some (readBytes fd (off + 8)
            (if fd.length < off + 8 + csz then fd.length - off - 8 else csz)))
          (off + 8 + csz + csz % 2)
      else chunkLoopF fd fuel fmt dat (off + 8 + csz + csz % 2)
    else .ok (fmt, dat)

/-- `read_wav` on the file's bytes; `Except.error` is the C function's `-1`
    return.  (The I/O failure paths — unreadable file, allocation failure —
    are outside the model.) -/
def read_wav (fd : List Nat) : Except Unit WavInfo :=
  if fd.length < 44 then .error ()
  else if ¬(readBytes fd 0 4 = RIFF ∧ readBytes fd 8 4 = WAVE) then .error ()
  else
    match chunkLoopF fd fd.length none none 12 with
    | .error _ => .error ()
    | .ok (fmt, dat) =>
      match fmt, dat with
      | some (chans, rate, bits), some pcm =>
        if pcm.length = 0 then .error ()
        else if chans ≠ 1 then .error ()
        else if ¬(bits = 8 ∨ bits = 16) then .error ()
        else .ok ⟨chans, rate, bits, pcm⟩
      | some _, none => .error ()
      | none, _ => .error ()

theorem read_wav_ok (fd : List Nat) (w : WavInfo) (h : read_wav fd = .ok w) :
    w.channels = 1 ∧ (w.bit_depth = 8 ∨ w.bit_depth = 16) ∧ w.pcm ≠ [] := by
  simp only [read_wav] at h
  split at h
  · exact Except.noConfusion h
  · split at h
    · exact Except.noConfusion h
    · split at h
      · exact Except.noConfusion h
      · rename_i fmt dat heq
        split at h
        · rename_i chans rate bits pcm
          split at h
          · exact Except.noConfusion h
          · split at h
            · exact Except.noConfusion h
            · split at h
              · exact Except.noConfusion h
              · rename_i hpcm hch hbits
                simp only [Except.ok.injEq] at h
                subst h
                refine ⟨show chans = 1 by omega,
                  show bits = 8 ∨ bits = 16 by tauto, ?_⟩
                intro hc
                apply hpcm
                show pcm.length = 0
                have hce : pcm = [] := hc
                rw [hce]
                rfl
        · exact Except.noConfusion h
        · exact Except.noConfusion h

/-! ### The tempo computation of `main`

    `speed = (int)rows_per_beat`, `base_bpm = (60*60)/(speed*rows_per_beat)`,
    `vt_num = (uint16_t)(int)bpm`, `vt_den = (uint16_t)(int)round(base_bpm)`.
    `(int)x` truncates toward zero (both values here are positive, so it is
    the floor; the model assumes they fit in `int`, i.e. are below 2^31,
    where the C cast is defined), and the `uint16_t` conversions reduce
    modulo 2^16.  `round` for positive arguments is `⌊x + 1/2⌋`, exactly
    Mathlib's `round`. -/
def calcTempo (bpm : ℚ) (r : Nat) : Nat × Nat :=
  (⌊bpm⌋.toNat % 65536,
    (round ((3600 : ℚ) / ((r : ℚ) * (r : ℚ)))).toNat % 65536)

/-- The tempo pair as the specification describes it: the numerator is the
    truncated BPM and the denominator the rounded `3600 / (speed * rows)` —
    with no modular reduction. -/
def specTempo (bpm : ℚ) (r : Nat) : Nat × Nat :=
  (⌊bpm⌋.toNat, (round ((3600 : ℚ) / ((r : ℚ) * (r : ℚ)))).toNat)

/-! ### `main` after argument parsing -/

/-- `strrchr(name, '.')` truncation: drop the last `.`-started extension. -/
def dropExt (fn : List Nat) : List Nat :=
  if 46 ∈ fn then fn.take (fn.length - 1 - fn.reverse.indexOf 46) else fn

/-- Read every WAV in order and build the sample records (`filename` and
    `name` are truncated to 255 bytes by the `strncpy` into the fixed
    256-byte fields). -/
def loadAll (fns : List (List Nat)) (files : List Nat → List Nat) :
    Except Unit (List SampleData) :=
  match fns with
  | [] => .ok []
  | fn :: rest =>
    match read_wav (files fn) with
    | .error _ => .error ()
    | .ok w =>
      match loadAll rest files with
      | .error _ => .error ()
      | .ok ws => .ok (⟨fn.take 255, dropExt (fn.take 255), w.pcm,
          w.pcm.length / (w.bit_depth / 8), w.channels, w.sample_rate,
          w.bit_depth⟩ :: ws)

/-- `main` from the directory scan to the assembled (uncompressed) container:
    scan, fail with exit code 1 on zero matches, sort by `strcmp`, load every
    WAV (exit 1 on any failure), compute the tempo and encode.  `names` is
    the directory enumeration, `files fn` the bytes of file `fn`. -/
def furMain (names : List (List Nat)) (files : List Nat → List Nat)
    (bpm : ℚ) (r p : Nat) : Except Nat Enc :=
  let picked := scanLoop names 0
  if picked.length = 0 then .error 1
  else
    match loadAll (List.insertionSort nameLe picked) files with
    | .error _ => .error 1
    | .ok ss => .ok (encode ss r p (calcTempo bpm r).1 (calcTempo bpm r).2)

/-! ### Claim C3 -/

/-- C3 (amended): for positive BPM below 2^16 and positive rows-per-beat, the
    numerator is exactly the truncated BPM, the denominator is exactly
    `round(3600 / (speed * rows_per_beat))` (which never exceeds 3600, so it
    never wraps), and BPM = 120 with rows_per_beat = 4 gives (120, 225).
    (Without the 2^16 bound the numerator wraps — see the counterexample.) -/
theorem C3_tempo (bpm : ℚ) (r : Nat) (hb1 : 0 < bpm) (hb2 : bpm < 65536)
    (hr : 0 < r) :
    (calcTempo bpm r).1 = ⌊bpm⌋.toNat
    ∧ (calcTempo bpm r).2 = (round ((3600 : ℚ) / ((r : ℚ) * (r : ℚ)))).toNat
    ∧ calcTempo 120 4 = specTempo 120 4
    ∧ calcTempo 120 4 = (120, 225) := by
  have hf1 : (0 : ℤ) ≤ ⌊bpm⌋ := Int.floor_nonneg.mpr (le_of_lt hb1)
  have hf2 : ⌊bpm⌋ < 65536 := Int.floor_lt.mpr (by exact_mod_cast hb2)
  refine ⟨?_, ?_, by norm_num [calcTempo, specTempo, round_eq]; try decide,
    by norm_num [calcTempo, round_eq]; try decide⟩
  · simp only [calcTempo]
    exact Nat.mod_eq_of_lt (by omega)
  · simp only [calcTempo]
    apply Nat.mod_eq_of_lt
    have hr1 : (1 : ℚ) ≤ (r : ℚ) := by exact_mod_cast hr
    have hrr : (1 : ℚ) ≤ (r : ℚ) * (r : ℚ) := by nlinarith
    have hx : (3600 : ℚ) / ((r : ℚ) * (r : ℚ)) ≤ 3600 :=
      div_le_self (by norm_num) hrr
    have hx0 : (0 : ℚ) ≤ (3600 : ℚ) / ((r : ℚ) * (r : ℚ)) := by positivity
    have h1 : round ((3600 : ℚ) / ((r : ℚ) * (r : ℚ))) ≤ 3600 := by
      rw [round_eq]
      calc ⌊(3600 : ℚ) / ((r : ℚ) * (r : ℚ)) + 1 / 2⌋
          ≤ ⌊(3600 : ℚ) + 1 / 2⌋ := Int.floor_le_floor (by linarith)
        _ = 3600 := by norm_num
    have h0 : 0 ≤ round ((3600 : ℚ) / ((r : ℚ) * (r : ℚ))) := by
      rw [round_eq]
      exact Int.floor_nonneg.mpr (by linarith)
    omega

/-- Witness for C3 (amended) at BPM 120, rows-per-beat 4. -/
theorem C3_tempo_witness :
    ((0 : ℚ) < 120 ∧ (120 : ℚ) < 65536 ∧ 0 < 4)
    ∧ (calcTempo 120 4).1 = ⌊(120 : ℚ)⌋.toNat :=
  ⟨⟨by decide, by decide, by decide⟩,
    (C3_tempo 120 4 (by decide) (by decide) (by decide)).1⟩

/-- C3 counterexample: the claim asserts the numerator is the truncated BPM
    for EVERY positive BPM, but the `uint16_t` cast wraps: BPM 70000 with
    rows_per_beat 4 yields numerator 4464, not 70000. -/
theorem C3_counterexample :
    (0 : ℚ) < 70000 ∧ 0 < 4
    ∧ calcTempo 70000 4 = (4464, 225)
    ∧ specTempo 70000 4 = (70000, 225)
    ∧ calcTempo 70000 4 ≠ specTempo 70000 4 :=
  ⟨by decide, by decide, by norm_num [calcTempo, round_eq]; try decide,
    by norm_num [specTempo, round_eq]; try decide,
    by norm_num [calcTempo, specTempo, round_eq]⟩

/-! ### Claim C4 -/

/-- C4 (amended): a directory with more than 120 matching entries is not an
    error: exactly 120 samples are retained, namely the first 120 matching
    entries in ENUMERATION order, subsequently sorted.  (The claim's "first
    120 in sorted order" is refuted by the counterexample.) -/
theorem C4_truncation (names : List (List Nat))
    (h : 120 < (names.filter isWavName).length) :
    (scanLoop names 0).length = 120
    ∧ furOrder names
        = List.insertionSort nameLe ((names.filter isWavName).take 120) := by
  constructor
  · rw [scanLoop_eq, Nat.sub_zero, List.length_take]
    omega
  · simp only [furOrder, scanLoop_eq, Nat.sub_zero]

/-- Witness for C4 (amended) on the 121-entry directory. -/
theorem C4_truncation_witness :
    120 < (dirA.filter isWavName).length
    ∧ (scanLoop dirA 0).length = 120 :=
  ⟨by decide, (C4_truncation dirA (by decide)).1⟩

/-- C4 counterexample: the retained set is NOT the first 120 entries in
    sorted order.  Enumerated first, `z.wav` is retained (it is among the
    first 120 scanned) even though it sorts last of the 121 matching names
    and thus is not among the sorted first 120. -/
theorem C4_counterexample :
    120 < (dirA.filter isWavName).length
    ∧ zName ∈ furOrder dirA
    ∧ zName ∉ (List.insertionSort nameLe (dirA.filter isWavName)).take 120 := by
  refine ⟨by decide, ?_, ?_⟩
  · simp only [furOrder]
    exact ((List.perm_insertionSort nameLe (scanLoop dirA 0)).mem_iff).mpr (by decide)
  · have hF : dirA.filter isWavName = zName :: names120 := by decide
    have hperm : (List.insertionSort nameLe (dirA.filter isWavName)).Perm
        (names120 ++ [zName]) := by
      refine (List.perm_insertionSort nameLe _).trans ?_
      rw [hF]
      exact (List.perm_append_singleton _ _).symm
    have hs2 : (names120 ++ [zName]).Sorted nameLe := by decide
    have hEq : List.insertionSort nameLe (dirA.filter isWavName)
        = names120 ++ [zName] :=
      List.eq_of_perm_of_sorted hperm (List.sorted_insertionSort _ _) hs2
    rw [hEq]
    rw [List.take_left' (show names120.length = 120 from by simp [names120])]
    decide

/-! ### Claim C5 -/

/-- A 48-byte WAV whose `data` chunk declares 1000 bytes although only 4
    remain in the file. -/
def badWav : List Nat :=
  [82, 73, 70, 70, 40, 0, 0, 0, 87, 65, 86, 69,
   102, 109, 116, 32, 16, 0, 0, 0, 1, 0, 1, 0, 64, 31, 0, 0, 64, 31, 0, 0,
   1, 0, 8, 0,
   100, 97, 116, 97, 232, 3, 0, 0, 10, 20, 30, 40]

/-- A fmt chunk whose declared bounds overrun the file, or whose size is
    under 16, makes the chunk scan fail (`Error: bad fmt`). -/
theorem chunkLoopF_fmt_bad (fd : List Nat) (fuel : Nat)
    (fmt : Option (Nat × Nat × Nat)) (dat : Option (List Nat)) (off : Nat)
    (h8 : off + 8 ≤ fd.length)
    (htag : readBytes fd off 4 = fmtTag)
    (hbad : fd.length < off + 8 + readU32 fd (off + 4) ∨ readU32 fd (off + 4) < 16) :
    chunkLoopF fd (fuel + 1) fmt dat off = .error () := by
  simp only [chunkLoopF]
  rw [if_pos h8, if_pos htag, if_pos hbad]

/-- A well-bounded fmt chunk whose encoding field is not 1 (uncompressed
    PCM) makes the chunk scan fail (`Error: not PCM`). -/
theorem chunkLoopF_fmt_nonpcm (fd : List Nat) (fuel : Nat)
    (fmt : Option (Nat × Nat × Nat)) (dat : Option (List Nat)) (off : Nat)
    (h8 : off + 8 ≤ fd.length)
    (htag : readBytes fd off 4 = fmtTag)
    (hok : ¬(fd.length < off + 8 + readU32 fd (off + 4) ∨ readU32 fd (off + 4) < 16))
    (hpcm : readU16 fd (off + 8) ≠ 1) :
    chunkLoopF fd (fuel + 1) fmt dat off = .error () := by
  simp only [chunkLoopF]
  rw [if_pos h8, if_pos htag, if_neg hok, if_pos hpcm]

/-- A chunk-scan failure makes the whole `read_wav` fail. -/
theorem read_wav_error_of_chunkLoop (fd : List Nat)
    (h : chunkLoopF fd fd.length none none 12 = .error ()) :
    read_wav fd = .error () := by
  simp only [read_wav]
  split
  · rfl
  · split
    · rfl
    · rw [h]

/-- End to end: a file whose fmt chunk (at the canonical offset 12) declares
    bounds past the end of the file, or a size under 16, is a format error. -/
theorem read_wav_fmt_bounds_err (fd : List Nat)
    (hlen : ¬fd.length < 44)
    (hriff : readBytes fd 0 4 = RIFF) (hwave : readBytes fd 8 4 = WAVE)
    (htag : readBytes fd 12 4 = fmtTag)
    (hbad : fd.length < 20 + readU32 fd 16 ∨ readU32 fd 16 < 16) :
    read_wav fd = .error () := by
  apply read_wav_error_of_chunkLoop
  obtain ⟨m, hm⟩ : ∃ m, fd.length = m + 1 := ⟨fd.length - 1, by omega⟩
  rw [hm]
  apply chunkLoopF_fmt_bad fd m none none 12 (by omega) htag
  simp only [show (12 : Nat) + 4 = 16 from rfl]
  rcases hbad with h | h
  · left
    omega
  · right
    omega

/-- End to end: a file whose fmt chunk (at the canonical offset 12) is well
    bounded but not uncompressed PCM is a format error. -/
theorem read_wav_fmt_nonpcm_err (fd : List Nat)
    (hlen : ¬fd.length < 44)
    (hriff : readBytes fd 0 4 = RIFF) (hwave : readBytes fd 8 4 = WAVE)
    (htag : readBytes fd 12 4 = fmtTag)
    (hok : ¬(fd.length < 20 + readU32 fd 16 ∨ readU32 fd 16 < 16))
    (hpcm : readU16 fd 20 ≠ 1) :
    read_wav fd = .error () := by
  apply read_wav_error_of_chunkLoop
  obtain ⟨m, hm⟩ : ∃ m, fd.length = m + 1 := ⟨fd.length - 1, by omega⟩
  rw [hm]
  exact chunkLoopF_fmt_nonpcm fd m none none 12 (by omega) htag
    (by simp only [show (12 : Nat) + 4 = 16 from rfl]; omega)
    (by simpa using hpcm)

/-- C5 (amended): the reader rejects bad container and format tags; a fmt
    chunk with out-of-file bounds or size under 16, or with a non-PCM
    encoding, aborts the chunk scan with an error, which aborts `read_wav`
    (stated for any scanned chunk position, and end to end for the canonical
    fmt chunk at offset 12); any successfully loaded file is mono with bit
    depth 8 or 16 and nonempty PCM.  A data chunk whose declared bounds
    overrun the file is clamped to the available bytes rather than rejected
    (see the counterexample). -/
theorem C5_wav_validation :
    (∀ fd : List Nat, readBytes fd 0 4 ≠ RIFF → read_wav fd = .error ())
    ∧ (∀ fd : List Nat, readBytes fd 8 4 ≠ WAVE → read_wav fd = .error ())
    ∧ (∀ (fd : List Nat) (fuel : Nat) (fmt : Option (Nat × Nat × Nat))
        (dat : Option (List Nat)) (off : Nat), off + 8 ≤ fd.length →
        readBytes fd off 4 = fmtTag →
        (fd.length < off + 8 + readU32 fd (off + 4) ∨ readU32 fd (off + 4) < 16) →
        chunkLoopF fd (fuel + 1) fmt dat off = .error ())
    ∧ (∀ (fd : List Nat) (fuel : Nat) (fmt : Option (Nat × Nat × Nat))
        (dat : Option (List Nat)) (off : Nat), off + 8 ≤ fd.length →
        readBytes fd off 4 = fmtTag →
        ¬(fd.length < off + 8 + readU32 fd (off + 4) ∨ readU32 fd (off + 4) < 16) →
        readU16 fd (off + 8) ≠ 1 →
        chunkLoopF fd (fuel + 1) fmt dat off = .error ())
    ∧ (∀ fd : List Nat, chunkLoopF fd fd.length none none 12 = .error ()
        → read_wav fd = .error ())
    ∧ (∀ fd : List Nat, ¬fd.length < 44 → readBytes fd 0 4 = RIFF →
        readBytes fd 8 4 = WAVE → readBytes fd 12 4 = fmtTag →
        (fd.length < 20 + readU32 fd 16 ∨ readU32 fd 16 < 16) →
        read_wav fd = .error ())
    ∧ (∀ fd : List Nat, ¬fd.length < 44 → readBytes fd 0 4 = RIFF →
        readBytes fd 8 4 = WAVE → readBytes fd 12 4 = fmtTag →
        ¬(fd.length < 20 + readU32 fd 16 ∨ readU32 fd 16 < 16) →
        readU16 fd 20 ≠ 1 →
        read_wav fd = .error ())
    ∧ (∀ fd w, read_wav fd = .ok w
        → w.channels = 1 ∧ (w.bit_depth = 8 ∨ w.bit_depth = 16) ∧ w.pcm ≠ []) := by
  refine ⟨?_, ?_, chunkLoopF_fmt_bad, chunkLoopF_fmt_nonpcm,
    read_wav_error_of_chunkLoop, read_wav_fmt_bounds_err, read_wav_fmt_nonpcm_err,
    fun fd w h => read_wav_ok fd w h⟩
  · intro fd hne
    simp only [read_wav]
    split
    · rfl
    · rw [if_pos (fun hc => hne hc.1)]
  · intro fd hne
    simp only [read_wav]
    split
    · rfl
    · rw [if_pos (fun hc => hne hc.2)]

/-- Witness for C5 (amended) on a non-RIFF input. -/
theorem C5_wav_validation_witness :
    (readBytes ([0, 1, 2] : List Nat) 0 4 ≠ RIFF)
    ∧ read_wav [0, 1, 2] = .error () :=
  ⟨by decide, C5_wav_validation.1 [0, 1, 2] (by decide)⟩

/-- C5 counterexample: the claim says a chunk whose declared bounds extend
    past the end of the file is a format error; but for the `data` chunk the
    reader clamps the length (fur_gen.c line 185) and succeeds. -/
theorem C5_counterexample :
    readU32 badWav 40 = 1000
    ∧ badWav.length = 48
    ∧ badWav.length < 36 + 8 + 1000
    ∧ read_wav badWav = .ok ⟨1, 8000, 8, [10, 20, 30, 40]⟩ :=
  ⟨by decide, by decide, by decide, rfl⟩

/-! ### Claim C6 -/

/-- C6: a directory with no matching entries is a fatal error with exit
    status 1, before any encoding begins. -/
theorem C6_zero_files (names : List (List Nat)) (files : List Nat → List Nat)
    (bpm : ℚ) (r p : Nat) (h : names.filter isWavName = []) :
    furMain names files bpm r p = .error 1 := by
  simp only [furMain]
  rw [scanLoop_eq, Nat.sub_zero, h]
  simp

/-- A file system with no file contents. -/
def emptyFS : List Nat → List Nat := fun _ => []

/-- Witness for C6 on a directory holding only `abc`. -/
theorem C6_zero_files_witness :
    ([[97, 98, 99]] : List (List Nat)).filter isWavName = []
    ∧ furMain [[97, 98, 99]] emptyFS 120 4 8 = .error 1 :=
  ⟨by decide, C6_zero_files [[97, 98, 99]] emptyFS 120 4 8 (by decide)⟩

/-! ### Claim C7 -/

/-- C7 (amended): for at most 120 matching entries the retained, sorted name
    list — and hence the whole run — is independent of the directory
    enumeration order.  (With more than 120 matching entries this fails, see
    the counterexample.) -/
theorem C7_determinism (names1 names2 : List (List Nat))
    (hperm : names1.Perm names2)
    (hcount : (names1.filter isWavName).length ≤ 120) :
    furOrder names1 = furOrder names2
    ∧ (furOrder names1).Sorted nameLe
    ∧ ∀ files bpm r p, furMain names1 files bpm r p = furMain names2 files bpm r p := by
  have hpf : (names1.filter isWavName).Perm (names2.filter isWavName) :=
    hperm.filter _
  have hc2 : (names2.filter isWavName).length ≤ 120 := by
    rw [← hpf.length_eq]
    exact hcount
  have hs1 : scanLoop names1 0 = names1.filter isWavName := by
    rw [scanLoop_eq, Nat.sub_zero]
    exact List.take_of_length_le hcount
  have hs2 : scanLoop names2 0 = names2.filter isWavName := by
    rw [scanLoop_eq, Nat.sub_zero]
    exact List.take_of_length_le hc2
  have hsort : List.insertionSort nameLe (names1.filter isWavName)
      = List.insertionSort nameLe (names2.filter isWavName) := by
    apply List.eq_of_perm_of_sorted _ (List.sorted_insertionSort _ _)
      (List.sorted_insertionSort _ _)
    exact ((List.perm_insertionSort _ _).trans hpf).trans
      (List.perm_insertionSort _ _).symm
  have hmain : furOrder names1 = furOrder names2 := by
    simp only [furOrder, hs1, hs2]
    exact hsort
  refine ⟨hmain, ?_, ?_⟩
  · simp only [furOrder]
    exact List.sorted_insertionSort _ _
  · intro files bpm r p
    simp only [furMain]
    rw [hs1, hs2, hpf.length_eq, hsort]

/-- Witness for C7 (amended) on two enumerations of a two-file directory. -/
theorem C7_determinism_witness :
    (([[97, 46, 119, 97, 118], [98, 46, 119, 97, 118]] : List (List Nat)).Perm
        [[98, 46, 119, 97, 118], [97, 46, 119, 97, 118]]
      ∧ (([[97, 46, 119, 97, 118], [98, 46, 119, 97, 118]] : List (List Nat)).filter
          isWavName).length ≤ 120)
    ∧ furOrder [[97, 46, 119, 97, 118], [98, 46, 119, 97, 118]]
        = furOrder [[98, 46, 119, 97, 118], [97, 46, 119, 97, 118]] :=
  ⟨⟨by decide, by decide⟩,
    (C7_determinism [[97, 46, 119, 97, 118], [98, 46, 119, 97, 118]]
      [[98, 46, 119, 97, 118], [97, 46, 119, 97, 118]] (by decide) (by decide)).1⟩

/-- C7 counterexample: two enumerations of the same 121-file directory
    produce different retained name lists, so the run is not independent of
    enumeration order. -/
theorem C7_counterexample :
    dirA.Perm dirB ∧ furOrder dirA ≠ furOrder dirB := by
  constructor
  · exact (List.perm_append_singleton _ _).symm
  · intro heq
    have h1 : zName ∈ furOrder dirA := by
      simp only [furOrder]
      exact ((List.perm_insertionSort nameLe (scanLoop dirA 0)).mem_iff).mpr
        (by decide)
    have h2 : zName ∉ furOrder dirB := by
      intro hc
      have hm := ((List.perm_insertionSort nameLe (scanLoop dirB 0)).mem_iff).mp hc
      exact (by decide : zName ∉ scanLoop dirB 0) hm
    rw [heq] at h1
    exact h2 h1

/-! ### Claim C8: buffer invariants -/

/-- The `Buffer` invariant of fur_gen.c: a live (positive) capacity of at
    least the current length. -/
def bufInv (e : Enc) : Prop := 0 < e.buf.cap ∧ e.buf.data.length ≤ e.buf.cap

theorem growCap_spec_fuel (fuel : Nat) :
    ∀ need cap, need - cap ≤ fuel → 0 < cap →
      cap ≤ growCap need cap ∧ need ≤ growCap need cap
      ∧ ∃ k, growCap need cap = cap * 2 ^ k := by
  induction fuel with
  | zero =>
    intro need cap hf hc
    rw [growCap, dif_neg (by omega)]
    exact ⟨Nat.le_refl _, by omega, 0, by simp⟩
  | succ fuel ih =>
    intro need cap hf hc
    by_cases hlt : cap < need
    · rw [growCap, dif_pos ⟨hc, hlt⟩]
      have := ih need (cap * 2) (by omega) (by omega)
      refine ⟨by omega, this.2.1, ?_⟩
      obtain ⟨k, hk⟩ := this.2.2
      exact ⟨k + 1, by rw [hk]; ring⟩
    · rw [growCap, dif_neg (by omega)]
      exact ⟨Nat.le_refl _, by omega, 0, by simp⟩

theorem growCap_spec (need cap : Nat) (h : 0 < cap) :
    cap ≤ growCap need cap ∧ need ≤ growCap need cap
    ∧ ∃ k, growCap need cap = cap * 2 ^ k :=
  growCap_spec_fuel need need cap (by omega) h

theorem buf_write_inv (e : Enc) (src : List Nat) (h : bufInv e) :
    bufInv (buf_write e src) := by
  obtain ⟨h1, h2⟩ := h
  have := growCap_spec (e.buf.data.length + src.length) e.buf.cap h1
  exact ⟨by simp only [buf_write]; omega,
    by simp only [buf_write, List.length_append]; omega⟩

theorem buf_patch_u32_inv (e : Enc) (off v : Nat) (h : bufInv e) :
    bufInv (buf_patch_u32 e off v) := by
  obtain ⟨h1, h2⟩ := h
  exact ⟨h1, by simp only [buf_patch_u32, setBytes_length]; exact h2⟩

theorem buf_patch_u16_inv (e : Enc) (off v : Nat) (h : bufInv e) :
    bufInv (buf_patch_u16 e off v) := by
  obtain ⟨h1, h2⟩ := h
  exact ⟨h1, by simp only [buf_patch_u16, setBytes_length]; exact h2⟩

theorem zeroPtrs_inv (e : Enc) (n : Nat) (h : bufInv e) : bufInv (zeroPtrs e n) := by
  induction n generalizing e with
  | zero => exact h
  | succ k ih => exact ih _ (buf_write_inv _ _ h)

theorem u8IndexLoop_inv (e : Enc) (i n : Nat) (h : bufInv e) :
    bufInv (u8IndexLoop e i n) := by
  induction n generalizing e i with
  | zero => exact h
  | succ k ih => exact ih _ _ (buf_write_inv _ _ h)

theorem smLoop_inv (e : Enc) (idx n : Nat) (h : bufInv e) : bufInv (smLoop e idx n) := by
  induction n generalizing e with
  | zero => exact h
  | succ k ih => exact ih _ (buf_write_inv _ _ (buf_write_inv _ _ h))

theorem neLoop_inv (e : Enc) (n : Nat) (h : bufInv e) : bufInv (neLoop e n) := by
  induction n generalizing e with
  | zero => exact h
  | succ k ih => exact ih _ (buf_write_inv _ _ (buf_write_inv _ _ h))

theorem write_info_inv (e : Enc) (n s p vn vd : Nat) (h : bufInv e) :
    bufInv (write_info e n s p vn vd).1 :=
  buf_patch_u32_inv _ _ _ (buf_patch_u16_inv _ _ _ (buf_patch_u16_inv _ _ _ (buf_write_inv _ _ (u8IndexLoop_inv _ _ _ (zeroPtrs_inv _ _ (zeroPtrs_inv _ _ (zeroPtrs_inv _ _ (buf_write_inv _ _ (buf_write_inv _ _ (buf_write_inv _ _ (buf_write_inv _ _ (buf_write_inv _ _ (buf_write_inv _ _ (buf_write_inv _ _ (buf_write_inv _ _ (buf_write_inv _ _ (buf_write_inv _ _ (buf_write_inv _ _ (buf_write_inv _ _ (buf_write_inv _ _ (buf_write_inv _ _ (buf_write_inv _ _ (buf_write_inv _ _ (buf_write_inv _ _ (buf_write_inv _ _ (buf_write_inv _ _ (buf_write_inv _ _ (buf_write_inv _ _ (buf_write_inv _ _ h)))))))))))))))))))))))))))))

theorem write_adir_ins_inv (e : Enc) (n : Nat) (h : bufInv e) :
    bufInv (write_adir_ins e n) :=
  u8IndexLoop_inv _ _ _ (buf_write_inv _ _ (buf_write_inv _ _ (buf_write_inv _ _
    (buf_write_inv _ _ (buf_write_inv _ _ (buf_write_inv _ _ h))))))

theorem write_adir_wav_inv (e : Enc) (h : bufInv e) : bufInv (write_adir_wav e) :=
  buf_write_inv _ _ (buf_write_inv _ _ (buf_write_inv _ _ h))

theorem write_adir_smp_inv (e : Enc) (n : Nat) (h : bufInv e) :
    bufInv (write_adir_smp e n) :=
  u8IndexLoop_inv _ _ _ (buf_write_inv _ _ (buf_write_inv _ _ (buf_write_inv _ _
    (buf_write_inv _ _ (buf_write_inv _ _ (buf_write_inv _ _ h))))))

theorem write_ins2_inv (e : Enc) (nm : List Nat) (idx : Nat) (h : bufInv e) :
    bufInv (write_ins2 e nm idx) :=
  buf_patch_u32_inv _ _ _ (buf_write_inv _ _ (neLoop_inv _ _ (buf_write_inv _ _ (buf_write_inv _ _ (buf_write_inv _ _ (smLoop_inv _ _ _ (buf_write_inv _ _ (buf_write_inv _ _ (buf_write_inv _ _ (buf_write_inv _ _ (buf_write_inv _ _ (buf_write_inv _ _ (buf_write_inv _ _ (buf_write_inv _ _ (buf_write_inv _ _ (buf_write_inv _ _ (buf_write_inv _ _ (buf_write_inv _ _ (buf_write_inv _ _ h)))))))))))))))))))

theorem write_smp2_inv (e : Enc) (s : SampleData) (h : bufInv e) :
    bufInv (write_smp2 e s) :=
  buf_patch_u32_inv _ _ _ (buf_write_inv _ _ (buf_write_inv _ _ (buf_write_inv _ _ (buf_write_inv _ _ (buf_write_inv _ _ (buf_write_inv _ _ (buf_write_inv _ _ (buf_write_inv _ _ (buf_write_inv _ _ (buf_write_inv _ _ (buf_write_inv _ _ (buf_write_inv _ _ (buf_write_inv _ _ (buf_write_inv _ _ h))))))))))))))

theorem write_patn_inv (e : Enc) (idx : Nat) (h : bufInv e) :
    bufInv (write_patn e idx) :=
  buf_write_inv _ _ (buf_write_inv _ _ (buf_write_inv _ _ (buf_write_inv _ _
    (buf_write_inv _ _ (buf_write_inv _ _ (buf_write_inv _ _ (buf_write_inv _ _
    (buf_write_inv _ _ (buf_write_inv _ _ h)))))))))

theorem ins2Loop_inv (ss : List SampleData) (e : Enc) (i p : Nat) (h : bufInv e) :
    bufInv (ins2Loop e ss i p) := by
  induction ss generalizing e i with
  | nil => exact h
  | cons a rest ih =>
    simp only [ins2Loop]
    exact ih _ _ (buf_patch_u32_inv _ _ _ (write_ins2_inv _ _ _ h))

theorem smp2Loop_inv (ss : List SampleData) (e : Enc) (i n p : Nat) (h : bufInv e) :
    bufInv (smp2Loop e ss i n p) := by
  induction ss generalizing e i with
  | nil => exact h
  | cons a rest ih =>
    simp only [smp2Loop]
    exact ih _ _ (buf_patch_u32_inv _ _ _ (write_smp2_inv _ _ h))

theorem patnLoop_inv (k : Nat) (e : Enc) (i n p : Nat) (h : bufInv e) :
    bufInv (patnLoop e i n p k) := by
  induction k generalizing e i with
  | zero => exact h
  | succ k ih =>
    simp only [patnLoop]
    exact ih _ _ (buf_patch_u32_inv _ _ _ (write_patn_inv _ _ h))

theorem bufInit_inv : bufInv bufInit := ⟨by decide, by decide⟩

theorem encode_inv (ss : List SampleData) (s p vn vd : Nat) :
    bufInv (encode ss s p vn vd) :=
  patnLoop_inv _ _ _ _ _ (smp2Loop_inv _ _ _ _ _ (ins2Loop_inv _ _ _ _
    (buf_patch_u32_inv _ _ _ (buf_patch_u32_inv _ _ _ (buf_patch_u32_inv _ _ _
    (write_adir_smp_inv _ _ (write_adir_wav_inv _ (write_adir_ins_inv _ _
    (write_info_inv _ _ _ _ _ _ (buf_write_inv _ _ (buf_write_inv _ _
    (buf_write_inv _ _ (buf_write_inv _ _ (buf_write_inv _ _
    bufInit_inv))))))))))))))

/-! ### Every recorded patch lies inside the already-written region -/

theorem infoTraceSpec_inbounds (L n vn vd : Nat) :
    ∀ ev ∈ infoTraceSpec L n vn vd,
      ev.off + ev.width ≤ ev.lenAt ∧ ev.lenAt = L + 542 + 13 * n := by
  intro ev hev
  simp only [infoTraceSpec, List.mem_cons, List.not_mem_nil, or_false] at hev
  rcases hev with h | h | h <;> subst h
  · exact ⟨by show L + 282 + 13 * n + 38 + 2 ≤ L + 542 + 13 * n; omega, rfl⟩
  · exact ⟨by show L + 282 + 13 * n + 40 + 2 ≤ L + 542 + 13 * n; omega, rfl⟩
  · exact ⟨by show L + 4 + 4 ≤ L + 542 + 13 * n; omega, rfl⟩

theorem ins2TraceSpec_inbounds (ss : List SampleData) (L p i : Nat)
    (hL : p + 4 * (i + ss.length) ≤ L) :
    ∀ ev ∈ ins2TraceSpec L p i ss,
      ev.off + ev.width ≤ ev.lenAt ∧ ev.lenAt ≤ L + (ss.map ins2Len).sum := by
  induction ss generalizing L i with
  | nil => intro ev h; cases h
  | cons a rest ih =>
    intro ev hev
    have hlen : 752 ≤ ins2Len a := by simp only [ins2Len]; omega
    simp only [List.length_cons] at hL
    simp only [List.map_cons, List.sum_cons]
    rcases List.mem_cons.mp hev with h | h
    · subst h
      exact ⟨by show L + 4 + 4 ≤ L + ins2Len a; omega,
        by show L + ins2Len a ≤ _; omega⟩
    · rcases List.mem_cons.mp h with h | h
      · subst h
        exact ⟨by show p + i * 4 + 4 ≤ L + ins2Len a; omega,
          by show L + ins2Len a ≤ _; omega⟩
      · have := ih (L + ins2Len a) (i + 1) (by omega) ev h
        omega

theorem smp2TraceSpec_inbounds (ss : List SampleData) (L p n i : Nat)
    (hL : p + n * 4 + 4 * (i + ss.length) ≤ L) :
    ∀ ev ∈ smp2TraceSpec L p n i ss,
      ev.off + ev.width ≤ ev.lenAt ∧ ev.lenAt ≤ L + (ss.map smp2Len).sum := by
  induction ss generalizing L i with
  | nil => intro ev h; cases h
  | cons a rest ih =>
    intro ev hev
    have hlen : 49 ≤ smp2Len a := by simp only [smp2Len]; omega
    simp only [List.length_cons] at hL
    simp only [List.map_cons, List.sum_cons]
    rcases List.mem_cons.mp hev with h | h
    · subst h
      exact ⟨by show L + 4 + 4 ≤ L + smp2Len a; omega,
        by show L + smp2Len a ≤ _; omega⟩
    · rcases List.mem_cons.mp h with h | h
      · subst h
        exact ⟨by show p + n * 4 + i * 4 + 4 ≤ L + smp2Len a; omega,
          by show L + smp2Len a ≤ _; omega⟩
      · have := ih (L + smp2Len a) (i + 1) (by omega) ev h
        omega

theorem patnTraceSpec_inbounds (k : Nat) (L p n i : Nat)
    (hL : p + n * 2 * 4 + 4 * (i + k) ≤ L) :
    ∀ ev ∈ patnTraceSpec L p n i k,
      ev.off + ev.width ≤ ev.lenAt ∧ ev.lenAt ≤ L + 17 * k := by
  induction k generalizing L i with
  | zero => intro ev h; cases h
  | succ k ih =>
    intro ev hev
    rcases List.mem_cons.mp hev with h | h
    · subst h
      exact ⟨by show p + n * 2 * 4 + i * 4 + 4 ≤ L + 17; omega,
        by show L + 17 ≤ _; omega⟩
    · have := ih (L + 17) (i + 1) (by omega) ev h
      omega

theorem adirTraceSpec_inbounds (n : Nat) :
    ∀ ev ∈ adirTraceSpec n,
      ev.off + ev.width ≤ ev.lenAt ∧ ev.lenAt = insBaseOff n := by
  intro ev hev
  simp only [adirTraceSpec, List.mem_cons, List.not_mem_nil, or_false] at hev
  rcases hev with h | h | h <;> subst h <;>
    refine ⟨?_, rfl⟩ <;>
    show _ + 4 ≤ insBaseOff n <;>
    simp only [postOrderOff, insBaseOff, adir2Off, adir1Off, adir0Off] <;> omega

theorem encode_trace_inbounds (ss : List SampleData) (s p vn vd : Nat) :
    ∀ ev ∈ (encode ss s p vn vd).trace,
      ev.off + ev.width ≤ ev.lenAt
      ∧ ev.lenAt ≤ (encode ss s p vn vd).buf.data.length := by
  intro ev hev
  rw [(encode_spec ss s p vn vd).2] at hev
  rw [encode_len]
  have h1 : 314 + 4 * ss.length + 4 * (0 + ss.length) ≤ insBaseOff ss.length := by
    simp only [insBaseOff, adir2Off, adir1Off, adir0Off]
    omega
  have h2 : insBaseOff ss.length ≤ smpBaseOff ss := by
    simp only [smpBaseOff]
    omega
  have h2sum : insBaseOff ss.length + (ss.map ins2Len).sum = smpBaseOff ss := by
    simp only [smpBaseOff]
  have h3sum : smpBaseOff ss + (ss.map smp2Len).sum = patnBaseOff ss := by
    simp only [patnBaseOff]
  have h4 : patnBaseOff ss + 17 * ss.length = totalLen ss := by
    simp only [totalLen]
  have h5 : 574 + 13 * ss.length ≤ insBaseOff ss.length := by
    simp only [insBaseOff, adir2Off, adir1Off, adir0Off]
    omega
  simp only [traceSpec, List.mem_append] at hev
  rcases hev with h | h | h | h | h
  · have := infoTraceSpec_inbounds 32 ss.length vn vd ev h
    omega
  · have := adirTraceSpec_inbounds ss.length ev h
    omega
  · have := ins2TraceSpec_inbounds ss (insBaseOff ss.length) 314 0 (by omega) ev h
    omega
  · have := smp2TraceSpec_inbounds ss (smpBaseOff ss) 314 ss.length 0 (by omega) ev h
    omega
  · have := patnTraceSpec_inbounds ss.length (patnBaseOff ss) 314 ss.length 0
      (by omega) ev h
    omega

/-- C8: the output buffer always keeps `capacity ≥ length` (with a live
    capacity), an append that would overflow doubles the capacity repeatedly
    before writing, and patches never change the length, only overwrite bytes
    strictly below the length recorded when they were issued, and leave all
    other bytes untouched. -/
theorem C8_buffer_invariants :
    (∀ need cap : Nat, 0 < cap →
      cap ≤ growCap need cap ∧ need ≤ growCap need cap
      ∧ ∃ k, growCap need cap = cap * 2 ^ k)
    ∧ (∀ (e : Enc) (src : List Nat), bufInv e → bufInv (buf_write e src))
    ∧ (∀ (e : Enc) (off v : Nat),
        (buf_patch_u32 e off v).buf.data.length = e.buf.data.length
        ∧ (buf_patch_u32 e off v).buf.cap = e.buf.cap
        ∧ (buf_patch_u16 e off v).buf.data.length = e.buf.data.length)
    ∧ (∀ (e : Enc) (off v roff k : Nat), off + 4 ≤ e.buf.data.length →
        (off + 4 ≤ roff ∨ roff + k ≤ off) →
        readBytes (buf_patch_u32 e off v).buf.data roff k
          = readBytes e.buf.data roff k)
    ∧ (∀ ss s p vn vd, bufInv (encode ss s p vn vd))
    ∧ (∀ ss s p vn vd, ∀ ev ∈ (encode ss s p vn vd).trace,
        ev.off + ev.width ≤ ev.lenAt
        ∧ ev.lenAt ≤ (encode ss s p vn vd).buf.data.length) := by
  refine ⟨growCap_spec, fun e src h => buf_write_inv e src h, ?_, ?_, encode_inv,
    encode_trace_inbounds⟩
  · intro e off v
    exact ⟨by simp [buf_patch_u32], rfl, by simp [buf_patch_u16]⟩
  · intro e off v roff k hb hd
    simp only [buf_patch_u32]
    exact readBytes_setBytes_out _ _ _ _ _ (by simpa using hb) (by simpa using hd)

/-- Witness for C8: capacity growth from 1 to cover 5 bytes. -/
theorem C8_buffer_invariants_witness :
    (0 < 1)
    ∧ (1 ≤ growCap 5 1 ∧ 5 ≤ growCap 5 1 ∧ ∃ k, growCap 5 1 = 1 * 2 ^ k) :=
  ⟨by decide, C8_buffer_invariants.1 5 1 (by decide)⟩

end FurGen
